import Mathlib

/-! # video_streamer: a shallow embedding and its verified properties

Definitions are translated from `src/src/*.h` and `src/src/*.cpp`.

Conventions of the embedding
* a pointer is a `Nat` address, `0` is `nullptr`;
* a pointer to an `image_buffer_releaser` is an `Option releaser_ref`
  (`none` is `nullptr`);
* the operating system and the V4L2 driver are an environment: every system
  call takes the reply the environment gives as an argument, so a statement
  quantified over the replies holds for every behaviour of the environment;
* `capture_device::ioctl` repeats `::ioctl` while it fails with `EINTR`; a
  reply of the driver in the embedding is the reply to the attempt that ends
  this loop;
* a mutex is a `Bool`, `true` while it is locked; a thread that would wait
  for a locked mutex is a step that changes nothing, or the outcome `blocked`;
* observable effects (release actions, system calls) are appended to
  explicit logs.

The definitions come first, the theorems follow from `# Theorems` on.
-/

namespace video_streamer

/-! ## `image_buffer` (video_streamer.h, lines 14-55) -/

/-- The three classes of the repository that implement
`image_buffer_releaser`: `heap_image_buffer_releaser` (video_streamer.cpp),
`c_heap_image_buffer_releaser` (jpeg_frame.cpp) and `v4l2::capture_buffer`
(one object per slot of `m_buffers`, named by its position in the array). -/
inductive releaser_ref where
  | heap
  | c_heap
  | capture_buffer (slot : Nat)
  deriving DecidableEq, Repr

/-- The fields of `class image_buffer`. -/
structure image_buffer where
  m_data : Nat
  m_size : Nat
  m_releaser : Option releaser_ref
  deriving DecidableEq, Repr

/-- One invocation `m_releaser->release(*this)`: the releaser invoked and the
buffer it was handed. -/
structure release_call where
  releaser : releaser_ref
  data : Nat
  size : Nat
  deriving DecidableEq, Repr

/-- The constructor `image_buffer(uint8_t *data, size_t size, image_buffer_releaser *releaser)`. -/
def image_buffer.mk_with (data size : Nat) (releaser : Option releaser_ref) : image_buffer :=
  { m_data := data, m_size := size, m_releaser := releaser }

/-- The move constructor `image_buffer(image_buffer &&buffer)`: the first
component is the new object, the second is `buffer` after the call. -/
def image_buffer.move_construct (buffer : image_buffer) : image_buffer × image_buffer :=
  ({ m_data := buffer.m_data, m_size := buffer.m_size, m_releaser := buffer.m_releaser },
   { m_data := 0, m_size := 0, m_releaser := none })

/-- The destructor `~image_buffer()`: the release calls it performs. -/
def image_buffer.destroy (b : image_buffer) : List release_call :=
  match b.m_releaser with
  | some r => [{ releaser := r, data := b.m_data, size := b.m_size }]
  | none => []

/-- A set of `image_buffer` objects: `objects[i]` is `none` once object `i`
has been destroyed; `released` is the log of release calls, oldest first. -/
structure buffer_world where
  objects : List (Option image_buffer)
  released : List release_call
  deriving DecidableEq, Repr

/-- What a program does with its `image_buffer` objects. -/
inductive buffer_op where
  | move_construct (src : Nat)
  | destroy (obj : Nat)
  deriving DecidableEq, Repr

/-- One operation on a `buffer_world`. Using an object that does not exist or
whose lifetime has ended is not a well-formed program: `none`. -/
def buffer_step (w : buffer_world) : buffer_op → Option buffer_world
  | .move_construct src =>
    match w.objects[src]? with
    | some (some b) =>
      some { objects := w.objects.set src (some b.move_construct.2) ++ [some b.move_construct.1],
             released := w.released }
    | _ => none
  | .destroy obj =>
    match w.objects[obj]? with
    | some (some b) =>
      some { objects := w.objects.set obj none,
             released := w.released ++ b.destroy }
    | _ => none

/-- A sequence of operations, left to right. -/
def buffer_run (w : buffer_world) : List buffer_op → Option buffer_world
  | [] => some w
  | op :: ops =>
    match buffer_step w op with
    | some w1 => buffer_run w1 ops
    | none => none

/-- The ownership invariant of a world that started as one buffer
`(data, size, r)`: either nothing has been released and exactly one live
object holds the releaser, or the one release call has happened and no live
object holds a releaser. -/
def single_owner (r : releaser_ref) (data size : Nat) (w : buffer_world) : Prop :=
  (w.released = [] ∧
    ∃ i : Nat, w.objects[i]? = some (some (image_buffer.mk data size (some r))) ∧
      ∀ (j : Nat) (b : image_buffer), j ≠ i → w.objects[j]? = some (some b) →
        b = image_buffer.mk 0 0 none) ∨
  (w.released = [release_call.mk r data size] ∧
    ∀ (j : Nat) (b : image_buffer), w.objects[j]? = some (some b) →
      b = image_buffer.mk 0 0 none)

/-! ## `v4l2::capture_device` (v4l2_device.h, v4l2_device.cpp) -/

namespace v4l2

/-- The enumeration `capture_method`. -/
inductive capture_method where
  | READ
  | MMAP
  deriving DecidableEq, Repr

/-- The enumeration `format`. -/
inductive format where
  | UNKNOWN
  | YVYU
  | YUYV
  | VYUY
  | UYVY
  | MJPEG
  | H264
  deriving DecidableEq, Repr

/-- The macro `v4l2_fourcc(a, b, c, d)` of `<linux/videodev2.h>`, on character codes. -/
def v4l2_fourcc (a b c d : Nat) : Nat :=
  a + b * 2 ^ 8 + c * 2 ^ 16 + d * 2 ^ 24

/-- `V4L2_PIX_FMT_YVYU = v4l2_fourcc('Y', 'V', 'Y', 'U')`. -/
def V4L2_PIX_FMT_YVYU : Nat := v4l2_fourcc 89 86 89 85
/-- `V4L2_PIX_FMT_YUYV = v4l2_fourcc('Y', 'U', 'Y', 'V')`. -/
def V4L2_PIX_FMT_YUYV : Nat := v4l2_fourcc 89 85 89 86
/-- `V4L2_PIX_FMT_VYUY = v4l2_fourcc('V', 'Y', 'U', 'Y')`. -/
def V4L2_PIX_FMT_VYUY : Nat := v4l2_fourcc 86 89 85 89
/-- `V4L2_PIX_FMT_UYVY = v4l2_fourcc('U', 'Y', 'V', 'Y')`. -/
def V4L2_PIX_FMT_UYVY : Nat := v4l2_fourcc 85 89 86 89
/-- `V4L2_PIX_FMT_MJPEG = v4l2_fourcc('M', 'J', 'P', 'G')`. -/
def V4L2_PIX_FMT_MJPEG : Nat := v4l2_fourcc 77 74 80 71
/-- `V4L2_PIX_FMT_H264 = v4l2_fourcc('H', '2', '6', '4')`. -/
def V4L2_PIX_FMT_H264 : Nat := v4l2_fourcc 72 50 54 52

/-- The fields of `m_format.fmt.pix` (`struct v4l2_pix_format`) the code uses;
each is a `__u32`. -/
structure v4l2_pix_format where
  width : Nat
  height : Nat
  pixelformat : Nat
  bytesperline : Nat
  sizeimage : Nat
  deriving DecidableEq, Repr

/-- The fields of `class capture_buffer`. `new capture_buffer[count]` leaves
`device` and `index` without a value: `none` until the code assigns them.
`mutex` is `true` while the `std::mutex` is locked. -/
structure capture_buffer where
  device : Option Unit
  index : Option Nat
  base : Nat
  length : Nat
  mutex : Bool
  deriving DecidableEq, Repr

/-- The fields of `class capture_device` the embedded functions use
(`m_path` and `m_fd` only name the device to the operating system).
`m_read_mutex` is `true` while the mutex is locked. -/
structure capture_device where
  m_method : capture_method
  m_format : v4l2_pix_format
  m_buffer_count : Nat
  m_buffers : List capture_buffer
  m_read_mutex : Bool
  m_last_used_buffer : Nat
  deriving DecidableEq, Repr

/-- The member function `capture_device::pixel_format()`. -/
def capture_device.pixel_format (dev : capture_device) : format :=
  if dev.m_format.pixelformat = V4L2_PIX_FMT_YVYU then format.YVYU
  else if dev.m_format.pixelformat = V4L2_PIX_FMT_YUYV then format.YUYV
  else if dev.m_format.pixelformat = V4L2_PIX_FMT_VYUY then format.VYUY
  else if dev.m_format.pixelformat = V4L2_PIX_FMT_UYVY then format.UYVY
  else if dev.m_format.pixelformat = V4L2_PIX_FMT_MJPEG then format.MJPEG
  else if dev.m_format.pixelformat = V4L2_PIX_FMT_H264 then format.H264
  else format.UNKNOWN

/-- The value of a `__u32` read as an `int`. -/
def u32_to_int (v : Nat) : Int :=
  if v % 2 ^ 32 < 2 ^ 31 then (v % 2 ^ 32 : Nat) else (v % 2 ^ 32 : Nat) - 2 ^ 32

/-- The member function `capture_device::frame_width()`. -/
def capture_device.frame_width (dev : capture_device) : Int :=
  u32_to_int dev.m_format.width

/-- The member function `capture_device::frame_height()`. -/
def capture_device.frame_height (dev : capture_device) : Int :=
  u32_to_int dev.m_format.height

/-- The loop of `wrap_buffer`:
`while (length > 0 && ((const char*) buffer.base)[length - 1] == 0) length--;`
over the process memory `mem` (address to byte). -/
def trim_trailing_zeros (mem : Nat → Nat) (base : Nat) : Nat → Nat
  | 0 => 0
  | length + 1 =>
    if mem (base + length) = 0 then trim_trailing_zeros mem base length else length + 1

/-- The member function `capture_device::wrap_buffer(buffer, length)`, where
`buffer` is `m_buffers[slot]`; `&buffer` is the releaser of the result. -/
def capture_device.wrap_buffer (dev : capture_device) (mem : Nat → Nat) (slot : Nat)
    (buffer : capture_buffer) (length : Nat) : image_buffer :=
  let length :=
    if dev.m_format.pixelformat = V4L2_PIX_FMT_MJPEG then
      trim_trailing_zeros mem buffer.base length
    else length
  image_buffer.mk_with buffer.base length (some (releaser_ref.capture_buffer slot))

/-- A process memory that holds `bytes` from address `base` on and zero elsewhere. -/
def memory_of (base : Nat) (bytes : List Nat) : Nat → Nat :=
  fun a => if base ≤ a then bytes.getD (a - base) 0 else 0

end v4l2

/-! ## `stream_server` (video_streamer.h, video_streamer.cpp) -/

deriving instance DecidableEq for Except

/-- `std::string::rfind(c)`: the position of the last `c`, `none` for `npos`. -/
def rfind : List Char → Char → Option Nat
  | [], _ => none
  | x :: xs, c =>
    match rfind xs c with
    | some i => some (i + 1)
    | none => if x = c then some 0 else none

/-- The constructor `std::string(str, pos, len)`. -/
def substr (str : List Char) (pos len : Nat) : List Char :=
  (str.drop pos).take len

/-- The constructor `std::string(str, pos)`. -/
def substr_from (str : List Char) (pos : Nat) : List Char :=
  str.drop pos

/-- Lines 34-48 of the constructor `stream_server::stream_server`: the host and
the port of one listen address, or the message of the
`stream_server_exception` thrown. -/
def parse_address (address : List Char) : Except String (List Char × List Char) :=
  match rfind address ':' with
  | none => .error ("Port number is missing in " ++ String.mk address)
  | some dot_pos =>
    if dot_pos = 0 then
      .error ("Hostname or IP address is missing in " ++ String.mk address)
    else
      let address_start := 0
      let address_end := dot_pos
      let bracketed : Bool :=
        address[address_start]? = some '[' && address[address_end - 1]? = some ']'
      let address_start := if bracketed then address_start + 1 else address_start
      let address_end := if bracketed then address_end - 1 else address_end
      .ok (substr address address_start (address_end - address_start),
           substr_from address (dot_pos + 1))

/-- The replies of the operating system to the calls of one iteration of the
constructor's loop: the error code of `getaddrinfo`, the descriptor returned by
`::socket`, the results of `setsockopt`, `bind` and `listen`. -/
structure net_replies where
  getaddrinfo : Int
  socket : Int
  setsockopt : Int
  bind : Int
  listen : Int
  deriving DecidableEq, Repr

/-- A call the constructor makes to the operating system. -/
inductive net_call where
  | getaddrinfo (host port : List Char)
  | socket (result : Int)
  | setsockopt (fd : Int)
  | bind (fd : Int)
  | listen (fd : Int)
  deriving DecidableEq, Repr

/-- What the body of the constructor did: `outcome` is `m_server_sockets` at
the end of the loop or the message of the `stream_server_exception` thrown;
`calls` is the log of the calls above up to that moment, oldest first. -/
structure loop_result where
  outcome : Except String (List Int)
  calls : List net_call
  deriving DecidableEq, Repr

/-- The loop `for (auto &address : server_addresses)` of the constructor
`stream_server::stream_server`. `env k` are the replies during iteration `k`;
`sockets` is `m_server_sockets`, `calls` the log so far. -/
def stream_server_loop (env : Nat → net_replies) :
    Nat → List (List Char) → List Int → List net_call → loop_result
  | _, [], sockets, calls => { outcome := .ok sockets, calls := calls }
  | k, address :: rest, sockets, calls =>
    match parse_address address with
    | .error message => { outcome := .error message, calls := calls }
    | .ok (host, port) =>
      let calls := calls ++ [net_call.getaddrinfo host port]
      if (env k).getaddrinfo ≠ 0 then
        { outcome := .error ("getaddrinfo() failed for host=" ++ String.mk host
            ++ ", port=" ++ String.mk port),
          calls := calls }
      else
        let socket := (env k).socket
        let calls := calls ++ [net_call.socket socket]
        if socket < 0 then
          { outcome := .error "Unable to create a socket: ", calls := calls }
        else
          let calls := calls ++ [net_call.setsockopt socket]
          let calls := calls ++ [net_call.bind socket]
          if (env k).bind ≠ 0 then
            { outcome := .error "Unable to bind a socket: ", calls := calls }
          else
            let calls := calls ++ [net_call.listen socket]
            if (env k).listen ≠ 0 then
              { outcome := .error "Unable to listen a socket: ", calls := calls }
            else
              stream_server_loop env (k + 1) rest (sockets ++ [socket]) calls

/-- One iteration of the loop of the constructor taken alone: what the body
does for the single address `address` with the replies `r`. -/
def address_setup (r : net_replies) (address : List Char) : loop_result :=
  stream_server_loop (fun _ => r) 0 [address] [] []

/-- How the constructor ends. `constructed`: the body returned, with
`m_server_sockets`. `terminate thrown`: the body executed
`throw stream_server_exception(thrown)`; the object is not complete, so the
unwinding destroys its base class `std::thread`, which is joinable since the
initialiser `std::thread(&stream_server::run, this)`, and `~thread()` calls
`std::terminate()`: no caller receives the exception. -/
inductive ctor_outcome where
  | constructed (m_server_sockets : List Int)
  | terminate (thrown : String)
  deriving DecidableEq, Repr

/-- What the constructor did: `accept_thread_started` tells that the base
class initialiser has started the thread that runs `stream_server::run`;
`calls` is the log of the calls `getaddrinfo`, `::socket`, `setsockopt`,
`bind` and `listen` made by the body, oldest first. -/
structure ctor_result where
  accept_thread_started : Bool
  outcome : ctor_outcome
  calls : List net_call
  deriving DecidableEq, Repr

/-- The constructor `stream_server::stream_server(server_addresses)`
(video_streamer.cpp, lines 28-83): the base class initialiser
`std::thread(&stream_server::run, this)` starts the accept thread, then the
body takes the lock on `m_client_sockets_mutex` and runs the loop. The
messages of the socket, bind and listen failures end in `strerror(errno)`,
which is left out. -/
def stream_server_ctor (env : Nat → net_replies) (server_addresses : List (List Char)) :
    ctor_result :=
  { accept_thread_started := true
    outcome :=
      match (stream_server_loop env 0 server_addresses [] []).outcome with
      | .ok sockets => ctor_outcome.constructed sockets
      | .error message => ctor_outcome.terminate message
    calls := (stream_server_loop env 0 server_addresses [] []).calls }

/-- The calls `::socket(...)` in a log. -/
def socket_calls (calls : List net_call) : List net_call :=
  calls.filter (fun c => match c with | .socket _ => true | _ => false)

/-- The text of a listen address that stands before the port separator, as
the specification reads it: one enclosing pair of brackets is removed when the
text starts with an opening and ends with a closing bracket. -/
def spec_host (text : List Char) : List Char :=
  if text.head? = some '[' ∧ text.getLast? = some ']' then (text.drop 1).dropLast else text

/-- An operating system on which every call of the constructor succeeds and
`::socket` returns descriptor 3. -/
def env_all_succeed : Nat → net_replies :=
  fun _ => { getaddrinfo := 0, socket := 3, setsockopt := 0, bind := 0, listen := 0 }

/-- A connected client of `m_client_sockets` together with the kernel's side
of the connection: `received` are the bytes accepted so far, `calls` counts
the `::send` calls made on the descriptor, and `respond k` is the kernel's
answer to call number `k` when that call returns: a value `≤ 0` is returned as
it is (failure), a positive value is the number of bytes the kernel is ready
to accept. Whether call `k` returns at all is not part of the connection: see
`send_loop_sigpipe`. -/
structure client_socket where
  fd : Int
  received : List Nat
  calls : Nat
  respond : Nat → Int

/-- One system call `::send(fd, bytes, len, 0)` that returns, where `bytes`
are the `len` bytes offered: the value returned and the connection afterwards.
A positive return value never exceeds `len`. A call that raises SIGPIPE does
not return; `send_loop_sigpipe` decides that before it comes here. -/
def sys_send (s : client_socket) (bytes : List Nat) : Int × client_socket :=
  if s.respond s.calls ≤ 0 then
    (s.respond s.calls, { s with calls := s.calls + 1 })
  else
    (((min (s.respond s.calls).toNat bytes.length : Nat) : Int),
     { s with calls := s.calls + 1,
              received := s.received ++ bytes.take (min (s.respond s.calls).toNat bytes.length) })

/-- One `::send` call as `stream_server::send` makes it: the descriptor, the
offset into the payload, the length requested and the value returned. -/
structure send_call where
  fd : Int
  offset : Nat
  len : Nat
  r : Int
  deriving DecidableEq, Repr

/-- The state at the exit of the inner loop of `stream_server::send`. -/
structure send_result where
  offset : Nat
  socket : client_socket
  calls : List send_call

/-- The inner loop of `stream_server::send` for the client `*it`:
`while (offset < data_size)` with `r = ::send(...)`, `if (r <= 0) break;`,
`offset += r`. The first argument bounds the number of iterations; an
iteration that continues advances `offset` by at least 1, so `data.length`
iterations always reach the exit of the loop (`send_loop_exit`). -/
def send_loop (data : List Nat) : Nat → client_socket → Nat → send_result
  | 0, s, offset => { offset := offset, socket := s, calls := [] }
  | fuel + 1, s, offset =>
    if offset < data.length then
      let reply := sys_send s (data.drop offset)
      let call : send_call :=
        { fd := s.fd, offset := offset, len := data.length - offset, r := reply.1 }
      if reply.1 ≤ 0 then
        { offset := offset, socket := reply.2, calls := [call] }
      else
        let rest := send_loop data fuel reply.2 (offset + reply.1.toNat)
        { offset := rest.offset, socket := rest.socket, calls := call :: rest.calls }
    else
      { offset := offset, socket := s, calls := [] }

/-- The inner loop from `size_t offset = 0`. -/
def send_to_client (data : List Nat) (s : client_socket) : send_result :=
  send_loop data data.length s 0

/-- The outer loop `while (it != m_client_sockets.end())` of
`stream_server::send`. The vector is `done ++ rest` and `it` points at the
head of `rest`; `erase(it)` drops that head, `++it` moves it to `done`. The
result is the vector at the end and the log of `::send` calls, oldest first. -/
def send_clients (data : List Nat) :
    List client_socket → List client_socket → List client_socket × List send_call
  | done, [] => (done, [])
  | done, c :: rest =>
    if (send_to_client data c).offset < data.length then
      ((send_clients data done rest).1,
       (send_to_client data c).calls ++ (send_clients data done rest).2)
    else
      ((send_clients data (done ++ [(send_to_client data c).socket]) rest).1,
       (send_to_client data c).calls
         ++ (send_clients data (done ++ [(send_to_client data c).socket]) rest).2)

/-- The member function `stream_server::send(data, data_size)` on the client
vector `m_client_sockets`. -/
def stream_server.send (m_client_sockets : List client_socket) (data : List Nat) :
    List client_socket × List send_call :=
  send_clients data [] m_client_sockets

/-- A connection that accepts every byte offered. -/
def open_client (fd : Int) : client_socket :=
  { fd := fd, received := [], calls := 0, respond := fun _ => 65536 }

/-- A client on which every `::send` returns -1, as on a descriptor that is
not open any more (`EBADF`). A connection closed by the peer is another case:
there `::send` raises SIGPIPE (`peer_closed`). -/
def closed_client (fd : Int) : client_socket :=
  { fd := fd, received := [], calls := 0, respond := fun _ => -1 }

/-- A connection whose first `::send` accepts only 3 bytes and which accepts
every byte offered afterwards. -/
def slow_client (fd : Int) : client_socket :=
  { fd := fd, received := [], calls := 0, respond := fun k => if k = 0 then 3 else 65536 }

/-! ## `stream_server::send` and SIGPIPE

`stream_server::send` calls `::send(*it, …, 0)`: the flags are 0, not
`MSG_NOSIGNAL`, and no statement under src/ installs a handler for SIGPIPE,
ignores or blocks it. A `::send` on a connection whose peer has closed
therefore raises SIGPIPE with its default action: the process ends inside the
call. The definitions below follow the same loops as `send_loop` and
`send_clients` with this case added. -/

/-- The inner loop of `stream_server::send` for the client `*it`, where
`sigpipe fd k` tells whether call number `k` of `::send` on descriptor `fd`
raises SIGPIPE. The second component of the result is `true` when the process
was ended by the signal inside a `::send`; the first is the state at that
moment, or at the exit of the loop. The first argument bounds the number of
iterations as in `send_loop`: a run that the signal does not end is the run
of `send_loop` (`send_loop_sigpipe_returned`), which reaches the exit of the
loop within `data.length` iterations. -/
def send_loop_sigpipe (sigpipe : Int → Nat → Bool) (data : List Nat) :
    Nat → client_socket → Nat → send_result × Bool
  | 0, s, offset => ({ offset := offset, socket := s, calls := [] }, false)
  | fuel + 1, s, offset =>
    if offset < data.length then
      if sigpipe s.fd s.calls then
        ({ offset := offset, socket := s, calls := [] }, true)
      else
        let reply := sys_send s (data.drop offset)
        let call : send_call :=
          { fd := s.fd, offset := offset, len := data.length - offset, r := reply.1 }
        if reply.1 ≤ 0 then
          ({ offset := offset, socket := reply.2, calls := [call] }, false)
        else
          let rest := send_loop_sigpipe sigpipe data fuel reply.2 (offset + reply.1.toNat)
          ({ offset := rest.1.offset, socket := rest.1.socket, calls := call :: rest.1.calls },
           rest.2)
    else
      ({ offset := offset, socket := s, calls := [] }, false)

/-- The inner loop from `size_t offset = 0`. -/
def send_to_client_sigpipe (sigpipe : Int → Nat → Bool) (data : List Nat)
    (s : client_socket) : send_result × Bool :=
  send_loop_sigpipe sigpipe data data.length s 0

/-- How one call of `stream_server::send` ends: the client vector and the log
of the `::send` calls that returned, and whether the process was ended by
SIGPIPE inside the call (the vector and the log are then those of that
moment). -/
structure broadcast_result where
  m_client_sockets : List client_socket
  calls : List send_call
  killed : Bool

/-- The outer loop of `stream_server::send`, as `send_clients`, with
SIGPIPE: when the signal ends the process during the writes to `*it`, nothing
after that is executed. -/
def send_clients_sigpipe (sigpipe : Int → Nat → Bool) (data : List Nat) :
    List client_socket → List client_socket → broadcast_result
  | done, [] => { m_client_sockets := done, calls := [], killed := false }
  | done, c :: rest =>
    if (send_to_client_sigpipe sigpipe data c).2 then
      { m_client_sockets := done ++ (send_to_client_sigpipe sigpipe data c).1.socket :: rest,
        calls := (send_to_client_sigpipe sigpipe data c).1.calls,
        killed := true }
    else if (send_to_client_sigpipe sigpipe data c).1.offset < data.length then
      { m_client_sockets := (send_clients_sigpipe sigpipe data done rest).m_client_sockets,
        calls := (send_to_client_sigpipe sigpipe data c).1.calls
          ++ (send_clients_sigpipe sigpipe data done rest).calls,
        killed := (send_clients_sigpipe sigpipe data done rest).killed }
    else
      { m_client_sockets :=
          (send_clients_sigpipe sigpipe data
            (done ++ [(send_to_client_sigpipe sigpipe data c).1.socket]) rest).m_client_sockets,
        calls := (send_to_client_sigpipe sigpipe data c).1.calls
          ++ (send_clients_sigpipe sigpipe data
                (done ++ [(send_to_client_sigpipe sigpipe data c).1.socket]) rest).calls,
        killed :=
          (send_clients_sigpipe sigpipe data
            (done ++ [(send_to_client_sigpipe sigpipe data c).1.socket]) rest).killed }

/-- The member function `stream_server::send(data, data_size)` in a process
with the default action for SIGPIPE. -/
def stream_server.send_sigpipe (sigpipe : Int → Nat → Bool)
    (m_client_sockets : List client_socket) (data : List Nat) : broadcast_result :=
  send_clients_sigpipe sigpipe data [] m_client_sockets

/-- The peer of the connection on descriptor `fd` has closed it: every
`::send` on that descriptor raises SIGPIPE, no other does. -/
def peer_closed (fd : Int) : Int → Nat → Bool :=
  fun d _ => decide (d = fd)

/-! ## `libjpeg_instance<T>` (jpeg_frame.h, lines 45-78) -/

/-- One `libjpeg_instance<T>` object: `destroyed` once its destructor has
run, otherwise its member `m_impl` (`none` is the empty `unique_ptr`). A
context is named by the order of its construction. -/
inductive handle_state where
  | destroyed
  | live (m_impl : Option Nat)
  deriving DecidableEq, Repr

/-- The static vector `impl_queue` of one instantiation of the template (its
back is the end of the list), the handle objects of the program, and the
number of contexts `std::make_unique<T>()` has constructed so far. Contexts
are never freed, so the next one constructed is distinct from all earlier
ones: it is named `constructed`. -/
structure pool_state where
  impl_queue : List Nat
  handles : List handle_state
  constructed : Nat
  deriving DecidableEq, Repr

/-- The steps of the threads, each atomic with respect to `impl_queue`. -/
inductive pool_op where
  | create
  | move_construct (h : Nat)
  | get (h : Nat)
  | destroy (h : Nat)
  deriving DecidableEq, Repr

/-- One step on the pool. `create` is the default constructor,
`move_construct h` the move constructor from handle `h`, `get h` the member
function `get()` of handle `h`, `destroy h` its destructor. A step that names
a handle that does not exist or is destroyed leaves the state as it is. -/
def pool_step (s : pool_state) : pool_op → pool_state
  | .create => { s with handles := s.handles ++ [handle_state.live none] }
  | .move_construct h =>
    match s.handles[h]? with
    | some (handle_state.live m_impl) =>
      { s with handles := s.handles.set h (handle_state.live none)
                 ++ [handle_state.live m_impl] }
    | _ => s
  | .get h =>
    match s.handles[h]? with
    | some (handle_state.live none) =>
      match s.impl_queue.getLast? with
      | none =>
        { impl_queue := s.impl_queue,
          handles := s.handles.set h (handle_state.live (some s.constructed)),
          constructed := s.constructed + 1 }
      | some back =>
        { impl_queue := s.impl_queue.dropLast,
          handles := s.handles.set h (handle_state.live (some back)),
          constructed := s.constructed }
    | _ => s
  | .destroy h =>
    match s.handles[h]? with
    | some (handle_state.live (some m_impl)) =>
      { impl_queue := s.impl_queue ++ [m_impl],
        handles := s.handles.set h handle_state.destroyed,
        constructed := s.constructed }
    | some (handle_state.live none) =>
      { s with handles := s.handles.set h handle_state.destroyed }
    | _ => s

/-- A sequence of steps, left to right. -/
def pool_run (s : pool_state) : List pool_op → pool_state
  | [] => s
  | op :: ops => pool_run (pool_step s op) ops

/-- The pool before any handle exists. -/
def pool_empty : pool_state :=
  { impl_queue := [], handles := [], constructed := 0 }

/-- The context a handle holds, if any. -/
def handle_state.context : handle_state → Option Nat
  | .live (some c) => some c
  | _ => none

/-- The contexts held by live handles. -/
def outstanding (handles : List handle_state) : List Nat :=
  handles.filterMap handle_state.context

/-- Every context constructed so far is either idle or held, once. -/
def pool_accounted (s : pool_state) : Prop :=
  (s.impl_queue ++ outstanding s.handles).Perm (List.range s.constructed)

/-! ## `v4l2::capture_device`: reading and releasing buffers -/

namespace v4l2

/-- The static member function `capture_device::compute_buffer_count()`;
the argument is the value of `std::thread::hardware_concurrency()`. -/
def compute_buffer_count (hardware_concurrency : Nat) : Nat :=
  if hardware_concurrency < 2 then 2 else hardware_concurrency

/-- What a call of `read_buffer` comes to: a Buffer is returned, a
`v4l2::exception` with the given message is thrown, or the calling thread
waits for a mutex that is locked. An access `m_buffers[i]` with `i` outside
the array has no counterpart in the source; the embedding gives it the
outcome `threw "index outside m_buffers"`, which is not reached while
`m_buffers` has `m_buffer_count` elements. -/
inductive read_outcome where
  | returned (buffer : image_buffer)
  | threw (message : String)
  | blocked
  deriving DecidableEq, Repr

/-- The replies of the environment to one call of `read_buffer`: `alloc i` is
the address `new char[...]` (read strategy) or `mmap` (memory-mapped
strategy) returns for slot `i`; `mem` is the process memory once the driver
has filled the slot; `read_result` is the value of `::read`; `reqbufs` is the
result of `VIDIOC_REQBUFS` and the count the driver grants; `querybuf i` the
result of `VIDIOC_QUERYBUF` and the `buf.length` for slot `i`; `qbuf i` and
`streamon` the results of `VIDIOC_QBUF` and `VIDIOC_STREAMON`; `dqbuf` the
result of `VIDIOC_DQBUF` with the `buf.index` and `buf.bytesused` it reports. -/
structure read_env where
  alloc : Nat → Nat
  mem : Nat → Nat
  read_result : Int
  reqbufs : Int × Nat
  querybuf : Nat → Int × Nat
  qbuf : Nat → Int
  streamon : Int
  dqbuf : Int × Nat × Nat

/-- `m_buffers[slot]` replaced by `f (m_buffers[slot])`. -/
def update_slot (m_buffers : List capture_buffer) (slot : Nat)
    (f : capture_buffer → capture_buffer) : List capture_buffer :=
  match m_buffers[slot]? with
  | some b => m_buffers.set slot (f b)
  | none => m_buffers

/-- The member function `capture_device::init_read()`. The slots come from
`new capture_buffer[count]`: `device` and `index` are not assigned. -/
def capture_device.init_read (dev : capture_device) (hardware_concurrency : Nat)
    (env : read_env) : capture_device :=
  let count := compute_buffer_count hardware_concurrency
  { dev with
    m_buffer_count := count
    m_buffers := (List.range count).map (fun i =>
      { device := none, index := none, base := env.alloc i,
        length := dev.m_format.sizeimage, mutex := false }) }

/-- The member function `capture_device::read_read()` from the point where
`std::unique_lock<std::mutex> lock(buffer.mutex)` has acquired the mutex of
slot `m_last_used_buffer`. When `::read` fails the exception unwinds through
`lock`, which unlocks; otherwise `lock.release()` leaves the mutex locked. -/
def capture_device.read_read_locked (dev : capture_device) (env : read_env) :
    capture_device × read_outcome :=
  match dev.m_buffers[dev.m_last_used_buffer]? with
  | none => (dev, read_outcome.threw "index outside m_buffers")
  | some buffer =>
    if env.read_result < 0 then
      (dev, read_outcome.threw "Unable to read_buffer a frame from the capture device")
    else
      ({ dev with m_buffers := update_slot dev.m_buffers dev.m_last_used_buffer
                    (fun b => { b with mutex := true }) },
       read_outcome.returned
         (dev.wrap_buffer env.mem dev.m_last_used_buffer buffer env.read_result.toNat))

/-- The member function `capture_device::read_read()`: the index advances,
then the thread waits while the mutex of the slot is locked. -/
def capture_device.read_read (dev : capture_device) (env : read_env) :
    capture_device × read_outcome :=
  let dev := { dev with
    m_last_used_buffer := (dev.m_last_used_buffer + 1) % dev.m_buffer_count }
  match dev.m_buffers[dev.m_last_used_buffer]? with
  | none => (dev, read_outcome.threw "index outside m_buffers")
  | some buffer =>
    if buffer.mutex then (dev, read_outcome.blocked)
    else dev.read_read_locked env

/-- The second loop of `start_mmap` over the slots `i`: `VIDIOC_QUERYBUF`,
then `mmap`; the message of the exception when one is thrown. -/
def start_mmap_map (env : read_env) :
    List Nat → List capture_buffer → List capture_buffer × Option String
  | [], m_buffers => (m_buffers, none)
  | i :: rest, m_buffers =>
    if (env.querybuf i).1 < 0 then
      (m_buffers, some ("VIDIOC_QUERYBUF failed for capture_buffer #" ++ toString i))
    else
      let m_buffers := update_slot m_buffers i (fun b => { b with length := (env.querybuf i).2 })
      if env.alloc i = 0 then
        (m_buffers, some ("mmap() failed for capture_buffer #" ++ toString i))
      else
        start_mmap_map env rest (update_slot m_buffers i (fun b => { b with base := env.alloc i }))

/-- The third loop of `start_mmap`: `VIDIOC_QBUF` for every slot with a base. -/
def start_mmap_queue (env : read_env) (m_buffers : List capture_buffer) :
    List Nat → Option String
  | [] => none
  | i :: rest =>
    if (m_buffers[i]?.map (fun b => b.base)) = some 0 then start_mmap_queue env m_buffers rest
    else if env.qbuf i < 0 then
      some ("VIDIOC_QBUF failed for capture_buffer #" ++ toString i)
    else start_mmap_queue env m_buffers rest

/-- The member function `capture_device::start_mmap()`: the device afterwards
and the message of the exception when one is thrown. `base` and `length` of a
slot are 0 until the second loop assigns them. -/
def capture_device.start_mmap (dev : capture_device) (env : read_env) :
    capture_device × Option String :=
  if env.reqbufs.1 < 0 then (dev, some "VIDIOC_REQBUFS failed")
  else if env.reqbufs.2 < 2 then
    (dev, some "Insufficient capture_buffer memory on the device")
  else
    let count := env.reqbufs.2
    let m_buffers : List capture_buffer := (List.range count).map (fun i =>
      { device := some (), index := some i, base := 0, length := 0, mutex := false })
    let mapped := start_mmap_map env (List.range count) m_buffers
    let dev := { dev with m_buffer_count := count, m_buffers := mapped.1 }
    match mapped.2 with
    | some message => (dev, some message)
    | none =>
      match start_mmap_queue env mapped.1 (List.range count) with
      | some message => (dev, some message)
      | none =>
        if env.streamon ≠ 0 then (dev, some "VIDIOC_STREAMON failed") else (dev, none)

/-- The member function `capture_device::read_mmap()`. -/
def capture_device.read_mmap (dev : capture_device) (env : read_env) :
    capture_device × read_outcome :=
  if env.dqbuf.1 < 0 then (dev, read_outcome.threw "VIDIOC_DQBUF failed")
  else if env.dqbuf.2.1 ≥ dev.m_buffer_count then
    (dev, read_outcome.threw ("buf.index (" ++ toString env.dqbuf.2.1
      ++ ") > m_buffers.size (" ++ toString dev.m_buffer_count ++ ")"))
  else
    match dev.m_buffers[env.dqbuf.2.1]? with
    | none => (dev, read_outcome.threw "index outside m_buffers")
    | some buffer =>
      (dev, read_outcome.returned
        (dev.wrap_buffer env.mem env.dqbuf.2.1 buffer env.dqbuf.2.2))

/-- The lock `std::unique_lock<std::mutex> lock(m_read_mutex)` of
`read_buffer` at the exit of the function: it stays locked while the thread
waits inside. -/
def leave_read_buffer (r : capture_device × read_outcome) : capture_device × read_outcome :=
  match r.2 with
  | read_outcome.blocked => ({ r.1 with m_read_mutex := true }, r.2)
  | _ => ({ r.1 with m_read_mutex := false }, r.2)

/-- The member function `capture_device::read_buffer()`, entered by a thread
that has acquired `m_read_mutex`. -/
def capture_device.read_buffer (dev : capture_device) (hardware_concurrency : Nat)
    (env : read_env) : capture_device × read_outcome :=
  match dev.m_method with
  | capture_method.READ =>
    let dev := if dev.m_buffer_count = 0 then dev.init_read hardware_concurrency env else dev
    leave_read_buffer (dev.read_read env)
  | capture_method.MMAP =>
    if dev.m_buffer_count = 0 then
      match dev.start_mmap env with
      | (dev, some message) => leave_read_buffer (dev, read_outcome.threw message)
      | (dev, none) => leave_read_buffer (dev.read_mmap env)
    else leave_read_buffer (dev.read_mmap env)

/-- The values a read through a field of a slot yields when the field was
never assigned: `format` is what `device->pixel_format()` returns through such
a `device`, `index` what `index` holds. -/
structure stray_reads where
  format : format
  index : Nat
  deriving DecidableEq, Repr

/-- The observable steps of `capture_buffer::release`. -/
inductive capture_event where
  | unset_device_read (slot : Nat)
  | unset_index_read (slot : Nat)
  | ioctl_qbuf (index : Nat)
  | unlock (slot : Nat)
  | unlock_not_held (slot : Nat)
  deriving DecidableEq, Repr

/-- The member function `capture_buffer::release(buffer)` of the slot
`m_buffers[slot]` of device `dev`: the device afterwards and the events, in
order. `mutex.unlock()` on a mutex that is not locked is recorded as
`unlock_not_held` and leaves it unlocked. -/
def capture_buffer.release (dev : capture_device) (slot : Nat) (stray : stray_reads) :
    capture_device × List capture_event :=
  match dev.m_buffers[slot]? with
  | none => (dev, [])
  | some buffer =>
    let observed : format × List capture_event :=
      match buffer.device with
      | some _ => (dev.pixel_format, [])
      | none => (stray.format, [capture_event.unset_device_read slot])
    let requeue : List capture_event :=
      if observed.1 = format.MJPEG then
        match buffer.index with
        | some index => [capture_event.ioctl_qbuf index]
        | none => [capture_event.unset_index_read slot, capture_event.ioctl_qbuf stray.index]
      else []
    if buffer.mutex then
      ({ dev with m_buffers := update_slot dev.m_buffers slot (fun b => { b with mutex := false }) },
       observed.2 ++ requeue ++ [capture_event.unlock slot])
    else
      (dev, observed.2 ++ requeue ++ [capture_event.unlock_not_held slot])

/-- A capture device in use: the value of `hardware_concurrency()`, the
device, the Buffers that `read_buffer` has returned and that are not yet
destroyed, and the events of the releases so far. -/
structure capture_world where
  hardware_concurrency : Nat
  dev : capture_device
  live : List image_buffer
  events : List capture_event
  deriving DecidableEq, Repr

/-- The steps of the threads that use the device. -/
inductive capture_op where
  | read_buffer (env : read_env)
  | resume (env : read_env)
  | release (k : Nat) (stray : stray_reads)

/-- The world after a call of `read_buffer` has come to `r`. -/
def capture_world.after_read (w : capture_world) (r : capture_device × read_outcome) :
    capture_world :=
  match r.2 with
  | read_outcome.returned buffer => { w with dev := r.1, live := w.live ++ [buffer] }
  | _ => { w with dev := r.1 }

/-- One step. `read_buffer env`: a thread calls `read_buffer()`; while
`m_read_mutex` is locked the call waits at its first line and nothing changes.
`resume env`: the thread that waits inside `read_read` acquires the mutex of
its slot, which it can only do when that mutex is not locked.
`release k stray`: the destructor of the `k`-th live Buffer runs. -/
def capture_step (w : capture_world) : capture_op → capture_world
  | .read_buffer env =>
    if w.dev.m_read_mutex then w
    else w.after_read (w.dev.read_buffer w.hardware_concurrency env)
  | .resume env =>
    if w.dev.m_read_mutex = true ∧ w.dev.m_method = capture_method.READ then
      match w.dev.m_buffers[w.dev.m_last_used_buffer]? with
      | some buffer =>
        if buffer.mutex then w
        else w.after_read (leave_read_buffer (w.dev.read_read_locked env))
      | none => w
    else w
  | .release k stray =>
    match w.live[k]? with
    | none => w
    | some buffer =>
      match buffer.destroy with
      | { releaser := releaser_ref.capture_buffer slot, .. } :: _ =>
        { w with dev := (capture_buffer.release w.dev slot stray).1
                 live := w.live.eraseIdx k
                 events := w.events ++ (capture_buffer.release w.dev slot stray).2 }
      | _ => { w with live := w.live.eraseIdx k }

/-- A sequence of steps, left to right. -/
def capture_run (w : capture_world) : List capture_op → capture_world
  | [] => w
  | op :: ops => capture_run (capture_step w op) ops

/-- The device after the constructor `capture_device(path, forceRead)` has
chosen `m_method` and `query_format` has filled `m_format`. -/
def capture_world.opened (hardware_concurrency : Nat) (m_method : capture_method)
    (m_format : v4l2_pix_format) : capture_world :=
  { hardware_concurrency := hardware_concurrency
    dev := { m_method := m_method, m_format := m_format, m_buffer_count := 0,
             m_buffers := [], m_read_mutex := false, m_last_used_buffer := 0 }
    live := []
    events := [] }

/-- The slots that live Buffers wrap, one entry per Buffer. -/
def capture_world.live_slots (w : capture_world) : List (Option releaser_ref) :=
  w.live.map (fun b => b.m_releaser)

/-- The lock discipline of the read strategy for a device and the slots
`slots` its live Buffers wrap: `m_buffers` has `m_buffer_count` elements, no
slot is wrapped twice, every wrapped slot exists, and the mutex of a slot is
locked exactly when a live Buffer wraps it. -/
def slots_inv (dev : capture_device) (slots : List (Option releaser_ref)) : Prop :=
  dev.m_buffers.length = dev.m_buffer_count ∧
  slots.Nodup ∧
  (∀ r ∈ slots, ∃ slot, slot < dev.m_buffer_count ∧
    r = some (releaser_ref.capture_buffer slot)) ∧
  (∀ (slot : Nat) (b : capture_buffer), dev.m_buffers[slot]? = some b →
    (b.mutex = true ↔ some (releaser_ref.capture_buffer slot) ∈ slots))

/-- The invariant of a world in read strategy. -/
def read_world_inv (w : capture_world) : Prop :=
  w.dev.m_method = capture_method.READ ∧
  slots_inv w.dev w.live_slots ∧
  (w.dev.m_buffer_count = 0 ∨
    w.dev.m_buffer_count = compute_buffer_count w.hardware_concurrency)

/-- The lock discipline after a call of `read_buffer` that came to `r`, when
`slots` were wrapped before the call. -/
def read_result_inv (slots : List (Option releaser_ref))
    (r : capture_device × read_outcome) : Prop :=
  match r.2 with
  | read_outcome.returned buffer => slots_inv r.1 (slots ++ [buffer.m_releaser])
  | _ => slots_inv r.1 slots

end v4l2

/-! ## `v4l2::capture_device`: format negotiation -/

namespace v4l2

/-- The reply of the driver to an `ioctl` on `&m_format`: the value
`capture_device::ioctl` returns (the first attempt that is not interrupted)
and the structure as the driver leaves it. -/
structure fmt_reply where
  result : Int
  fmt : v4l2_pix_format
  deriving DecidableEq, Repr

/-- The driver's side of format negotiation: its replies to
`VIDIOC_S_FMT` and `VIDIOC_G_FMT` as functions of the structure passed. -/
structure fmt_driver where
  s_fmt : v4l2_pix_format → fmt_reply
  g_fmt : v4l2_pix_format → fmt_reply

/-- The member function `capture_device::query_format()`: the device
afterwards and the message of the exception when one is thrown. The
arithmetic on `unsigned int` wraps at `2 ^ 32`. -/
def capture_device.query_format (dev : capture_device) (drv : fmt_driver) :
    capture_device × Option String :=
  let reply := drv.g_fmt dev.m_format
  if reply.result ≠ 0 then
    ({ dev with m_format := reply.fmt }, some "VIDIOC_G_FMT failed")
  else
    let pix := reply.fmt
    let min := (pix.width * 2) % 2 ^ 32
    let pix := if pix.bytesperline < min then { pix with bytesperline := min } else pix
    let min := (pix.bytesperline * pix.height) % 2 ^ 32
    let pix := if pix.sizeimage < min then { pix with sizeimage := min } else pix
    ({ dev with m_format := pix }, none)

/-- The `switch (pixel_format)` of `set_format`: the value assigned to
`m_format.fmt.pix.pixelformat`, `none` for `format::UNKNOWN` (no assignment). -/
def format_fourcc : format → Option Nat
  | format.YVYU => some V4L2_PIX_FMT_YVYU
  | format.YUYV => some V4L2_PIX_FMT_YUYV
  | format.VYUY => some V4L2_PIX_FMT_VYUY
  | format.UYVY => some V4L2_PIX_FMT_UYVY
  | format.MJPEG => some V4L2_PIX_FMT_MJPEG
  | format.H264 => some V4L2_PIX_FMT_H264
  | format.UNKNOWN => none

/-- The member function `capture_device::set_format(width, height,
pixel_format)`: the device afterwards and the message of the exception when
one is thrown. A non-negative `int` is stored in a `__u32` field unchanged. -/
def capture_device.set_format (dev : capture_device) (drv : fmt_driver)
    (width height : Int) (pixel_format : format) : capture_device × Option String :=
  let pix := dev.m_format
  let pix :=
    match format_fourcc pixel_format with
    | some fourcc => { pix with pixelformat := fourcc }
    | none => pix
  let pix := if width ≥ 0 then { pix with width := width.toNat % 2 ^ 32 } else pix
  let pix := if height ≥ 0 then { pix with height := height.toNat % 2 ^ 32 } else pix
  let reply := drv.s_fmt pix
  let dev := { dev with m_format := reply.fmt }
  if reply.result < 0 then (dev, some "VIDIOC_S_FMT failed")
  else
    let queried := dev.query_format drv
    match queried.2 with
    | some message => (queried.1, some message)
    | none =>
      if pixel_format ≠ format.UNKNOWN ∧ queried.1.pixel_format ≠ pixel_format then
        (queried.1, some "Unable to set desired pixel format")
      else (queried.1, none)

/-- A driver that accepts every pixel format and supports the single frame
size 640 x 480: `VIDIOC_S_FMT` succeeds and adjusts the size, `VIDIOC_G_FMT`
reports the structure as it stands. -/
def driver_640x480 : fmt_driver :=
  { s_fmt := fun p => { result := 0, fmt := { p with width := 640, height := 480 } }
    g_fmt := fun p => { result := 0, fmt := p } }

/-- A driver that takes every request as it is. -/
def driver_exact : fmt_driver :=
  { s_fmt := fun p => { result := 0, fmt := p }
    g_fmt := fun p => { result := 0, fmt := p } }

/-- A device just opened on a 640 x 480 YUYV source. -/
def device_yuyv : capture_device :=
  { m_method := capture_method.MMAP
    m_format := { width := 640, height := 480, pixelformat := V4L2_PIX_FMT_YUYV,
                  bytesperline := 1280, sizeimage := 614400 }
    m_buffer_count := 0, m_buffers := [], m_read_mutex := false, m_last_used_buffer := 0 }

/-- The negotiated MJPEG format of the examples. -/
def format_mjpeg_640x480 : v4l2_pix_format :=
  { width := 640, height := 480, pixelformat := V4L2_PIX_FMT_MJPEG,
    bytesperline := 1280, sizeimage := 614400 }

/-- An environment of the memory-mapped strategy: the driver grants 2 slots
of 1024 bytes mapped at 4096 and 8192, every `ioctl` succeeds, and
`VIDIOC_DQBUF` hands out slot 0 with the 4 bytes `FF D8 FF D9`. -/
def env_mmap : read_env :=
  { alloc := fun i => 4096 * (i + 1)
    mem := memory_of 4096 [0xFF, 0xD8, 0xFF, 0xD9]
    read_result := 4
    reqbufs := (0, 2)
    querybuf := fun _ => (0, 1024)
    qbuf := fun _ => 0
    streamon := 0
    dqbuf := (0, 0, 4) }

end v4l2

/-! ## Frames (video_streamer.h, lines 57-123) -/

/-- The product of two `int` values; signed overflow is undefined behaviour:
`none`. -/
def int_mul (a b : Int) : Option Int :=
  if -2 ^ 31 ≤ a * b ∧ a * b < 2 ^ 31 then some (a * b) else none

/-- The sum of two `int` values; signed overflow is undefined behaviour:
`none`. -/
def int_add (a b : Int) : Option Int :=
  if -2 ^ 31 ≤ a + b ∧ a + b < 2 ^ 31 then some (a + b) else none

/-- The conversion of an `int` to `size_t` or `unsigned long` (64 bits). -/
def to_size_t (v : Int) : Nat :=
  (v % 2 ^ 64).toNat

/-- The fields of `class uncompressed_frame`. -/
structure uncompressed_frame where
  m_buffer : image_buffer
  m_width : Int
  m_height : Int
  m_bytes_per_pixel : Int
  deriving DecidableEq, Repr

/-- The first line of `pixel` and of `set_pixel`:
`unsigned long offset = (y * m_width + x) * m_bytes_per_pixel;`
The right-hand side is evaluated in `int` and then converted. -/
def uncompressed_frame.offset (f : uncompressed_frame) (x y : Int) : Option Nat :=
  (int_mul y f.m_width).bind fun a =>
    (int_add a x).bind fun b =>
      (int_mul b f.m_bytes_per_pixel).map to_size_t

/-- The loop of `pixel`, `n` iterations from index `i` on, over the bytes at
`base = m_buffer.data() + offset`; a shift of a `uint32_t` by 32 or more is
undefined: `none`. -/
def pixel_loop (mem : Nat → Nat) (base : Nat) : Nat → Nat → Nat → Option Nat
  | 0, _, result => some result
  | n + 1, i, result =>
    if 8 * i < 32 then
      pixel_loop mem base n (i + 1)
        (result ||| (((mem (base + i) % 256) <<< (8 * i)) % 2 ^ 32))
    else none

/-- The member function `uncompressed_frame::pixel(x, y)` on the process
memory `mem`. -/
def uncompressed_frame.pixel (f : uncompressed_frame) (mem : Nat → Nat) (x y : Int) :
    Option Nat :=
  (f.offset x y).bind fun offset =>
    pixel_loop mem (f.m_buffer.m_data + offset) f.m_bytes_per_pixel.toNat 0 0

/-- The loop of `set_pixel`, `n` iterations from index `i` on: the memory
afterwards. -/
def set_pixel_loop (base color : Nat) : Nat → Nat → (Nat → Nat) → Option (Nat → Nat)
  | 0, _, mem => some mem
  | n + 1, i, mem =>
    if i * 8 < 32 then
      set_pixel_loop base color n (i + 1)
        (fun a => if a = base + i then (color >>> (i * 8)) &&& 0xFF else mem a)
    else none

/-- The member function `uncompressed_frame::set_pixel(x, y, color)`: the
process memory afterwards. -/
def uncompressed_frame.set_pixel (f : uncompressed_frame) (mem : Nat → Nat) (x y : Int)
    (color : Nat) : Option (Nat → Nat) :=
  (f.offset x y).bind fun offset =>
    set_pixel_loop (f.m_buffer.m_data + offset) (color % 2 ^ 32)
      f.m_bytes_per_pixel.toNat 0 mem

/-- A frame of 30000 x 30000 pixels of 3 bytes over a buffer of
2 700 000 000 bytes at address 4096. -/
def frame_30000 : uncompressed_frame :=
  { m_buffer := { m_data := 4096, m_size := 2700000000, m_releaser := none }
    m_width := 30000, m_height := 30000, m_bytes_per_pixel := 3 }

/-- A frame of 2 x 2 pixels of 3 bytes over a buffer of 12 bytes at address 4096. -/
def frame_2x2 : uncompressed_frame :=
  { m_buffer := { m_data := 4096, m_size := 12, m_releaser := none }
    m_width := 2, m_height := 2, m_bytes_per_pixel := 3 }

/-- The value of the `n` bytes of `mem` from `base + i` on, the byte at
`base + j` weighted `2 ^ (8 * j)`: little-endian packing. -/
def little_endian (mem : Nat → Nat) (base : Nat) : Nat → Nat → Nat
  | 0, _ => 0
  | n + 1, i => (mem (base + i) % 256) * 2 ^ (8 * i) + little_endian mem base n (i + 1)

/-! ## `jpeg_frame` (jpeg_frame.h, jpeg_frame.cpp) -/

/-- The ways a call ends other than by returning: one of the exceptions of
the program, undefined behaviour, or a wait for a locked mutex. -/
inductive failure where
  | libjpeg_exception
  | v4l2_exception (message : String)
  | bad_alloc
  | undefined_behaviour
  | blocked
  deriving DecidableEq, Repr

/-- The JPEG library and the allocator, consumed as black boxes.
`read_header buffer` is `image_width` and `image_height` after
`jpeg_read_header` on the bytes of `buffer`, `none` when the header is not
accepted. `decompress buffer color_space num_components` tells whether
`jpeg_start_decompress`, the scanline loop and `jpeg_finish_decompress` run
without `error_exit`. `compress frame color_space num_components quality` is
the block and size `jpeg_mem_dest` leaves, `none` for `error_exit`.
`heap size` is the address `new uint8_t[size]` returns, `none` when it throws
`std::bad_alloc`. -/
structure codec_env where
  read_header : image_buffer → Option (Nat × Nat)
  decompress : image_buffer → Nat → Int → Bool
  compress : uncompressed_frame → Nat → Int → Int → Option (Nat × Nat)
  heap : Nat → Option Nat

/-- The fields of `class jpeg_frame`. -/
structure jpeg_frame where
  m_buffer : image_buffer
  m_width : Int
  m_height : Int
  deriving DecidableEq, Repr

/-- The constructor `image_buffer(size_t size)`: `new uint8_t[size]` with the
heap releaser. No array has `2 ^ 63` or more bytes. -/
def image_buffer.allocate (codec : codec_env) (size : Nat) : Except failure image_buffer :=
  if 2 ^ 63 ≤ size then .error failure.bad_alloc
  else
    match codec.heap size with
    | none => .error failure.bad_alloc
    | some data => .ok (image_buffer.mk_with data size (some releaser_ref.heap))

/-- The constructor `uncompressed_frame(width, height, bytes_per_pixel)`: the
size `width * height * bytes_per_pixel` is evaluated in `int` and converted
to `size_t`. -/
def uncompressed_frame.create (codec : codec_env) (width height bytes_per_pixel : Int) :
    Except failure uncompressed_frame :=
  match (int_mul width height).bind (fun a => int_mul a bytes_per_pixel) with
  | none => .error failure.undefined_behaviour
  | some size =>
    match image_buffer.allocate codec (to_size_t size) with
    | .error e => .error e
    | .ok buffer =>
      .ok { m_buffer := buffer, m_width := width, m_height := height,
            m_bytes_per_pixel := bytes_per_pixel }

/-- The member function `jpeg_frame::read_header`: the dimensions the
decompressor holds afterwards. -/
def jpeg_frame.read_header (codec : codec_env) (m_buffer : image_buffer) :
    Except failure (Nat × Nat) :=
  match codec.read_header m_buffer with
  | none => .error failure.libjpeg_exception
  | some dimensions => .ok dimensions

/-- The constructor `jpeg_frame(image_buffer buffer)`. -/
def jpeg_frame.of_buffer (codec : codec_env) (buffer : image_buffer) :
    Except failure jpeg_frame :=
  match jpeg_frame.read_header codec buffer with
  | .error e => .error e
  | .ok dimensions =>
    .ok { m_buffer := buffer, m_width := v4l2.u32_to_int dimensions.1,
          m_height := v4l2.u32_to_int dimensions.2 }

/-- The static member function `jpeg_frame::compress_frame`. -/
def jpeg_frame.compress_frame (codec : codec_env) (frame : uncompressed_frame)
    (color_space : Nat) (num_components quality : Int) : Except failure image_buffer :=
  match codec.compress frame color_space num_components quality with
  | none => .error failure.libjpeg_exception
  | some (buffer, bufferSize) =>
    .ok (image_buffer.mk_with buffer bufferSize (some releaser_ref.c_heap))

/-- The constructor `jpeg_frame(uncompressed_frame &frame, color_space,
num_components, quality)`. -/
def jpeg_frame.of_frame (codec : codec_env) (frame : uncompressed_frame)
    (color_space : Nat) (num_components quality : Int) : Except failure jpeg_frame :=
  match jpeg_frame.compress_frame codec frame color_space num_components quality with
  | .error e => .error e
  | .ok buffer => .ok { m_buffer := buffer, m_width := frame.m_width, m_height := frame.m_height }

/-- The member function `jpeg_frame::uncompress(color_space, num_components)`. -/
def jpeg_frame.uncompress (codec : codec_env) (self : jpeg_frame) (color_space : Nat)
    (num_components : Int) : Except failure uncompressed_frame :=
  match jpeg_frame.read_header codec self.m_buffer with
  | .error e => .error e
  | .ok _ =>
    match uncompressed_frame.create codec self.m_width self.m_height 3 with
    | .error e => .error e
    | .ok image =>
      if codec.decompress self.m_buffer color_space num_components then .ok image
      else .error failure.libjpeg_exception

/-- A codec that accepts every header as 2 x 2, decodes and encodes without
error, leaves every encoded stream as 100 bytes at address 8192, and an
allocator that returns address 12288. -/
def codec_example : codec_env :=
  { read_header := fun _ => some (2, 2)
    decompress := fun _ _ _ => true
    compress := fun _ _ _ _ => some (8192, 100)
    heap := fun _ => some 12288 }

/-- The value of `JCS_RGB` in `jpeglib.h`. -/
def JCS_RGB : Nat := 2

/-- What `codec_example` makes of `frame_2x2`. -/
def jpeg_2x2 : jpeg_frame :=
  { m_buffer := { m_data := 8192, m_size := 100, m_releaser := some releaser_ref.c_heap }
    m_width := 2, m_height := 2 }

/-- What `uncompress` with `codec_example` makes of `jpeg_2x2`. -/
def image_2x2 : uncompressed_frame :=
  { m_buffer := { m_data := 12288, m_size := 12, m_releaser := some releaser_ref.heap }
    m_width := 2, m_height := 2, m_bytes_per_pixel := 3 }

/-! ## `v4l2::capture_device`: what a release does -/

namespace v4l2

/-- The negotiated YUYV format of the examples. -/
def format_yuyv_640x480 : v4l2_pix_format :=
  { width := 640, height := 480, pixelformat := V4L2_PIX_FMT_YUYV,
    bytesperline := 1280, sizeimage := 614400 }

/-- An environment of the read strategy: the slots are allocated at 4096,
8192, ..., and `::read` returns 4 bytes `FF D8 FF D9`. -/
def env_read : read_env :=
  { alloc := fun i => 4096 * (i + 1)
    mem := fun a => memory_of 4096 [0xFF, 0xD8, 0xFF, 0xD9] (4096 + a % 4096)
    read_result := 4
    reqbufs := (0, 0)
    querybuf := fun _ => (0, 0)
    qbuf := fun _ => 0
    streamon := 0
    dqbuf := (0, 0, 0) }

/-- The same environment with `::read` failing. -/
def env_read_fails : read_env :=
  { env_read with read_result := -1 }

/-- The `VIDIOC_QBUF` calls among the events. -/
def qbuf_events (events : List capture_event) : List capture_event :=
  events.filter (fun e => match e with | capture_event.ioctl_qbuf _ => true | _ => false)

/-- The state of the slots in memory-mapped strategy: every slot has its
`device` and `index` assigned and its mutex is never locked; `m_buffers` is
empty until `start_mmap` has set `m_buffer_count`; every live Buffer wraps
an existing slot. -/
def mmap_world_inv (m_format : v4l2_pix_format) (w : capture_world) : Prop :=
  w.dev.m_method = capture_method.MMAP ∧
  w.dev.m_format = m_format ∧
  (w.dev.m_buffer_count = 0 → w.dev.m_buffers = []) ∧
  (∀ (i : Nat) (b : capture_buffer), w.dev.m_buffers[i]? = some b →
    b.device = some () ∧ b.index = some i ∧ b.mutex = false) ∧
  (∀ b ∈ w.live, ∃ slot, b.m_releaser = some (releaser_ref.capture_buffer slot) ∧
    slot < w.dev.m_buffers.length)

/-- Whether a step is a `read_buffer` call that gets past `m_read_mutex`: 1 or 0. -/
def enters_read (w : capture_world) : capture_op → Nat
  | capture_op.read_buffer _ => if w.dev.m_read_mutex then 0 else 1
  | _ => 0

/-- The number of `read_buffer` calls of a run that got past
`m_read_mutex`, that is, that executed `read_read` or `read_mmap`. -/
def reads_entered (w : capture_world) : List capture_op → Nat
  | [] => 0
  | op :: ops => enters_read w op + reads_entered (capture_step w op) ops

/-- The slot rotation of the read strategy after `calls` executions of
`read_read` on a machine with `hc` hardware threads. -/
def rotation_inv (hc calls : Nat) (w : capture_world) : Prop :=
  w.dev.m_method = capture_method.READ ∧
  w.hardware_concurrency = hc ∧
  (w.dev.m_buffer_count = 0 ∨ w.dev.m_buffer_count = compute_buffer_count hc) ∧
  w.dev.m_last_used_buffer = calls % compute_buffer_count hc

end v4l2

/-! ## `libjpeg_instance`: how many contexts exist -/

/-- The largest number of contexts held by handles at the same time in the
states of a run, the first and the last included. -/
def max_outstanding (s : pool_state) : List pool_op → Nat
  | [] => (outstanding s.handles).length
  | op :: ops => max (outstanding s.handles).length (max_outstanding (pool_step s op) ops)

/-! ## `posix::unique_fd` (unique_fd.h) -/

namespace posix

/-- The field of `class unique_fd`. -/
structure unique_fd where
  m_value : Int
  deriving DecidableEq, Repr

/-- The move constructor `unique_fd(unique_fd &&fd)`: the new object and `fd`
afterwards. -/
def unique_fd.move_construct (fd : unique_fd) : unique_fd × unique_fd :=
  ({ m_value := fd.m_value }, { m_value := -1 })

/-- The move assignment `operator=(unique_fd &&fd)` on two distinct objects:
`*this` and `fd` afterwards. The value `*this` held is overwritten. -/
def unique_fd.move_assign (_self fd : unique_fd) : unique_fd × unique_fd :=
  ({ m_value := fd.m_value }, { m_value := -1 })

/-- The destructor `~unique_fd()`: the descriptors it passes to `close`. -/
def unique_fd.destroy (self : unique_fd) : List Int :=
  if self.m_value ≥ 0 then [self.m_value] else []

/-- A set of `unique_fd` objects (`none` once destroyed) and the descriptors
passed to `close` so far, oldest first. -/
structure fd_world where
  objects : List (Option unique_fd)
  closed : List Int
  deriving DecidableEq, Repr

/-- What a program does with its `unique_fd` objects. -/
inductive fd_op where
  | construct (value : Int)
  | move_construct (src : Nat)
  | move_assign (dst src : Nat)
  | destroy (obj : Nat)
  deriving DecidableEq, Repr

/-- One operation; `none` when it names an object that does not exist or is
destroyed. A move assignment of an object to itself stores `-1` last. -/
def fd_step (w : fd_world) : fd_op → Option fd_world
  | .construct value => some { w with objects := w.objects ++ [some { m_value := value }] }
  | .move_construct src =>
    match w.objects[src]? with
    | some (some fd) =>
      some { w with objects := w.objects.set src (some fd.move_construct.2)
                                 ++ [some fd.move_construct.1] }
    | _ => none
  | .move_assign dst src =>
    match w.objects[dst]?, w.objects[src]? with
    | some (some self), some (some fd) =>
      some { w with objects := (w.objects.set dst (some (self.move_assign fd).1)).set src
                                 (some (self.move_assign fd).2) }
    | _, _ => none
  | .destroy obj =>
    match w.objects[obj]? with
    | some (some fd) =>
      some { objects := w.objects.set obj none, closed := w.closed ++ fd.destroy }
    | _ => none

/-- A sequence of operations, left to right. -/
def fd_run (w : fd_world) : List fd_op → Option fd_world
  | [] => some w
  | op :: ops =>
    match fd_step w op with
    | some w1 => fd_run w1 ops
    | none => none

/-- The step `std::move(position + 1, end(), position)` of
`std::vector::erase`, the element at `position` being `x` and the elements
behind it the list: each element is move-assigned from its successor. -/
def shift_from (x : unique_fd) : List unique_fd → List unique_fd
  | [] => [x]
  | y :: rest => (x.move_assign y).1 :: shift_from (x.move_assign y).2 rest

/-- The same step on the list of the elements from `position` on. -/
def shift_down : List unique_fd → List unique_fd
  | [] => []
  | x :: rest => shift_from x rest

/-- `std::vector<unique_fd>::erase(position)` for a position inside the
vector: the elements behind it are moved one place down, then the last
element is destroyed. The vector afterwards and the descriptors closed. -/
def vector_erase (v : List unique_fd) (position : Nat) : List unique_fd × List Int :=
  if position < v.length then
    let moved := v.take position ++ shift_down (v.drop position)
    (moved.dropLast,
     match moved.getLast? with
     | some last => last.destroy
     | none => [])
  else (v, [])

end posix

/-! ## The worker loop of `video_streamer::main` (video_streamer.cpp, lines 270-292) -/

/-- The conversion of a value to `int`, and the result of arithmetic on
`std::atomic<int>`: two's complement, modulo `2 ^ 32`. -/
def to_int32 (v : Int) : Int :=
  (v + 2 ^ 31) % 2 ^ 32 - 2 ^ 31

/-- The initial value of the global `jpeg_quality`; nothing writes to it. -/
def jpeg_quality : Int := 80

/-- The bytes `send(buffer.data(), buffer.size())` offers: the `m_size` bytes
of the process memory `mem` from `m_data` on. -/
def bytes_of (mem : Nat → Nat) (buffer : image_buffer) : List Nat :=
  (List.range buffer.m_size).map (fun i => mem (buffer.m_data + i))

/-- What a worker thread shares with the others: the capture device with its
live Buffers, the client vector of the server, the log of `::send` calls, and
the global counters `frame_counter` and `byte_counter`. -/
structure worker_state where
  world : v4l2.capture_world
  m_client_sockets : List client_socket
  sent : List send_call
  frame_counter : Int
  byte_counter : Int

/-- The environment of one iteration: the replies to `read_buffer`, the
values read through unassigned slot fields at the release, the codec and the
allocator, and the process memory at the time of the broadcast. -/
structure iteration_env where
  read : v4l2.read_env
  stray : v4l2.stray_reads
  codec : codec_env
  mem : Nat → Nat

/-- How one iteration of the loop ends: the `try` block ran to its end after
broadcasting `broadcast`; a `libjpeg_exception` was caught by the handler;
another failure left the loop; or the thread waits inside `read_buffer`. -/
inductive iteration_outcome where
  | completed (broadcast : image_buffer)
  | caught
  | propagated (e : failure)
  | waiting
  deriving DecidableEq, Repr

/-- The destruction of the Buffer `read_buffer` returned last: the local
`frame` goes out of scope, or the stack unwinds. -/
def release_frame (w : v4l2.capture_world) (stray : v4l2.stray_reads) : v4l2.capture_world :=
  v4l2.capture_step w (v4l2.capture_op.release (w.live.length - 1) stray)

/-- The member function `capture_device::read_jpeg()` as a worker calls it:
the world afterwards and the frame or the failure. When the constructor
`jpeg_frame(image_buffer)` throws, the Buffer is destroyed while unwinding. -/
def read_jpeg (w : v4l2.capture_world) (env : iteration_env) :
    v4l2.capture_world × Except failure jpeg_frame :=
  if w.dev.pixel_format ≠ v4l2.format.MJPEG then
    (w, .error (failure.v4l2_exception "Pixel format is not MJPEG"))
  else if w.dev.m_read_mutex then (w, .error failure.blocked)
  else
    match (w.dev.read_buffer w.hardware_concurrency env.read).2 with
    | v4l2.read_outcome.threw message =>
      (w.after_read (w.dev.read_buffer w.hardware_concurrency env.read),
       .error (failure.v4l2_exception message))
    | v4l2.read_outcome.blocked =>
      (w.after_read (w.dev.read_buffer w.hardware_concurrency env.read),
       .error failure.blocked)
    | v4l2.read_outcome.returned buffer =>
      match jpeg_frame.of_buffer env.codec buffer with
      | .error e =>
        (release_frame (w.after_read (w.dev.read_buffer w.hardware_concurrency env.read))
           env.stray,
         .error e)
      | .ok frame =>
        (w.after_read (w.dev.read_buffer w.hardware_concurrency env.read), .ok frame)

/-- The exit of the `try` block by an exception: the handler catches
`libjpeg_exception` only. -/
def after_throw (s : worker_state) : failure → worker_state × iteration_outcome
  | failure.libjpeg_exception => (s, iteration_outcome.caught)
  | failure.blocked => (s, iteration_outcome.waiting)
  | e => (s, iteration_outcome.propagated e)

/-- The statements `server.send(f); byte_counter += (int) f.buffer().size();`
and `frame_counter++;` for the buffer of the frame sent, then the end of the
`try` block, where the captured frame is destroyed. `server.send` is the
broadcast in which every `::send` returns (`stream_server.send`); a broadcast
ended by SIGPIPE ends the worker with the process (`stream_server.send_sigpipe`). -/
def broadcast_and_count (s : worker_state) (w : v4l2.capture_world) (env : iteration_env)
    (buffer : image_buffer) : worker_state × iteration_outcome :=
  ({ world := release_frame w env.stray
     m_client_sockets := (stream_server.send s.m_client_sockets (bytes_of env.mem buffer)).1
     sent := s.sent ++ (stream_server.send s.m_client_sockets (bytes_of env.mem buffer)).2
     frame_counter := to_int32 (s.frame_counter + 1)
     byte_counter := to_int32 (s.byte_counter + to_int32 buffer.m_size) },
   iteration_outcome.completed buffer)

/-- The body of the loop `while (running)` of a worker: the `try` block and
its handler. `frame_processor` is `none` for an empty `std::function`. -/
def worker_iteration (frame_processor : Option (uncompressed_frame → uncompressed_frame))
    (env : iteration_env) (s : worker_state) : worker_state × iteration_outcome :=
  match read_jpeg s.world env with
  | (w, .error e) => after_throw { s with world := w } e
  | (w, .ok frame) =>
    match frame_processor with
    | some process =>
      match frame.uncompress env.codec JCS_RGB 3 with
      | .error e => after_throw { s with world := release_frame w env.stray } e
      | .ok image =>
        match jpeg_frame.of_frame env.codec (process image) JCS_RGB 3 jpeg_quality with
        | .error e => after_throw { s with world := release_frame w env.stray } e
        | .ok compressed_frame => broadcast_and_count s w env compressed_frame.m_buffer
    | none => broadcast_and_count s w env frame.m_buffer

/-- How the loop of a worker ends: `running` was false at the loop head; the
iterations given are used up; an exception left the loop; or the thread
waits. -/
inductive loop_exit where
  | stopped
  | more
  | terminated (e : failure)
  | waiting
  deriving DecidableEq, Repr

/-- The loop `while (running) { try { ... } catch (const libjpeg_exception &) { ... } }`;
each element is the value of `running` read at the loop head and the
environment of that iteration. -/
def worker_loop (frame_processor : Option (uncompressed_frame → uncompressed_frame)) :
    List (Bool × iteration_env) → worker_state → worker_state × loop_exit
  | [], s => (s, loop_exit.more)
  | (running, env) :: rest, s =>
    if running then
      match worker_iteration frame_processor env s with
      | (s1, iteration_outcome.completed _) => worker_loop frame_processor rest s1
      | (s1, iteration_outcome.caught) => worker_loop frame_processor rest s1
      | (s1, iteration_outcome.propagated e) => (s1, loop_exit.terminated e)
      | (s1, iteration_outcome.waiting) => (s1, loop_exit.waiting)
    else (s, loop_exit.stopped)

/-- An iteration environment in which everything succeeds. -/
def env_ok : iteration_env :=
  { read := v4l2.env_mmap, stray := { format := v4l2.format.UNKNOWN, index := 0 },
    codec := codec_example, mem := v4l2.env_mmap.mem }

/-- An iteration environment whose codec rejects the header. -/
def env_bad_header : iteration_env :=
  { env_ok with codec := { codec_example with read_header := fun _ => none } }

/-- An iteration environment in which `VIDIOC_DQBUF` fails. -/
def env_dqbuf_fails : iteration_env :=
  { env_ok with read := { v4l2.env_mmap with dqbuf := (-1, 0, 0) } }

/-- A worker state on a device in memory-mapped strategy with MJPEG
negotiated, one open client on descriptor 7, and counters 10 and 1000. -/
def worker_start : worker_state :=
  { world := v4l2.capture_world.opened 2 v4l2.capture_method.MMAP v4l2.format_mjpeg_640x480
    m_client_sockets := [open_client 7]
    sent := []
    frame_counter := 10
    byte_counter := 1000 }

/-- The frame `read_jpeg` returns to a worker in `worker_start` with `env_ok`:
slot 0 of the device, 4 bytes, a picture of 2 by 2. -/
def captured_2x2 : jpeg_frame :=
  { m_buffer := { m_data := 4096, m_size := 4,
                  m_releaser := some (releaser_ref.capture_buffer 0) }
    m_width := 2, m_height := 2 }

/-! # Theorems -/

/-! ## `image_buffer`: single release -/

theorem getElem?_set_append_one {α : Type} (l : List α) (i j : Nat) (a c : α)
    (hi : i < l.length) :
    (l.set i a ++ [c])[j]? =
      if j = i then some a else if j = l.length then some c else l[j]? := by
  by_cases hj : j < l.length
  · rw [List.getElem?_append_left (by simpa using hj), List.getElem?_set]
    by_cases hji : j = i
    · subst hji; simp [hj]
    · have h1 : ¬ i = j := fun h => hji h.symm
      have h2 : j ≠ l.length := by omega
      simp [hji, h1, h2]
  · have hj2 : l.length ≤ j := by omega
    rw [List.getElem?_append_right (by simpa using hj2)]
    have hji : j ≠ i := by omega
    simp only [List.length_set, hji, if_false]
    by_cases hje : j = l.length
    · subst hje; simp
    · have : j - l.length ≠ 0 := by omega
      have h3 : l[j]? = none := List.getElem?_eq_none (by omega)
      simp [hje, h3]
      omega

theorem single_owner_step (r : releaser_ref) (data size : Nat) (w w1 : buffer_world)
    (op : buffer_op) (hw : single_owner r data size w) (hs : buffer_step w op = some w1) :
    single_owner r data size w1 := by
  cases op with
  | move_construct src =>
    simp only [buffer_step] at hs
    split at hs
    · rename_i b hb
      have hsrc : src < w.objects.length := by
        by_contra hcon
        rw [List.getElem?_eq_none (by omega)] at hb
        cases hb
      injection hs with hs
      subst hs
      rcases hw with ⟨hrel, i, hi, hrest⟩ | ⟨hrel, hrest⟩
      · left
        refine ⟨hrel, ?_⟩
        by_cases hsi : src = i
        · subst hsi
          rw [hb] at hi
          injection hi with hi
          injection hi with hi
          subst hi
          refine ⟨w.objects.length, ?_, ?_⟩
          · rw [getElem?_set_append_one _ _ _ _ _ hsrc]
            have : w.objects.length ≠ src := by omega
            simp [this, image_buffer.move_construct]
          · intro j b hj hjb
            rw [getElem?_set_append_one _ _ _ _ _ hsrc] at hjb
            by_cases hjs : j = src
            · simp [hjs, image_buffer.move_construct] at hjb
              exact hjb.symm
            · simp only [hjs, hj, if_false] at hjb
              exact hrest j b hjs hjb
        · have hb0 := hrest src b hsi hb
          subst hb0
          refine ⟨i, ?_, ?_⟩
          · rw [getElem?_set_append_one _ _ _ _ _ hsrc]
            have h1 : i ≠ src := fun h => hsi h.symm
            have h2 : i ≠ w.objects.length := by
              intro h
              rw [List.getElem?_eq_none (by omega)] at hi
              cases hi
            simp only [h1, h2, if_false]
            exact hi
          · intro j b hj hjb
            rw [getElem?_set_append_one _ _ _ _ _ hsrc] at hjb
            by_cases hjs : j = src
            · simp [hjs, image_buffer.move_construct] at hjb
              exact hjb.symm
            · by_cases hjl : j = w.objects.length
              · have : w.objects.length ≠ src := by omega
                simp [hjl, this, image_buffer.move_construct] at hjb
                exact hjb.symm
              · simp only [hjs, hjl, if_false] at hjb
                exact hrest j b hj hjb
      · right
        refine ⟨hrel, ?_⟩
        have hb0 := hrest src b hb
        subst hb0
        intro j b hjb
        rw [getElem?_set_append_one _ _ _ _ _ hsrc] at hjb
        by_cases hjs : j = src
        · simp [hjs, image_buffer.move_construct] at hjb
          exact hjb.symm
        · by_cases hjl : j = w.objects.length
          · have : w.objects.length ≠ src := by omega
            simp [hjl, this, image_buffer.move_construct] at hjb
            exact hjb.symm
          · simp only [hjs, hjl, if_false] at hjb
            exact hrest j b hjb
    · cases hs
  | destroy obj =>
    simp only [buffer_step] at hs
    split at hs
    · rename_i b hb
      injection hs with hs
      subst hs
      rcases hw with ⟨hrel, i, hi, hrest⟩ | ⟨hrel, hrest⟩
      · by_cases hoi : obj = i
        · subst hoi
          rw [hb] at hi
          injection hi with hi
          injection hi with hi
          subst hi
          right
          refine ⟨by simp [hrel, image_buffer.destroy], ?_⟩
          intro j b hjb
          rw [List.getElem?_set] at hjb
          by_cases hjo : obj = j
          · subst hjo
            rw [if_pos rfl] at hjb
            split at hjb <;> cases hjb
          · simp only [hjo, if_false] at hjb
            exact hrest j b (fun h => hjo h.symm) hjb
        · left
          have hb0 := hrest obj b hoi hb
          subst hb0
          refine ⟨by simp [hrel, image_buffer.destroy], i, ?_, ?_⟩
          · rw [List.getElem?_set]
            simp only [hoi, if_false]
            exact hi
          · intro j b hj hjb
            rw [List.getElem?_set] at hjb
            by_cases hjo : obj = j
            · subst hjo
              rw [if_pos rfl] at hjb
              split at hjb <;> cases hjb
            · simp only [hjo, if_false] at hjb
              exact hrest j b hj hjb
      · right
        have hb0 := hrest obj b hb
        subst hb0
        refine ⟨by simp [hrel, image_buffer.destroy], ?_⟩
        intro j b hjb
        rw [List.getElem?_set] at hjb
        by_cases hjo : obj = j
        · subst hjo
          rw [if_pos rfl] at hjb
          split at hjb <;> cases hjb
        · simp only [hjo, if_false] at hjb
          exact hrest j b hjb
    · cases hs

theorem single_owner_run (r : releaser_ref) (data size : Nat) (ops : List buffer_op) :
    ∀ (w w1 : buffer_world), single_owner r data size w → buffer_run w ops = some w1 →
      single_owner r data size w1 := by
  induction ops with
  | nil =>
    intro w w1 hw hr
    simp only [buffer_run] at hr
    injection hr with hr
    subst hr
    exact hw
  | cons op ops ih =>
    intro w w1 hw hr
    simp only [buffer_run] at hr
    split at hr
    · rename_i w2 hstep
      exact ih w2 w1 (single_owner_step r data size w w2 op hw hstep) hr
    · cases hr


/-- C1: an `image_buffer` constructed with a non-null releaser `r`, then any
sequence of move-constructions and destructions that ends with every object
destroyed: the log of release actions is exactly one call, on `r`, with the
original data pointer and size. The source of a move-construction holds
`data = null, size = 0, releaser = null`, and destroying it performs no
release action. -/
theorem image_buffer_single_release (data size : Nat) (r : releaser_ref)
    (ops : List buffer_op) (w : buffer_world)
    (hrun : buffer_run
      { objects := [some (image_buffer.mk_with data size (some r))], released := [] } ops
        = some w)
    (hdead : ∀ o ∈ w.objects, o = none) :
    w.released = [release_call.mk r data size] ∧
    ∀ b : image_buffer,
      b.move_construct.1 = b ∧
      b.move_construct.2 = image_buffer.mk 0 0 none ∧
      b.move_construct.2.destroy = [] := by
  constructor
  · have h0 : single_owner r data size
        { objects := [some (image_buffer.mk_with data size (some r))], released := [] } := by
      left
      refine ⟨rfl, 0, rfl, ?_⟩
      intro j b hj hjb
      cases j with
      | zero => exact absurd rfl hj
      | succ k => simp at hjb
    rcases single_owner_run r data size ops _ w h0 hrun with ⟨_, i, hi, _⟩ | ⟨hrel, _⟩
    · have hmem : some (image_buffer.mk data size (some r)) ∈ w.objects :=
        List.getElem?_mem hi
      have := hdead _ hmem
      cases this
    · exact hrel
  · intro b
    exact ⟨rfl, rfl, rfl⟩

/-- C1 at a concrete program: the buffer is moved twice, the two moved-from
objects and the last owner are destroyed; the heap releaser is called once. -/
theorem image_buffer_single_release_witness :
    buffer_run
      { objects := [some (image_buffer.mk_with 4096 16 (some releaser_ref.heap))],
        released := [] }
      [.move_construct 0, .destroy 0, .move_construct 1, .destroy 1, .destroy 2]
      = some { objects := [none, none, none],
               released := [release_call.mk releaser_ref.heap 4096 16] } ∧
    (∀ o ∈ [(none : Option image_buffer), none, none], o = none) ∧
    (buffer_world.mk [none, none, none] [release_call.mk releaser_ref.heap 4096 16]).released
      = [release_call.mk releaser_ref.heap 4096 16] :=
  ⟨by decide, by decide,
   (image_buffer_single_release 4096 16 releaser_ref.heap
      [.move_construct 0, .destroy 0, .move_construct 1, .destroy 1, .destroy 2]
      { objects := [none, none, none],
        released := [release_call.mk releaser_ref.heap 4096 16] }
      (by decide) (by decide)).1⟩

/-! ## `capture_device::wrap_buffer`: the MJPEG trim -/

namespace v4l2

theorem trim_trailing_zeros_le (mem : Nat → Nat) (base n : Nat) :
    trim_trailing_zeros mem base n ≤ n := by
  induction n with
  | zero => simp [trim_trailing_zeros]
  | succ k ih =>
    simp only [trim_trailing_zeros]
    split
    · omega
    · omega

theorem trim_trailing_zeros_last (mem : Nat → Nat) (base n : Nat) :
    trim_trailing_zeros mem base n = 0 ∨
      mem (base + (trim_trailing_zeros mem base n - 1)) ≠ 0 := by
  induction n with
  | zero => simp [trim_trailing_zeros]
  | succ k ih =>
    simp only [trim_trailing_zeros]
    split
    · exact ih
    · right
      simpa using ‹¬ mem (base + k) = 0›

theorem trim_trailing_zeros_tail (mem : Nat → Nat) (base n : Nat) :
    ∀ i, trim_trailing_zeros mem base n ≤ i → i < n → mem (base + i) = 0 := by
  induction n with
  | zero => intro i _ hi; omega
  | succ k ih =>
    intro i hle hi
    simp only [trim_trailing_zeros] at hle
    split at hle
    · rename_i hz
      by_cases hik : i = k
      · subst hik; exact hz
      · exact ih i hle (by omega)
    · omega

theorem pixel_format_eq_MJPEG (dev : capture_device) :
    dev.pixel_format = format.MJPEG ↔ dev.m_format.pixelformat = V4L2_PIX_FMT_MJPEG := by
  unfold capture_device.pixel_format
  constructor
  · intro h
    split at h
    · cases h
    · split at h
      · cases h
      · split at h
        · cases h
        · split at h
          · cases h
          · split at h
            · assumption
            · split at h <;> cases h
  · intro h
    rw [h]
    decide

/-- C2: `wrap_buffer` on slot memory `mem` and reported length `n`. Under
MJPEG the exposed size `k` is at most `n`, is `0` or has a non-zero byte at
`k - 1`, every byte in `[k, n)` is zero, and `k` is the largest such length;
under any other format the size is exactly `n`. At
`[0xFF, 0xD8, 0x12, 0x34, 0xFF, 0xD9, 0, 0, 0]` under MJPEG the size is 6: the
last exposed byte is the `0xD9` of the end-of-image marker. -/
theorem wrap_buffer_size (dev : capture_device) (mem : Nat → Nat) (slot : Nat)
    (buffer : capture_buffer) (n : Nat) :
    (dev.pixel_format = format.MJPEG →
      (dev.wrap_buffer mem slot buffer n).m_size ≤ n ∧
      ((dev.wrap_buffer mem slot buffer n).m_size = 0 ∨
        mem (buffer.base + ((dev.wrap_buffer mem slot buffer n).m_size - 1)) ≠ 0) ∧
      (∀ i, (dev.wrap_buffer mem slot buffer n).m_size ≤ i → i < n →
        mem (buffer.base + i) = 0) ∧
      (∀ k, k ≤ n → (k = 0 ∨ mem (buffer.base + (k - 1)) ≠ 0) →
        k ≤ (dev.wrap_buffer mem slot buffer n).m_size)) ∧
    (dev.pixel_format ≠ format.MJPEG → (dev.wrap_buffer mem slot buffer n).m_size = n) ∧
    (∀ (d : capture_device) (b : capture_buffer), d.pixel_format = format.MJPEG →
      (d.wrap_buffer (memory_of b.base [0xFF, 0xD8, 0x12, 0x34, 0xFF, 0xD9, 0, 0, 0])
        slot b 9).m_size = 6) := by
  refine ⟨?_, ?_, ?_⟩
  · intro hfmt
    have hpf := (pixel_format_eq_MJPEG dev).1 hfmt
    have hsize : (dev.wrap_buffer mem slot buffer n).m_size
        = trim_trailing_zeros mem buffer.base n := by
      simp [capture_device.wrap_buffer, image_buffer.mk_with, hpf]
    rw [hsize]
    refine ⟨trim_trailing_zeros_le _ _ _, trim_trailing_zeros_last _ _ _,
      trim_trailing_zeros_tail _ _ _, ?_⟩
    intro k hk hlast
    by_contra hlt
    rcases hlast with h0 | hne
    · omega
    · apply hne
      exact trim_trailing_zeros_tail mem buffer.base n (k - 1) (by omega) (by omega)
  · intro hfmt
    have hpf : ¬ dev.m_format.pixelformat = V4L2_PIX_FMT_MJPEG :=
      fun h => hfmt ((pixel_format_eq_MJPEG dev).2 h)
    simp [capture_device.wrap_buffer, image_buffer.mk_with, hpf]
  · intro d b hfmt
    have hpf := (pixel_format_eq_MJPEG d).1 hfmt
    simp [capture_device.wrap_buffer, image_buffer.mk_with, hpf, trim_trailing_zeros,
      memory_of]

end v4l2

/-! ## `stream_server`: listen addresses -/

theorem rfind_eq_none (s : List Char) (c : Char) (h : c ∉ s) : rfind s c = none := by
  induction s with
  | nil => rfl
  | cons x xs ih =>
    have hx : ¬ x = c := fun e => h (by simp [e])
    have hxs : c ∉ xs := fun e => h (by simp [e])
    simp [rfind, ih hxs, hx]

theorem rfind_append (pre post : List Char) (c : Char) (h : c ∉ post) :
    rfind (pre ++ c :: post) c = some pre.length := by
  induction pre with
  | nil => simp [rfind, rfind_eq_none post c h]
  | cons x xs ih => simp [rfind, ih]

theorem parse_address_split (pre post : List Char) (hpre : pre ≠ []) (hpost : ':' ∉ post) :
    parse_address (pre ++ ':' :: post) = .ok (spec_host pre, post) := by
  have hlen : 0 < pre.length := List.length_pos.2 hpre
  have h0 : (pre ++ ':' :: post)[0]? = pre.head? := by
    cases pre with
    | nil => exact absurd rfl hpre
    | cons a t => simp
  have h1 : (pre ++ ':' :: post)[pre.length - 1]? = pre.getLast? := by
    rw [List.getElem?_append_left (by omega), List.getLast?_eq_getElem?]
  have hport : substr_from (pre ++ ':' :: post) (pre.length + 1) = post := by
    simp [substr_from]
  simp only [parse_address, rfind_append pre post ':' hpost, Nat.pos_iff_ne_zero.1 hlen,
    if_false, h0, h1, hport, Nat.zero_add]
  by_cases hb : pre.head? = some '[' ∧ pre.getLast? = some ']'
  · have hlen2 : 2 ≤ pre.length := by
      rcases hb with ⟨hh, hl⟩
      cases pre with
      | nil => exact absurd rfl hpre
      | cons a t =>
        cases t with
        | nil =>
          simp at hh hl
          rw [hh] at hl
          exact absurd hl (by decide)
        | cons b u => simp
    have hhost : substr (pre ++ ':' :: post) 1 (pre.length - 1 - 1) = (pre.drop 1).dropLast := by
      simp only [substr]
      rw [List.drop_append_of_le_length (by omega), List.take_append_of_le_length (by simp),
        List.dropLast_eq_take]
      simp
    simp [hb, spec_host, hhost]
  · have hhost : substr (pre ++ ':' :: post) 0 pre.length = pre := by
      simp [substr]
    have hb2 : ¬ (pre.head? = some '[' ∧ pre.getLast? = some ']') := hb
    rw [not_and] at hb
    simp only [spec_host, hb2, if_false]
    by_cases hh : pre.head? = some '['
    · have hl := hb hh
      simp [hh, hl, hhost]
    · simp [hh, hhost]

theorem exists_last_occurrence (c : Char) (s : List Char) (h : c ∈ s) :
    ∃ pre post, s = pre ++ c :: post ∧ c ∉ post := by
  induction s with
  | nil => cases h
  | cons x xs ih =>
    by_cases hxs : c ∈ xs
    · obtain ⟨pre, post, hsplit, hpost⟩ := ih hxs
      exact ⟨x :: pre, post, by simp [hsplit], hpost⟩
    · have hx : c = x := by
        rcases List.mem_cons.1 h with h1 | h1
        · exact h1
        · exact absurd h1 hxs
      exact ⟨[], xs, by simp [hx], hxs⟩

theorem stream_server_loop_calls_extend (env : Nat → net_replies)
    (addresses : List (List Char)) :
    ∀ (k : Nat) (sockets : List Int) (calls : List net_call),
      ∃ l, (stream_server_loop env k addresses sockets calls).calls = calls ++ l := by
  induction addresses with
  | nil =>
    intro k sockets calls
    exact ⟨[], by simp [stream_server_loop]⟩
  | cons a rest ih =>
    intro k sockets calls
    rw [stream_server_loop]
    split
    · exact ⟨[], by simp⟩
    · rename_i host port hparse
      dsimp only
      split
      · exact ⟨_, rfl⟩
      · split
        · exact ⟨_, by simp only [List.append_assoc]; rfl⟩
        · split
          · exact ⟨_, by simp only [List.append_assoc]; rfl⟩
          · split
            · exact ⟨_, by simp only [List.append_assoc]; rfl⟩
            · obtain ⟨l, hl⟩ := ih (k + 1) (sockets ++ [(env k).socket])
                (calls ++ [net_call.getaddrinfo host port] ++ [net_call.socket (env k).socket]
                  ++ [net_call.setsockopt (env k).socket] ++ [net_call.bind (env k).socket]
                  ++ [net_call.listen (env k).socket])
              exact ⟨_, by rw [hl]; simp only [List.append_assoc]; rfl⟩

theorem stream_server_loop_first_call (env : Nat → net_replies) (k : Nat)
    (address host port : List Char) (rest : List (List Char)) (sockets : List Int)
    (hparse : parse_address address = .ok (host, port)) :
    (stream_server_loop env k (address :: rest) sockets []).calls.head?
      = some (net_call.getaddrinfo host port) := by
  rw [stream_server_loop, hparse]
  dsimp only
  split
  · rfl
  · split
    · rfl
    · split
      · rfl
      · split
        · rfl
        · obtain ⟨l, hl⟩ := stream_server_loop_calls_extend env rest (k + 1)
            (sockets ++ [(env k).socket])
            ([] ++ [net_call.getaddrinfo host port] ++ [net_call.socket (env k).socket]
              ++ [net_call.setsockopt (env k).socket] ++ [net_call.bind (env k).socket]
              ++ [net_call.listen (env k).socket])
          rw [hl]
          rfl

/-- C3: a listen address with a colon at a position other than 0 splits at
its last colon into `pre` and `post`; the constructor takes `post` as the port
and `pre`, without one enclosing pair of brackets when it starts with an
opening and ends with a closing bracket, as the host, and these are the host
and port of its first `getaddrinfo` call. `[::1]:8080` gives host `::1`, port
`8080`; `example:1234` gives host `example`, port `1234`. -/
theorem stream_server_resolves_address (address : List Char) (i : Nat) (hi : 0 < i)
    (hcolon : address[i]? = some ':') :
    (∃ pre post, address = pre ++ ':' :: post ∧ ':' ∉ post ∧
      parse_address address = .ok (spec_host pre, post) ∧
      ∀ (env : Nat → net_replies) (rest : List (List Char)),
        (stream_server_ctor env (address :: rest)).calls.head?
          = some (net_call.getaddrinfo (spec_host pre) post)) ∧
    parse_address "[::1]:8080".toList = .ok ("::1".toList, "8080".toList) ∧
    parse_address "example:1234".toList = .ok ("example".toList, "1234".toList) := by
  refine ⟨?_, by decide, by decide⟩
  obtain ⟨pre, post, hsplit, hpost⟩ :=
    exists_last_occurrence ':' address (List.getElem?_mem hcolon)
  have hpre : pre ≠ [] := by
    intro hnil
    subst hnil
    subst hsplit
    cases i with
    | zero => omega
    | succ j =>
      have : post[j]? = some ':' := by simpa using hcolon
      exact hpost (List.getElem?_mem this)
  have hparse : parse_address address = .ok (spec_host pre, post) := by
    rw [hsplit]
    exact parse_address_split pre post hpre hpost
  refine ⟨pre, post, hsplit, hpost, hparse, ?_⟩
  intro env rest
  exact stream_server_loop_first_call env 0 address _ _ rest [] hparse

/-- C3 at the address `[::1]:8080`, whose last colon is at position 5. -/
theorem stream_server_resolves_address_witness :
    "[::1]:8080".toList[5]? = some ':' ∧
    ∃ pre post, "[::1]:8080".toList = pre ++ ':' :: post ∧ ':' ∉ post ∧
      parse_address "[::1]:8080".toList = .ok (spec_host pre, post) :=
  ⟨by decide,
   match (stream_server_resolves_address "[::1]:8080".toList 5 (by decide) (by decide)).1 with
   | ⟨pre, post, h1, h2, h3, _⟩ => ⟨pre, post, h1, h2, h3⟩⟩

theorem parse_address_no_colon (address : List Char) (h : ':' ∉ address) :
    parse_address address = .error ("Port number is missing in " ++ String.mk address) := by
  simp [parse_address, rfind_eq_none address ':' h]

theorem socket_calls_append (l1 l2 : List net_call) :
    socket_calls (l1 ++ l2) = socket_calls l1 ++ socket_calls l2 := by
  simp [socket_calls]

theorem stream_server_loop_missing_port (env : Nat → net_replies)
    (addresses : List (List Char)) :
    ∀ (k : Nat) (sockets : List Int) (calls : List net_call),
      (∃ a ∈ addresses, ':' ∉ a) →
      (∃ message, (stream_server_loop env k addresses sockets calls).outcome
          = .error message) ∧
      (socket_calls (stream_server_loop env k addresses sockets calls).calls).length
        ≤ (socket_calls calls).length
          + (addresses.takeWhile (fun a => decide (':' ∈ a))).length := by
  induction addresses with
  | nil =>
    intro k sockets calls h
    obtain ⟨a, ha, _⟩ := h
    cases ha
  | cons a rest ih =>
    intro k sockets calls h
    by_cases hcolon : ':' ∈ a
    · have hrest : ∃ b ∈ rest, ':' ∉ b := by
        obtain ⟨b, hb, hbc⟩ := h
        rcases List.mem_cons.1 hb with e | e
        · subst e; exact absurd hcolon hbc
        · exact ⟨b, e, hbc⟩
      have htw : ((a :: rest).takeWhile (fun a => decide (':' ∈ a))).length
          = (rest.takeWhile (fun a => decide (':' ∈ a))).length + 1 := by
        simp [List.takeWhile, hcolon]
      rw [htw, stream_server_loop]
      split
      · exact ⟨⟨_, rfl⟩, by dsimp only; omega⟩
      · rename_i host port hparse
        dsimp only
        split
        · refine ⟨⟨_, rfl⟩, ?_⟩
          simp [socket_calls_append, socket_calls]
        · split
          · refine ⟨⟨_, rfl⟩, ?_⟩
            simp [socket_calls_append, socket_calls]
          · split
            · refine ⟨⟨_, rfl⟩, ?_⟩
              simp [socket_calls_append, socket_calls]
            · split
              · refine ⟨⟨_, rfl⟩, ?_⟩
                simp [socket_calls_append, socket_calls]
              · obtain ⟨hmsg, hcount⟩ := ih (k + 1) (sockets ++ [(env k).socket])
                  (calls ++ [net_call.getaddrinfo host port]
                    ++ [net_call.socket (env k).socket]
                    ++ [net_call.setsockopt (env k).socket] ++ [net_call.bind (env k).socket]
                    ++ [net_call.listen (env k).socket]) hrest
                refine ⟨hmsg, ?_⟩
                simp [socket_calls_append, socket_calls] at hcount ⊢
                omega
    · rw [stream_server_loop, parse_address_no_colon a hcolon]
      exact ⟨⟨_, rfl⟩, by simp [List.takeWhile, hcolon]⟩

theorem stream_server_loop_step (env : Nat → net_replies) (k : Nat) (a : List Char)
    (rest : List (List Char)) (sockets : List Int) (calls : List net_call) :
    stream_server_loop env k (a :: rest) sockets calls
      = match (address_setup (env k) a).outcome with
        | .error message =>
          { outcome := .error message, calls := calls ++ (address_setup (env k) a).calls }
        | .ok l =>
          stream_server_loop env (k + 1) rest (sockets ++ l)
            (calls ++ (address_setup (env k) a).calls) := by
  unfold address_setup
  rw [stream_server_loop, stream_server_loop]
  cases hparse : parse_address a with
  | error message => simp
  | ok hp =>
    obtain ⟨host, port⟩ := hp
    dsimp only
    by_cases h1 : (env k).getaddrinfo ≠ 0
    · rw [if_pos h1, if_pos h1]
      simp
    · rw [if_neg h1, if_neg h1]
      by_cases h2 : (env k).socket < 0
      · rw [if_pos h2, if_pos h2]
        simp
      · rw [if_neg h2, if_neg h2]
        by_cases h3 : (env k).bind ≠ 0
        · rw [if_pos h3, if_pos h3]
          simp
        · rw [if_neg h3, if_neg h3]
          by_cases h4 : (env k).listen ≠ 0
          · rw [if_pos h4, if_pos h4]
            simp
          · rw [if_neg h4, if_neg h4]
            simp [stream_server_loop]

theorem address_setup_socket_calls (r : net_replies) (a : List Char) :
    (socket_calls (address_setup r a).calls).length ≤ 1 := by
  unfold address_setup
  rw [stream_server_loop]
  split
  · simp [socket_calls]
  · dsimp only
    split
    · simp [socket_calls]
    · split
      · simp [socket_calls]
      · split
        · simp [socket_calls]
        · split
          · simp [socket_calls]
          · simp [stream_server_loop, socket_calls]

theorem address_setup_no_colon (r : net_replies) (a : List Char) (h : ':' ∉ a) :
    address_setup r a
      = { outcome := .error ("Port number is missing in " ++ String.mk a), calls := [] } := by
  unfold address_setup
  rw [stream_server_loop, parse_address_no_colon a h]

theorem stream_server_loop_attribution (env : Nat → net_replies)
    (addresses : List (List Char)) :
    ∀ (k : Nat) (sockets : List Int) (calls : List net_call),
      (∃ a ∈ addresses, ':' ∉ a) →
      ∃ m message,
        m ≤ (addresses.takeWhile (fun a => decide (':' ∈ a))).length ∧
        (stream_server_loop env k addresses sockets calls).outcome = .error message ∧
        (stream_server_loop env k addresses sockets calls).calls
          = calls ++ ((List.range m).map
              (fun i => (address_setup (env (k + i)) (addresses.getD i [])).calls)).flatten ∧
        ((m = (addresses.takeWhile (fun a => decide (':' ∈ a))).length ∧
          (∀ i, i < m → ∃ l, (address_setup (env (k + i)) (addresses.getD i [])).outcome
            = .ok l) ∧
          message = "Port number is missing in " ++ String.mk (addresses.getD m [])) ∨
         (∃ j, m = j + 1 ∧
          (∀ i, i < j → ∃ l, (address_setup (env (k + i)) (addresses.getD i [])).outcome
            = .ok l) ∧
          (address_setup (env (k + j)) (addresses.getD j [])).outcome = .error message)) := by
  induction addresses with
  | nil =>
    intro k sockets calls h
    obtain ⟨a, ha, _⟩ := h
    cases ha
  | cons a rest ih =>
    intro k sockets calls h
    by_cases hcolon : ':' ∈ a
    · have hrest : ∃ b ∈ rest, ':' ∉ b := by
        obtain ⟨b, hb, hbc⟩ := h
        rcases List.mem_cons.1 hb with e | e
        · subst e; exact absurd hcolon hbc
        · exact ⟨b, e, hbc⟩
      have htw : ((a :: rest).takeWhile (fun a => decide (':' ∈ a))).length
          = (rest.takeWhile (fun a => decide (':' ∈ a))).length + 1 := by
        simp [List.takeWhile, hcolon]
      rw [htw, stream_server_loop_step]
      cases hout : (address_setup (env k) a).outcome with
      | error message =>
        refine ⟨1, message, by omega, rfl, ?_, Or.inr ⟨0, rfl, ?_, ?_⟩⟩
        · simp [List.range_succ]
        · intro i hi
          omega
        · simpa using hout
      | ok l =>
        obtain ⟨m, message, hm, ho, hc, hcase⟩ :=
          ih (k + 1) (sockets ++ l) (calls ++ (address_setup (env k) a).calls) hrest
        have hshift : ∀ i, k + 1 + i = k + (i + 1) := by intro i; omega
        simp only [hshift] at hc hcase
        refine ⟨m + 1, message, by omega, ho, ?_, ?_⟩
        · dsimp only
          rw [hc, List.range_succ_eq_map]
          simp [List.append_assoc, Function.comp_def]
        · rcases hcase with ⟨hm1, hall, hmsg⟩ | ⟨j, hj, hall, herr⟩
          · refine Or.inl ⟨by omega, ?_, ?_⟩
            · intro i hi
              cases i with
              | zero => exact ⟨l, by simpa using hout⟩
              | succ i => simpa using hall i (by omega)
            · simpa using hmsg
          · refine Or.inr ⟨j + 1, by omega, ?_, by simpa using herr⟩
            intro i hi
            cases i with
            | zero => exact ⟨l, by simpa using hout⟩
            | succ i => simpa using hall i (by omega)
    · have htw : ((a :: rest).takeWhile (fun a => decide (':' ∈ a))).length = 0 := by
        simp [List.takeWhile, hcolon]
      rw [htw, stream_server_loop, parse_address_no_colon a hcolon]
      refine ⟨0, _, le_refl 0, rfl, by simp, Or.inl ⟨rfl, ?_, by simp⟩⟩
      intro i hi
      omega

/-- C4, the claim as stated fails: with the addresses `example:1234` and
`nocolon` on a system where every call succeeds, the body of the constructor
throws for the missing port after `::socket` has returned descriptor 3 for
the first address; the accept thread is running by then, and the exception
ends in `std::terminate()`. -/
theorem stream_server_socket_before_failure :
    (∃ a ∈ ["example:1234".toList, "nocolon".toList], ':' ∉ a) ∧
    (stream_server_ctor env_all_succeed ["example:1234".toList, "nocolon".toList]).outcome
      = ctor_outcome.terminate "Port number is missing in nocolon" ∧
    socket_calls
      (stream_server_ctor env_all_succeed ["example:1234".toList, "nocolon".toList]).calls
      = [net_call.socket 3] ∧
    (stream_server_ctor env_all_succeed
      ["example:1234".toList, "nocolon".toList]).accept_thread_started = true := by
  decide

/-- C4, amended: when a listen address has no colon, the constructor does not
complete: after the base class initialiser has started the accept thread, the
loop of its body throws a `stream_server_exception`. With `n` the number of
addresses that precede the first address without a colon, the calls
`getaddrinfo`, `::socket`, `setsockopt`, `bind` and `listen` made up to the
throw are, in order, those of the iterations for the first `m` addresses, for
some `m ≤ n`: either `m = n`, every one of these iterations succeeded and the
exception is the missing-port one of the first address without a colon, or
the last of these `m` iterations is the first that failed and the exception
is the one it raised. One
iteration calls `::socket` at most once, and the iteration for an address
without a colon makes no call. So `::socket` has been called at most once for
each address that precedes the first address without a colon and never for
that address or a later one; when the list starts with an address without a
colon, none of these calls has been made. -/
theorem stream_server_rejects_missing_port (env : Nat → net_replies)
    (addresses : List (List Char)) (h : ∃ a ∈ addresses, ':' ∉ a) :
    (stream_server_ctor env addresses).accept_thread_started = true ∧
    (∃ m message,
      m ≤ (addresses.takeWhile (fun a => decide (':' ∈ a))).length ∧
      (stream_server_ctor env addresses).outcome = ctor_outcome.terminate message ∧
      (stream_server_ctor env addresses).calls
        = ((List.range m).map
            (fun i => (address_setup (env i) (addresses.getD i [])).calls)).flatten ∧
      ((m = (addresses.takeWhile (fun a => decide (':' ∈ a))).length ∧
        (∀ i, i < m → ∃ l, (address_setup (env i) (addresses.getD i [])).outcome = .ok l) ∧
        message = "Port number is missing in " ++ String.mk (addresses.getD m [])) ∨
       (∃ j, m = j + 1 ∧
        (∀ i, i < j → ∃ l, (address_setup (env i) (addresses.getD i [])).outcome = .ok l) ∧
        (address_setup (env j) (addresses.getD j [])).outcome = .error message))) ∧
    (∀ (r : net_replies) (a : List Char),
      (socket_calls (address_setup r a).calls).length ≤ 1) ∧
    (∀ (r : net_replies) (a : List Char), ':' ∉ a → (address_setup r a).calls = []) ∧
    (socket_calls (stream_server_ctor env addresses).calls).length
      ≤ (addresses.takeWhile (fun a => decide (':' ∈ a))).length ∧
    (∀ a rest, addresses = a :: rest → ':' ∉ a →
      (stream_server_ctor env addresses).outcome
        = ctor_outcome.terminate ("Port number is missing in " ++ String.mk a) ∧
      (stream_server_ctor env addresses).calls = []) := by
  obtain ⟨hmsg, hcount⟩ := stream_server_loop_missing_port env addresses 0 [] [] h
  obtain ⟨m, message, hm, ho, hc, hcase⟩ :=
    stream_server_loop_attribution env addresses 0 [] [] h
  refine ⟨rfl, ⟨m, message, hm, ?_, ?_, ?_⟩, address_setup_socket_calls, ?_, ?_, ?_⟩
  · simp only [stream_server_ctor, ho]
  · simpa [stream_server_ctor] using hc
  · simpa using hcase
  · intro r a ha
    rw [address_setup_no_colon r a ha]
  · simpa [stream_server_ctor, socket_calls] using hcount
  · intro a rest haddr hcolon
    subst haddr
    simp [stream_server_ctor, stream_server_loop, parse_address_no_colon a hcolon]

/-- C4, amended, at the addresses `example:1234` and `nocolon` on a system
where every call succeeds. -/
theorem stream_server_rejects_missing_port_witness :
    (∃ a ∈ ["example:1234".toList, "nocolon".toList], ':' ∉ a) ∧
    (socket_calls (stream_server_ctor env_all_succeed
        ["example:1234".toList, "nocolon".toList]).calls).length
      ≤ (["example:1234".toList, "nocolon".toList].takeWhile
          (fun a => decide (':' ∈ a))).length ∧
    ∃ m message,
      m ≤ (["example:1234".toList, "nocolon".toList].takeWhile
            (fun a => decide (':' ∈ a))).length ∧
      (stream_server_ctor env_all_succeed
        ["example:1234".toList, "nocolon".toList]).outcome
        = ctor_outcome.terminate message :=
  ⟨by decide,
   (stream_server_rejects_missing_port env_all_succeed
      ["example:1234".toList, "nocolon".toList] (by decide)).2.2.2.2.1,
   match (stream_server_rejects_missing_port env_all_succeed
      ["example:1234".toList, "nocolon".toList] (by decide)).2.1 with
   | ⟨m, message, h1, h2, _⟩ => ⟨m, message, h1, h2⟩⟩

example : parse_address "[::1]:8080".toList = .ok ("::1".toList, "8080".toList) := by decide
example : parse_address "example:1234".toList = .ok ("example".toList, "1234".toList) := by
  decide
example : parse_address "[]:80".toList = .ok ("".toList, "80".toList) := by decide
example : parse_address "[:80".toList = .ok ("[".toList, "80".toList) := by decide

/-! ## `stream_server::send` -/

theorem sys_send_fd (s : client_socket) (bytes : List Nat) :
    (sys_send s bytes).2.fd = s.fd := by
  unfold sys_send
  split <;> rfl

theorem sys_send_failed (s : client_socket) (bytes : List Nat)
    (h : (sys_send s bytes).1 ≤ 0) (hb : 0 < bytes.length) :
    (sys_send s bytes).2.received = s.received := by
  unfold sys_send at h ⊢
  split
  · rfl
  · rename_i hpos
    rw [if_neg hpos] at h
    exfalso
    have h1 : 0 < (s.respond s.calls).toNat := by omega
    have h2 : 0 < min (s.respond s.calls).toNat bytes.length := by
      rw [Nat.lt_min]; exact ⟨h1, hb⟩
    omega

theorem sys_send_accepted (s : client_socket) (bytes : List Nat)
    (h : 0 < (sys_send s bytes).1) :
    (sys_send s bytes).1.toNat ≤ bytes.length ∧
    (sys_send s bytes).2.received = s.received ++ bytes.take (sys_send s bytes).1.toNat := by
  unfold sys_send at h ⊢
  split
  · rename_i hneg
    rw [if_pos hneg] at h
    omega
  · simp only [Int.toNat_ofNat]
    exact ⟨Nat.min_le_right _ _, trivial⟩

theorem send_loop_spec (data : List Nat) (pre : List Nat) :
    ∀ (fuel : Nat) (s : client_socket) (offset : Nat),
      offset ≤ data.length → data.length - offset ≤ fuel →
      s.received = pre ++ data.take offset →
      (send_loop data fuel s offset).offset ≤ data.length ∧
      (send_loop data fuel s offset).socket.fd = s.fd ∧
      (send_loop data fuel s offset).socket.received
        = pre ++ data.take (send_loop data fuel s offset).offset ∧
      (∀ call ∈ (send_loop data fuel s offset).calls, call.fd = s.fd) ∧
      ((send_loop data fuel s offset).offset = data.length ↔
        ∀ call ∈ (send_loop data fuel s offset).calls, 0 < call.r) := by
  intro fuel
  induction fuel with
  | zero =>
    intro s offset hle hfuel hrec
    simp only [send_loop]
    refine ⟨hle, trivial, hrec, by simp, ?_⟩
    simp
    omega
  | succ fuel ih =>
    intro s offset hle hfuel hrec
    rw [send_loop]
    split
    · rename_i hlt
      dsimp only
      have hb : 0 < (data.drop offset).length := by simp; omega
      split
      · rename_i hfail
        refine ⟨hle, sys_send_fd _ _, ?_, by simp, ?_⟩
        · rw [sys_send_failed s _ hfail hb]; exact hrec
        · simp
          constructor
          · intro h; omega
          · intro h; omega
      · rename_i hpos
        have hpos2 : 0 < (sys_send s (data.drop offset)).1 := by omega
        obtain ⟨hr, hrecv⟩ := sys_send_accepted s _ hpos2
        simp only [List.length_drop] at hr
        have hrec2 : (sys_send s (data.drop offset)).2.received
            = pre ++ data.take (offset + (sys_send s (data.drop offset)).1.toNat) := by
          rw [hrecv, hrec, List.append_assoc, List.take_add]
        have hstep : 0 < (sys_send s (data.drop offset)).1.toNat := by omega
        obtain ⟨h1, h2, h3, h4, h5⟩ := ih (sys_send s (data.drop offset)).2
          (offset + (sys_send s (data.drop offset)).1.toNat) (by omega) (by omega) hrec2
        refine ⟨h1, ?_, h3, ?_, ?_⟩
        · rw [h2, sys_send_fd]
        · intro call hcall
          rcases List.mem_cons.1 hcall with e | e
          · rw [e]
          · rw [h4 call e, sys_send_fd]
        · rw [h5]
          constructor
          · intro h call hcall
            rcases List.mem_cons.1 hcall with e | e
            · rw [e]; exact hpos2
            · exact h call e
          · intro h call hcall
            exact h call (List.mem_cons_of_mem _ hcall)
    · rename_i hnlt
      refine ⟨hle, rfl, hrec, by simp, ?_⟩
      simp
      omega

theorem send_loop_failure_last (data : List Nat) :
    ∀ (fuel : Nat) (s : client_socket) (offset k : Nat) (call : send_call),
      (send_loop data fuel s offset).calls[k]? = some call → call.r ≤ 0 →
      k + 1 = (send_loop data fuel s offset).calls.length := by
  intro fuel
  induction fuel with
  | zero =>
    intro s offset k call hk _
    simp [send_loop] at hk
  | succ fuel ih =>
    intro s offset k call hk hr
    rw [send_loop] at hk ⊢
    split at hk
    · rename_i hlt
      rw [if_pos hlt]
      dsimp only at hk ⊢
      split at hk
      · rename_i hfail
        rw [if_pos hfail]
        cases k with
        | zero => rfl
        | succ j => simp at hk
      · rename_i hpos
        rw [if_neg hpos]
        cases k with
        | zero =>
          simp at hk
          rw [← hk] at hr
          exact absurd hr hpos
        | succ j =>
          simp only [List.getElem?_cons_succ] at hk
          have := ih _ _ j call hk hr
          simp only [List.length_cons]
          omega
    · simp at hk

theorem send_loop_head (data : List Nat) (fuel : Nat) (s : client_socket) (offset : Nat)
    (hlt : offset < data.length) :
    (send_loop data (fuel + 1) s offset).calls[0]?
      = some { fd := s.fd, offset := offset, len := data.length - offset,
               r := (sys_send s (data.drop offset)).1 } := by
  rw [send_loop, if_pos hlt]
  dsimp only
  split <;> simp

theorem send_loop_retry (data : List Nat) :
    ∀ (fuel : Nat) (s : client_socket) (offset k : Nat) (call : send_call),
      offset ≤ data.length → data.length - offset ≤ fuel →
      (send_loop data fuel s offset).calls[k]? = some call →
      0 < call.r → call.r < call.len →
      ∃ next, (send_loop data fuel s offset).calls[k + 1]? = some next ∧
        next.fd = call.fd ∧ next.offset = call.offset + call.r.toNat ∧
        next.len = call.len - call.r.toNat := by
  intro fuel
  induction fuel with
  | zero =>
    intro s offset k call _ _ hk
    simp [send_loop] at hk
  | succ fuel ih =>
    intro s offset k call hle hfuel hk hr hshort
    rw [send_loop] at hk ⊢
    split at hk
    · rename_i hlt
      rw [if_pos hlt]
      dsimp only at hk ⊢
      split at hk
      · rename_i hfail
        cases k with
        | zero =>
          simp at hk
          rw [← hk] at hr
          exact absurd hfail (by simpa using hr)
        | succ j => simp at hk
      · rename_i hpos
        rw [if_neg hpos]
        have hpos2 : 0 < (sys_send s (data.drop offset)).1 := by omega
        obtain ⟨hacc, _⟩ := sys_send_accepted s _ hpos2
        simp only [List.length_drop] at hacc
        cases k with
        | zero =>
          simp at hk
          subst hk
          simp only at hr hshort ⊢
          have hlt2 : offset + (sys_send s (data.drop offset)).1.toNat < data.length := by
            omega
          cases fuel with
          | zero => omega
          | succ f =>
            refine ⟨{ fd := (sys_send s (data.drop offset)).2.fd,
                      offset := offset + (sys_send s (data.drop offset)).1.toNat,
                      len := data.length - (offset + (sys_send s (data.drop offset)).1.toNat),
                      r := (sys_send (sys_send s (data.drop offset)).2
                        (data.drop (offset + (sys_send s (data.drop offset)).1.toNat))).1 },
                    ?_, ?_, ?_, ?_⟩
            · simp only [Nat.zero_add, List.getElem?_cons_succ]
              exact send_loop_head data f _ _ hlt2
            · simp [sys_send_fd]
            · rfl
            · simp only; omega
        | succ j =>
          simp only [List.getElem?_cons_succ] at hk ⊢
          exact ih _ _ j call (by omega) (by omega) hk hr hshort
    · simp at hk

theorem send_loop_exit (data : List Nat) (s : client_socket) :
    (send_to_client data s).offset = data.length ∨
    ((send_to_client data s).offset < data.length ∧
      ∃ call, (send_to_client data s).calls.getLast? = some call ∧ call.r ≤ 0) := by
  obtain ⟨h1, _, _, _, h5⟩ :=
    send_loop_spec data s.received data.length s 0 (by omega) (by omega) (by simp)
  by_cases hfull : (send_to_client data s).offset = data.length
  · exact Or.inl hfull
  · right
    refine ⟨lt_of_le_of_ne h1 hfull, ?_⟩
    have hne : ¬ ∀ call ∈ (send_to_client data s).calls, 0 < call.r :=
      fun h => hfull (h5.2 h)
    push_neg at hne
    obtain ⟨call, hmem, hr⟩ := hne
    obtain ⟨k, hk⟩ := List.getElem?_of_mem hmem
    have hlast := send_loop_failure_last data data.length s 0 k call hk hr
    refine ⟨call, ?_, hr⟩
    rw [List.getLast?_eq_getElem?]
    have : (send_to_client data s).calls.length - 1 = k := by
      unfold send_to_client; omega
    rw [this]
    exact hk

theorem send_clients_eq (data : List Nat) (rest : List client_socket) :
    ∀ done : List client_socket,
      send_clients data done rest =
        (done ++ (rest.filter
            (fun c => decide ((send_to_client data c).offset = data.length))).map
            (fun c => (send_to_client data c).socket),
         (rest.map (fun c => (send_to_client data c).calls)).flatten) := by
  induction rest with
  | nil => intro done; simp [send_clients]
  | cons c rest ih =>
    intro done
    have hle : (send_to_client data c).offset ≤ data.length :=
      (send_loop_spec data c.received data.length c 0 (by omega) (by omega) (by simp)).1
    rw [send_clients]
    split
    · rename_i hlt
      have hne : ¬ (send_to_client data c).offset = data.length := by omega
      rw [ih done]
      simp [hne]
    · rename_i hnlt
      have heq : (send_to_client data c).offset = data.length := by omega
      rw [ih]
      simp [heq]

theorem sys_send_respond (s : client_socket) (bytes : List Nat) :
    (sys_send s bytes).2.respond = s.respond := by
  unfold sys_send
  split <;> rfl

theorem sys_send_pos (s : client_socket) (bytes : List Nat) (hb : 0 < bytes.length)
    (h : 0 < s.respond s.calls) : 0 < (sys_send s bytes).1 := by
  unfold sys_send
  rw [if_neg (by omega)]
  have h1 : 0 < (s.respond s.calls).toNat := by omega
  have h2 : 0 < min (s.respond s.calls).toNat bytes.length := by
    rw [Nat.lt_min]; exact ⟨h1, hb⟩
  simp only
  omega

theorem send_loop_all_accepted (data : List Nat) :
    ∀ (fuel : Nat) (s : client_socket) (offset : Nat), (∀ k, 0 < s.respond k) →
      ∀ call ∈ (send_loop data fuel s offset).calls, 0 < call.r := by
  intro fuel
  induction fuel with
  | zero => intro s offset _ call hcall; simp [send_loop] at hcall
  | succ fuel ih =>
    intro s offset hs call hcall
    rw [send_loop] at hcall
    split at hcall
    · rename_i hlt
      have hb : 0 < (data.drop offset).length := by simp; omega
      have hpos := sys_send_pos s (data.drop offset) hb (hs s.calls)
      dsimp only at hcall
      rw [if_neg (by omega)] at hcall
      rcases List.mem_cons.1 hcall with e | e
      · rw [e]; exact hpos
      · exact ih _ _ (by rw [sys_send_respond]; exact hs) call e
    · simp at hcall

theorem send_to_client_served (data : List Nat) (s : client_socket)
    (hs : ∀ k, 0 < s.respond k) : (send_to_client data s).offset = data.length :=
  (send_loop_spec data s.received data.length s 0 (by omega) (by omega) (by simp)).2.2.2.2.2
    (send_loop_all_accepted data data.length s 0 hs)

theorem send_to_client_refused (data : List Nat) (s : client_socket) (hdata : data ≠ [])
    (hs : s.respond s.calls ≤ 0) : (send_to_client data s).offset = 0 := by
  unfold send_to_client
  cases data with
  | nil => exact absurd rfl hdata
  | cons x xs =>
    have hfail : (sys_send s (List.drop 0 (x :: xs))).1 ≤ 0 := by
      unfold sys_send
      rw [if_pos hs]
      exact hs
    rw [List.length_cons, send_loop, if_pos (by simp)]
    dsimp only
    rw [if_pos hfail]

/-- The broadcast in which every `::send` returns: one call `send(data, n)`
with a non-empty payload leaves the client list equal to the original list
restricted, in its order, to the clients whose write loop reached offset `n`;
each of these has accepted every byte of `data` in order after what it had
received before; a client is dropped exactly when one of its `::send` calls
returned a value `≤ 0`. With three clients of which the second refuses its
first write by a return value and the other two accept what they are offered,
exactly the second is removed and the first and third receive all of `data`. -/
theorem send_keeps_served_clients (clients : List client_socket) (data : List Nat)
    (hdata : data ≠ []) :
    (stream_server.send clients data).1
      = (clients.filter
          (fun c => decide ((send_to_client data c).offset = data.length))).map
          (fun c => (send_to_client data c).socket) ∧
    (∀ c ∈ clients, (send_to_client data c).offset = data.length →
      (send_to_client data c).socket.fd = c.fd ∧
      (send_to_client data c).socket.received = c.received ++ data) ∧
    (∀ c ∈ clients, ((send_to_client data c).offset ≠ data.length ↔
      ∃ call ∈ (send_to_client data c).calls, call.r ≤ 0)) ∧
    (∀ a b c : client_socket, (∀ k, 0 < a.respond k) → b.respond b.calls ≤ 0 →
      (∀ k, 0 < c.respond k) →
      (stream_server.send [a, b, c] data).1.map (fun s => (s.fd, s.received))
        = [(a.fd, a.received ++ data), (c.fd, c.received ++ data)]) := by
  have hspec : ∀ c : client_socket,
      (send_to_client data c).socket.fd = c.fd ∧
      ((send_to_client data c).offset = data.length →
        (send_to_client data c).socket.received = c.received ++ data) ∧
      ((send_to_client data c).offset ≠ data.length ↔
        ∃ call ∈ (send_to_client data c).calls, call.r ≤ 0) := by
    intro c
    obtain ⟨_, h2, h3, _, h5⟩ :=
      send_loop_spec data c.received data.length c 0 (by omega) (by omega) (by simp)
    refine ⟨h2, ?_, ?_⟩
    · intro hfull
      unfold send_to_client at hfull ⊢
      rw [h3, hfull, List.take_length]
    · unfold send_to_client
      rw [Ne, h5]
      push_neg
      rfl
  refine ⟨?_, ?_, ?_, ?_⟩
  · simp [stream_server.send, send_clients_eq]
  · intro c _ hfull
    exact ⟨(hspec c).1, (hspec c).2.1 hfull⟩
  · intro c _
    exact (hspec c).2.2
  · intro a b c ha hb hc
    have hoa := send_to_client_served data a ha
    have hoc := send_to_client_served data c hc
    have hob := send_to_client_refused data b hdata hb
    have hlen : 0 < data.length := List.length_pos.2 hdata
    have hnb : ¬ (send_to_client data b).offset = data.length := by omega
    simp [stream_server.send, send_clients_eq, hoa, hoc, hnb, (hspec a).1, (hspec c).1,
      (hspec a).2.1 hoa, (hspec c).2.1 hoc]

/-- The broadcast of `[1, 2, 3]` to three clients with descriptors 4, 5, 6 of
which the second is a descriptor that is not open any more. -/
theorem send_keeps_served_clients_witness :
    ([1, 2, 3] : List Nat) ≠ [] ∧
    (stream_server.send [open_client 4, closed_client 5, open_client 6] [1, 2, 3]).1.map
      (fun s => (s.fd, s.received)) = [(4, [1, 2, 3]), (6, [1, 2, 3])] :=
  ⟨by decide,
   (send_keeps_served_clients [open_client 4, closed_client 5, open_client 6] [1, 2, 3]
      (by decide)).2.2.2 (open_client 4) (closed_client 5) (open_client 6)
      (fun _ => by simp [open_client]) (by decide) (fun _ => by simp [open_client])⟩

theorem send_loop_sigpipe_returned (sigpipe : Int → Nat → Bool) (data : List Nat) :
    ∀ (fuel : Nat) (s : client_socket) (offset : Nat),
      (send_loop_sigpipe sigpipe data fuel s offset).2 = false →
      (send_loop_sigpipe sigpipe data fuel s offset).1 = send_loop data fuel s offset := by
  intro fuel
  induction fuel with
  | zero => intro s offset _; rfl
  | succ fuel ih =>
    intro s offset h
    rw [send_loop_sigpipe] at h ⊢
    rw [send_loop]
    by_cases hlt : offset < data.length
    · rw [if_pos hlt] at h ⊢
      rw [if_pos hlt]
      by_cases hsig : sigpipe s.fd s.calls = true
      · rw [if_pos hsig] at h
        simp at h
      · rw [if_neg hsig] at h ⊢
        dsimp only at h ⊢
        by_cases hfail : (sys_send s (List.drop offset data)).1 ≤ 0
        · rw [if_pos hfail, if_pos hfail]
        · rw [if_neg hfail] at h ⊢
          rw [if_neg hfail]
          dsimp only at h
          rw [ih _ _ h]
    · rw [if_neg hlt, if_neg hlt]

theorem send_clients_sigpipe_returned (sigpipe : Int → Nat → Bool) (data : List Nat)
    (rest : List client_socket) :
    ∀ done : List client_socket,
      (send_clients_sigpipe sigpipe data done rest).killed = false →
      (send_clients_sigpipe sigpipe data done rest).m_client_sockets
        = (send_clients data done rest).1 ∧
      (send_clients_sigpipe sigpipe data done rest).calls
        = (send_clients data done rest).2 := by
  induction rest with
  | nil => intro done _; exact ⟨rfl, rfl⟩
  | cons c rest ih =>
    intro done h
    rw [send_clients_sigpipe] at h ⊢
    rw [send_clients]
    split at h
    · simp at h
    · rename_i hk
      rw [if_neg hk]
      have hc : (send_to_client_sigpipe sigpipe data c).1 = send_to_client data c :=
        send_loop_sigpipe_returned sigpipe data data.length c 0 (by simpa using hk)
      rw [hc] at h ⊢
      split
      · rename_i hlt
        rw [if_pos hlt] at h
        obtain ⟨h1, h2⟩ := ih done h
        exact ⟨h1, by dsimp only; rw [h2]⟩
      · rename_i hnlt
        rw [if_neg hnlt] at h
        obtain ⟨h1, h2⟩ := ih _ h
        exact ⟨h1, by dsimp only; rw [h2]⟩

theorem send_clients_sigpipe_first (sigpipe : Int → Nat → Bool) (data : List Nat)
    (hdata : data ≠ []) (done rest : List client_socket) (c : client_socket)
    (hsig : sigpipe c.fd c.calls = true) :
    (send_clients_sigpipe sigpipe data done (c :: rest)).killed = true ∧
    (send_clients_sigpipe sigpipe data done (c :: rest)).calls = [] ∧
    (send_clients_sigpipe sigpipe data done (c :: rest)).m_client_sockets
      = done ++ c :: rest := by
  have hc : send_to_client_sigpipe sigpipe data c
      = ({ offset := 0, socket := c, calls := [] }, true) := by
    unfold send_to_client_sigpipe
    cases data with
    | nil => exact absurd rfl hdata
    | cons x xs =>
      rw [List.length_cons, send_loop_sigpipe, if_pos (by simp), if_pos hsig]
  rw [send_clients_sigpipe, hc]
  simp
theorem send_loop_sigpipe_quiet (sigpipe : Int → Nat → Bool) (data : List Nat) :
    ∀ (fuel : Nat) (s : client_socket) (offset : Nat),
      (∀ k, sigpipe s.fd k = false) →
      (send_loop_sigpipe sigpipe data fuel s offset).2 = false := by
  intro fuel
  induction fuel with
  | zero => intro s offset _; rfl
  | succ fuel ih =>
    intro s offset hq
    rw [send_loop_sigpipe]
    by_cases hlt : offset < data.length
    · rw [if_pos hlt, if_neg (by rw [hq]; simp)]
      dsimp only
      by_cases hfail : (sys_send s (List.drop offset data)).1 ≤ 0
      · rw [if_pos hfail]
      · rw [if_neg hfail]
        exact ih _ _ (by rw [sys_send_fd]; exact hq)
    · rw [if_neg hlt]

theorem send_clients_sigpipe_quiet (sigpipe : Int → Nat → Bool) (data : List Nat)
    (hq : ∀ fd k, sigpipe fd k = false) (rest : List client_socket) :
    ∀ done : List client_socket,
      (send_clients_sigpipe sigpipe data done rest).killed = false := by
  induction rest with
  | nil => intro done; rfl
  | cons c rest ih =>
    intro done
    have hc : (send_to_client_sigpipe sigpipe data c).2 = false :=
      send_loop_sigpipe_quiet sigpipe data data.length c 0 (fun k => hq c.fd k)
    rw [send_clients_sigpipe, if_neg (by rw [hc]; simp)]
    split
    · exact ih done
    · exact ih _

/-- C5 at the failing input: three connected clients on descriptors 4, 5, 6
that accept what they are offered, the peer of the second having closed its
connection, and the payload `[1, 2, 3]`. The write to the second client raises
SIGPIPE and the process ends inside `send`: the only `::send` that returned is
the one to descriptor 4, no client has been removed, and the third client has
received nothing. The same holds for all clients and payloads: when the first
client is served and the first write to the second raises SIGPIPE, the process
ends with all three clients in the vector and the third untouched; a
`::send` that raises SIGPIPE on the client at the iterator ends the process
with that client and all later ones in the vector. When the process is not
ended, in particular when no `::send` raises SIGPIPE, the vector and the log
are those of the broadcast in which every `::send` returns. -/
theorem send_killed_by_sigpipe :
    (stream_server.send_sigpipe (peer_closed 5)
        [open_client 4, open_client 5, open_client 6] [1, 2, 3]).killed = true ∧
    (stream_server.send_sigpipe (peer_closed 5)
        [open_client 4, open_client 5, open_client 6] [1, 2, 3]).calls
      = [{ fd := 4, offset := 0, len := 3, r := 3 }] ∧
    (stream_server.send_sigpipe (peer_closed 5)
        [open_client 4, open_client 5, open_client 6] [1, 2, 3]).m_client_sockets.map
        (fun s => (s.fd, s.received))
      = [(4, [1, 2, 3]), (5, []), (6, [])] ∧
    (∀ (sigpipe : Int → Nat → Bool) (data : List Nat) (a b c : client_socket),
      data ≠ [] → (∀ k, 0 < a.respond k) → (∀ k, sigpipe a.fd k = false) →
      sigpipe b.fd b.calls = true →
      (stream_server.send_sigpipe sigpipe [a, b, c] data).killed = true ∧
      (stream_server.send_sigpipe sigpipe [a, b, c] data).m_client_sockets
        = [(send_to_client data a).socket, b, c] ∧
      (stream_server.send_sigpipe sigpipe [a, b, c] data).calls
        = (send_to_client data a).calls) ∧
    (∀ (sigpipe : Int → Nat → Bool) (data : List Nat) (done rest : List client_socket)
        (c : client_socket), data ≠ [] → sigpipe c.fd c.calls = true →
      (send_clients_sigpipe sigpipe data done (c :: rest)).killed = true ∧
      (send_clients_sigpipe sigpipe data done (c :: rest)).calls = [] ∧
      (send_clients_sigpipe sigpipe data done (c :: rest)).m_client_sockets
        = done ++ c :: rest) ∧
    (∀ (sigpipe : Int → Nat → Bool) (clients : List client_socket) (data : List Nat),
      (stream_server.send_sigpipe sigpipe clients data).killed = false →
      (stream_server.send_sigpipe sigpipe clients data).m_client_sockets
        = (stream_server.send clients data).1 ∧
      (stream_server.send_sigpipe sigpipe clients data).calls
        = (stream_server.send clients data).2) ∧
    (∀ (sigpipe : Int → Nat → Bool) (clients : List client_socket) (data : List Nat),
      (∀ fd k, sigpipe fd k = false) →
      (stream_server.send_sigpipe sigpipe clients data).killed = false) := by
  refine ⟨by decide, by decide, by decide, ?_, ?_, ?_, ?_⟩
  · intro sigpipe data a b c hdata ha hqa hsig
    have hk : (send_to_client_sigpipe sigpipe data a).2 = false :=
      send_loop_sigpipe_quiet sigpipe data data.length a 0 hqa
    have h1 : (send_to_client_sigpipe sigpipe data a).1 = send_to_client data a :=
      send_loop_sigpipe_returned sigpipe data data.length a 0 hk
    have hfull := send_to_client_served data a ha
    obtain ⟨k1, k2, k3⟩ := send_clients_sigpipe_first sigpipe data hdata
      [(send_to_client data a).socket] [c] b hsig
    unfold stream_server.send_sigpipe
    rw [send_clients_sigpipe, if_neg (by rw [hk]; simp), h1,
      if_neg (by rw [hfull]; omega)]
    dsimp only
    rw [List.nil_append, k1, k2, k3]
    exact ⟨rfl, rfl, by simp⟩
  · intro sigpipe data done rest c hdata hsig
    exact send_clients_sigpipe_first sigpipe data hdata done rest c hsig
  · intro sigpipe clients data h
    exact send_clients_sigpipe_returned sigpipe data clients [] h
  · intro sigpipe clients data hq
    exact send_clients_sigpipe_quiet sigpipe data hq clients []

theorem send_to_client_calls_fd (data : List Nat) (c : client_socket) :
    ∀ call ∈ (send_to_client data c).calls, call.fd = c.fd :=
  (send_loop_spec data c.received data.length c 0 (by omega) (by omega) (by simp)).2.2.2.1

theorem calls_on_descriptor (data : List Nat) (clients : List client_socket) :
    (clients.map (fun c => c.fd)).Nodup → ∀ c ∈ clients,
      ((clients.map (fun c => (send_to_client data c).calls)).flatten).filter
        (fun x => decide (x.fd = c.fd)) = (send_to_client data c).calls := by
  induction clients with
  | nil => intro _ c hc; cases hc
  | cons x xs ih =>
    intro hnodup c hc
    rw [List.map_cons, List.nodup_cons] at hnodup
    obtain ⟨hx, hxs⟩ := hnodup
    have hself : ∀ e : client_socket,
        ((send_to_client data e).calls).filter (fun y => decide (y.fd = e.fd))
          = (send_to_client data e).calls := by
      intro e
      rw [List.filter_eq_self]
      intro call hcall
      simpa using send_to_client_calls_fd data e call hcall
    simp only [List.map_cons, List.flatten_cons, List.filter_append]
    by_cases hcx : c = x
    · subst hcx
      rw [hself]
      have : ((xs.map (fun c => (send_to_client data c).calls)).flatten).filter
          (fun y => decide (y.fd = c.fd)) = [] := by
        rw [List.filter_eq_nil_iff]
        intro call hcall
        obtain ⟨l, hl, hcl⟩ := List.mem_flatten.1 hcall
        obtain ⟨d, hd, rfl⟩ := List.mem_map.1 hl
        have hfd := send_to_client_calls_fd data d call hcl
        simp only [decide_eq_true_eq]
        intro h
        exact hx (List.mem_map.2 ⟨d, hd, hfd.symm.trans h⟩)
      rw [this, List.append_nil]
    · have hcxs : c ∈ xs := by
        rcases List.mem_cons.1 hc with e | e
        · exact absurd e hcx
        · exact e
      have hne : x.fd ≠ c.fd := by
        intro h
        exact hx (List.mem_map.2 ⟨c, hcxs, h.symm⟩)
      have hnil : ((send_to_client data x).calls).filter (fun y => decide (y.fd = c.fd))
          = [] := by
        rw [List.filter_eq_nil_iff]
        intro call hcall
        have := send_to_client_calls_fd data x call hcall
        simp only [decide_eq_true_eq]
        intro h
        exact hne (this.symm.trans h)
      rw [hnil, List.nil_append]
      exact ih hxs c hcxs

/-- C6, the claim as stated fails: the first `::send` to the client accepts 3
of the 5 bytes requested, a positive short count; the client stays in the
client set and a second `::send` offers it the remaining 2 bytes. -/
theorem send_retries_after_short_write :
    (stream_server.send [slow_client 4] [1, 2, 3, 4, 5]).2
      = [{ fd := 4, offset := 0, len := 5, r := 3 }, { fd := 4, offset := 3, len := 2, r := 2 }] ∧
    (stream_server.send [slow_client 4] [1, 2, 3, 4, 5]).1.map (fun s => (s.fd, s.received))
      = [(4, [1, 2, 3, 4, 5])] := by
  decide

/-- C6, amended: in one call of `send` on clients with distinct descriptors,
the `::send` calls made on a client's descriptor are those of its own write
loop. If one of them returns a value `≤ 0`, it is the last of them (no further
write is attempted) and the client is not in the client set afterwards. If
one returns a positive count smaller than the length requested, the next call
on that client offers the remaining bytes from the advanced offset. -/
theorem send_drops_client_on_failed_write (clients : List client_socket) (data : List Nat)
    (hfd : (clients.map (fun c => c.fd)).Nodup) (c : client_socket) (hc : c ∈ clients)
    (k : Nat) (call : send_call) (hk : (send_to_client data c).calls[k]? = some call) :
    (stream_server.send clients data).2.filter (fun x => decide (x.fd = c.fd))
      = (send_to_client data c).calls ∧
    (call.r ≤ 0 →
      k + 1 = (send_to_client data c).calls.length ∧
      c.fd ∉ (stream_server.send clients data).1.map (fun s => s.fd)) ∧
    (0 < call.r → call.r < call.len →
      ∃ next, (send_to_client data c).calls[k + 1]? = some next ∧ next.fd = call.fd ∧
        next.offset = call.offset + call.r.toNat ∧ next.len = call.len - call.r.toNat) := by
  refine ⟨?_, ?_, ?_⟩
  · simp only [stream_server.send, send_clients_eq]
    exact calls_on_descriptor data clients hfd c hc
  · intro hr
    refine ⟨send_loop_failure_last data data.length c 0 k call hk hr, ?_⟩
    intro hmem
    simp only [stream_server.send, send_clients_eq, List.nil_append, List.map_map] at hmem
    obtain ⟨d, hd, hdfd⟩ := List.mem_map.1 hmem
    obtain ⟨hdmem, hdok⟩ := List.mem_filter.1 hd
    have hfdeq : d.fd = c.fd := by
      have := (send_loop_spec data d.received data.length d 0 (by omega) (by omega)
        (by simp)).2.1
      simp only [Function.comp] at hdfd
      unfold send_to_client at hdfd
      rw [this] at hdfd
      exact hdfd
    have hdc : d = c := List.inj_on_of_nodup_map hfd hdmem hc hfdeq
    subst hdc
    have hok : (send_to_client data d).offset = data.length := by simpa using hdok
    have hall := (send_loop_spec data d.received data.length d 0 (by omega) (by omega)
        (by simp)).2.2.2.2.1 hok
    have := hall call (List.getElem?_mem hk)
    omega
  · intro hpos hshort
    exact send_loop_retry data data.length c 0 k call (by omega) (by omega) hk hpos hshort

/-- C6, amended, at a closed client between two open ones and the payload
`[1, 2, 3]`: the one `::send` on descriptor 5 returns -1. -/
theorem send_drops_client_on_failed_write_witness :
    ([open_client 4, closed_client 5, open_client 6].map (fun c => c.fd)).Nodup ∧
    (send_to_client [1, 2, 3] (closed_client 5)).calls[0]?
      = some { fd := 5, offset := 0, len := 3, r := -1 } ∧
    (stream_server.send [open_client 4, closed_client 5, open_client 6] [1, 2, 3]).2.filter
      (fun x => decide (x.fd = (closed_client 5).fd))
      = (send_to_client [1, 2, 3] (closed_client 5)).calls :=
  ⟨by decide, by decide,
   (send_drops_client_on_failed_write [open_client 4, closed_client 5, open_client 6]
      [1, 2, 3] (by decide) (closed_client 5) (by simp) 0
      { fd := 5, offset := 0, len := 3, r := -1 } (by decide)).1⟩

example : ((stream_server.send [open_client 4, closed_client 5, open_client 6] [1, 2, 3]).1.map
    (fun c => (c.fd, c.received))) = [(4, [1, 2, 3]), (6, [1, 2, 3])] := by decide
example : (stream_server.send [slow_client 4] [1, 2, 3, 4, 5]).2
    = [⟨4, 0, 5, 3⟩, ⟨4, 3, 2, 2⟩] := by decide

/-! ## `libjpeg_instance`: the pool of codec contexts -/

example :
    pool_run pool_empty [.create, .get 0, .create, .get 1, .destroy 0, .create, .get 2]
      = { impl_queue := [],
          handles := [handle_state.destroyed, handle_state.live (some 1),
                      handle_state.live (some 0)],
          constructed := 2 } := by
  decide

theorem outstanding_split (l : List handle_state) (h : Nat) (x : handle_state)
    (hx : l[h]? = some x) :
    outstanding l
      = outstanding (l.take h) ++ x.context.toList ++ outstanding (l.drop (h + 1)) := by
  have hlt : h < l.length := by
    by_contra hcon
    rw [List.getElem?_eq_none (by omega)] at hx
    cases hx
  have hget : l[h] = x := by
    rw [List.getElem?_eq_getElem hlt] at hx
    injection hx
  conv_lhs => rw [← List.take_append_drop h l, List.drop_eq_getElem_cons hlt, hget]
  simp only [outstanding, List.filterMap_append, List.filterMap_cons]
  cases hc : x.context <;> simp

theorem outstanding_set (l : List handle_state) (h : Nat) (x y : handle_state)
    (hx : l[h]? = some x) :
    outstanding (l.set h y)
      = outstanding (l.take h) ++ y.context.toList ++ outstanding (l.drop (h + 1)) := by
  have hlt : h < l.length := by
    by_contra hcon
    rw [List.getElem?_eq_none (by omega)] at hx
    cases hx
  rw [List.set_eq_take_append_cons_drop, if_pos hlt]
  simp only [outstanding, List.filterMap_append, List.filterMap_cons]
  cases hc : y.context <;> simp

theorem pool_accounted_step (s : pool_state) (op : pool_op) (hs : pool_accounted s) :
    pool_accounted (pool_step s op) := by
  unfold pool_accounted at hs ⊢
  rw [List.perm_iff_count] at hs ⊢
  intro a
  have ha := hs a
  cases op with
  | create =>
    simp only [pool_step, outstanding, List.filterMap_append] at ha ⊢
    simpa [handle_state.context] using ha
  | move_construct h =>
    simp only [pool_step]
    split
    · rename_i m_impl hget
      rw [outstanding_split s.handles h _ hget] at ha
      simp only [outstanding, List.filterMap_append] at ha ⊢
      have hset := outstanding_set s.handles h _ (handle_state.live none) hget
      simp only [outstanding] at hset
      rw [hset]
      cases m_impl with
      | none => simpa [handle_state.context, List.count_append] using ha
      | some c =>
        by_cases hca : c = a <;>
          simp [handle_state.context, List.count_append, List.count_cons, hca] at ha ⊢ <;>
          omega
    · exact ha
  | get h =>
    simp only [pool_step]
    split
    · rename_i hget
      rw [outstanding_split s.handles h _ hget] at ha
      split
      · rename_i hempty
        rw [List.getLast?_eq_none_iff] at hempty
        rw [outstanding_set s.handles h _ _ hget]
        simp only [List.range_succ]
        by_cases hca : s.constructed = a <;>
          simp [handle_state.context, List.count_append, List.count_cons, hempty, hca]
            at ha ⊢ <;>
          omega
      · rename_i back hback
        have hq := List.dropLast_append_getLast? back (Option.mem_def.2 hback)
        rw [← hq] at ha
        rw [outstanding_set s.handles h _ _ hget]
        by_cases hca : back = a <;>
          simp [handle_state.context, List.count_append, List.count_cons, hca] at ha ⊢ <;>
          omega
    · exact ha
  | destroy h =>
    simp only [pool_step]
    split
    · rename_i m_impl hget
      rw [outstanding_split s.handles h _ hget] at ha
      rw [outstanding_set s.handles h _ _ hget]
      by_cases hca : m_impl = a <;>
        simp [handle_state.context, List.count_append, List.count_cons, hca] at ha ⊢ <;>
        omega
    · rename_i hget
      rw [outstanding_split s.handles h _ hget] at ha
      rw [outstanding_set s.handles h _ _ hget]
      simpa [handle_state.context, List.count_append] using ha
    · exact ha

theorem pool_accounted_run (ops : List pool_op) :
    ∀ s : pool_state, pool_accounted s → pool_accounted (pool_run s ops) := by
  induction ops with
  | nil => intro s hs; exact hs
  | cons op ops ih => intro s hs; exact ih _ (pool_accounted_step s op hs)

theorem pool_accounted_empty : pool_accounted pool_empty := by
  simp [pool_accounted, pool_empty, outstanding]

theorem mem_outstanding (l : List handle_state) (i c : Nat)
    (hi : l[i]? = some (handle_state.live (some c))) : c ∈ outstanding l := by
  unfold outstanding
  rw [List.mem_filterMap]
  exact ⟨_, List.getElem?_mem hi, rfl⟩

theorem outstanding_nodup_lt (l : List handle_state) (i j c : Nat) (hij : i < j)
    (hnodup : (outstanding l).Nodup)
    (hi : l[i]? = some (handle_state.live (some c)))
    (hj : l[j]? = some (handle_state.live (some c))) : False := by
  rw [outstanding_split l j _ hj] at hnodup
  have hmem : c ∈ outstanding (l.take j) := by
    apply mem_outstanding (l.take j) i c
    rw [List.getElem?_take_of_lt hij]
    exact hi
  simp only [handle_state.context, Option.toList_some, List.append_assoc] at hnodup
  have hdisj := (List.nodup_append.1 hnodup).2.2
  exact hdisj hmem (by simp)

/-- C7: in every state reachable from the empty pool by steps of handle
construction, move, `get` and destruction, no context is held by two live
handles, no context held by a handle is in the idle vector `impl_queue`, and
`impl_queue` has no duplicate. -/
theorem pool_contexts_unique (ops : List pool_op) :
    (∀ (i j c : Nat), i ≠ j →
      (pool_run pool_empty ops).handles[i]? = some (handle_state.live (some c)) →
      (pool_run pool_empty ops).handles[j]? ≠ some (handle_state.live (some c))) ∧
    (∀ (i c : Nat),
      (pool_run pool_empty ops).handles[i]? = some (handle_state.live (some c)) →
      c ∉ (pool_run pool_empty ops).impl_queue) ∧
    (pool_run pool_empty ops).impl_queue.Nodup := by
  have hacc := pool_accounted_run ops pool_empty pool_accounted_empty
  have hnodup : ((pool_run pool_empty ops).impl_queue
      ++ outstanding (pool_run pool_empty ops).handles).Nodup :=
    (List.Perm.nodup_iff hacc).2 (List.nodup_range _)
  obtain ⟨hq, hout, hdisj⟩ := List.nodup_append.1 hnodup
  refine ⟨?_, ?_, hq⟩
  · intro i j c hij hi hj
    rcases Nat.lt_or_gt_of_ne hij with h | h
    · exact outstanding_nodup_lt _ i j c h hout hi hj
    · exact outstanding_nodup_lt _ j i c h hout hj hi
  · intro i c hi hmem
    exact hdisj hmem (mem_outstanding _ i c hi)

/-! ## `capture_device`: slot exclusivity in read strategy -/

namespace v4l2

theorem update_slot_length (l : List capture_buffer) (i : Nat)
    (f : capture_buffer → capture_buffer) : (update_slot l i f).length = l.length := by
  unfold update_slot
  split <;> simp

theorem update_slot_getElem? (l : List capture_buffer) (i j : Nat)
    (f : capture_buffer → capture_buffer) :
    (update_slot l i f)[j]? = if j = i then l[i]?.map f else l[j]? := by
  unfold update_slot
  split
  · rename_i b hb
    rw [List.getElem?_set]
    by_cases hji : j = i
    · subst hji
      have hlt : j < l.length := by
        by_contra hcon
        rw [List.getElem?_eq_none (by omega)] at hb
        cases hb
      simp [hb, hlt]
    · have : ¬ i = j := fun h => hji h.symm
      simp [hji, this]
  · rename_i hb
    by_cases hji : j = i
    · subst hji; simp [hb]
    · simp [hji]

theorem slots_inv_init_read (dev : capture_device) (hc : Nat) (env : read_env) :
    slots_inv (dev.init_read hc env) [] := by
  refine ⟨by simp [capture_device.init_read], List.nodup_nil, by simp, ?_⟩
  intro slot b hb
  simp only [capture_device.init_read, List.getElem?_map] at hb
  cases hr : (List.range (compute_buffer_count hc))[slot]? with
  | none => simp [hr] at hb
  | some i =>
    simp [hr] at hb
    subst hb
    simp

theorem slots_empty_of_count_zero (dev : capture_device)
    (slots : List (Option releaser_ref)) (h : slots_inv dev slots)
    (h0 : dev.m_buffer_count = 0) : slots = [] := by
  cases slots with
  | nil => rfl
  | cons r rest =>
    obtain ⟨slot, hlt, _⟩ := h.2.2.1 r (by simp)
    omega

theorem slots_inv_lock (dev : capture_device) (slots : List (Option releaser_ref))
    (slot : Nat) (b : capture_buffer) (h : slots_inv dev slots)
    (hb : dev.m_buffers[slot]? = some b) (hfree : b.mutex = false) :
    slots_inv
      { dev with m_buffers := update_slot dev.m_buffers slot (fun b => { b with mutex := true }) }
      (slots ++ [some (releaser_ref.capture_buffer slot)]) := by
  obtain ⟨hlen, hnodup, hrange, hmutex⟩ := h
  have hslot : slot < dev.m_buffer_count := by
    rw [← hlen]
    by_contra hcon
    rw [List.getElem?_eq_none (by omega)] at hb
    cases hb
  have hnot : some (releaser_ref.capture_buffer slot) ∉ slots := by
    intro hmem
    have := (hmutex slot b hb).2 hmem
    rw [hfree] at this
    cases this
  refine ⟨by simpa [update_slot_length] using hlen, ?_, ?_, ?_⟩
  · rw [List.nodup_append]
    refine ⟨hnodup, by simp, ?_⟩
    intro r hr hr2
    simp only [List.mem_singleton] at hr2
    subst hr2
    exact hnot hr
  · intro r hr
    rcases List.mem_append.1 hr with h1 | h1
    · exact hrange r h1
    · simp only [List.mem_singleton] at h1
      exact ⟨slot, hslot, h1⟩
  · intro j c hc
    simp only [update_slot_getElem?] at hc
    by_cases hj : j = slot
    · subst hj
      simp [hb] at hc
      subst hc
      simp
    · simp only [hj, if_false] at hc
      rw [hmutex j c hc]
      simp [hj]

theorem slots_inv_unlock (dev : capture_device) (slots : List (Option releaser_ref))
    (slot k : Nat) (h : slots_inv dev slots)
    (hk : slots[k]? = some (some (releaser_ref.capture_buffer slot))) :
    slots_inv
      { dev with m_buffers := update_slot dev.m_buffers slot (fun b => { b with mutex := false }) }
      (slots.eraseIdx k) := by
  obtain ⟨hlen, hnodup, hrange, hmutex⟩ := h
  have hklt : k < slots.length := by
    by_contra hcon
    rw [List.getElem?_eq_none (by omega)] at hk
    cases hk
  have hkget : slots[k] = some (releaser_ref.capture_buffer slot) := by
    rw [List.getElem?_eq_getElem hklt] at hk
    injection hk
  have hmem_iff : ∀ r, r ∈ slots.eraseIdx k ↔
      r ≠ some (releaser_ref.capture_buffer slot) ∧ r ∈ slots := by
    intro r
    rw [List.mem_eraseIdx_iff_getElem?]
    constructor
    · rintro ⟨i, hik, hi⟩
      refine ⟨?_, List.getElem?_mem hi⟩
      intro hr
      subst hr
      have hilt : i < slots.length := by
        by_contra hcon
        rw [List.getElem?_eq_none (by omega)] at hi
        cases hi
      have higet : slots[i] = some (releaser_ref.capture_buffer slot) := by
        rw [List.getElem?_eq_getElem hilt] at hi
        injection hi
      exact hik ((hnodup.getElem_inj_iff).1 (higet.trans hkget.symm))
    · rintro ⟨hne, hr⟩
      obtain ⟨i, hi⟩ := List.getElem?_of_mem hr
      refine ⟨i, ?_, hi⟩
      intro hik
      subst hik
      rw [hk] at hi
      injection hi with hi
      exact hne hi.symm
  refine ⟨by simpa [update_slot_length] using hlen, hnodup.eraseIdx k, ?_, ?_⟩
  · intro r hr
    exact hrange r ((hmem_iff r).1 hr).2
  · intro j c hc
    simp only [update_slot_getElem?] at hc
    rw [hmem_iff]
    by_cases hj : j = slot
    · subst hj
      cases hb : dev.m_buffers[j]? with
      | none => simp [hb] at hc
      | some b =>
        simp [hb] at hc
        subst hc
        simp
    · simp only [hj, if_false] at hc
      rw [hmutex j c hc]
      simp [hj]

theorem slots_inv_congr (dev dev1 : capture_device) (slots : List (Option releaser_ref))
    (h : slots_inv dev slots) (hb : dev1.m_buffers = dev.m_buffers)
    (hc : dev1.m_buffer_count = dev.m_buffer_count) : slots_inv dev1 slots := by
  unfold slots_inv at h ⊢
  rw [hb, hc]
  exact h

theorem read_read_locked_inv (dev : capture_device) (slots : List (Option releaser_ref))
    (env : read_env) (b : capture_buffer) (h : slots_inv dev slots)
    (hb : dev.m_buffers[dev.m_last_used_buffer]? = some b) (hfree : b.mutex = false) :
    (dev.read_read_locked env).1.m_method = dev.m_method ∧
    (dev.read_read_locked env).1.m_buffer_count = dev.m_buffer_count ∧
    read_result_inv slots (dev.read_read_locked env) := by
  unfold capture_device.read_read_locked
  rw [hb]
  dsimp only
  split
  · exact ⟨rfl, rfl, h⟩
  · refine ⟨rfl, rfl, ?_⟩
    exact slots_inv_lock dev slots dev.m_last_used_buffer b h hb hfree

theorem read_read_inv (dev : capture_device) (slots : List (Option releaser_ref))
    (env : read_env) (h : slots_inv dev slots) :
    (dev.read_read env).1.m_method = dev.m_method ∧
    (dev.read_read env).1.m_buffer_count = dev.m_buffer_count ∧
    read_result_inv slots (dev.read_read env) := by
  have h1 : slots_inv
      { dev with m_last_used_buffer := (dev.m_last_used_buffer + 1) % dev.m_buffer_count }
      slots := slots_inv_congr dev _ slots h rfl rfl
  unfold capture_device.read_read
  dsimp only
  split
  · exact ⟨rfl, rfl, h1⟩
  · rename_i b hb
    split
    · exact ⟨rfl, rfl, h1⟩
    · rename_i hfree
      exact read_read_locked_inv _ slots env b h1 hb (by simpa using hfree)

theorem leave_read_buffer_inv (slots : List (Option releaser_ref))
    (r : capture_device × read_outcome) (h : read_result_inv slots r) :
    (leave_read_buffer r).1.m_method = r.1.m_method ∧
    (leave_read_buffer r).1.m_buffer_count = r.1.m_buffer_count ∧
    read_result_inv slots (leave_read_buffer r) := by
  obtain ⟨dev, outcome⟩ := r
  cases outcome with
  | returned buffer =>
    exact ⟨rfl, rfl, slots_inv_congr dev _ _ h rfl rfl⟩
  | threw message =>
    exact ⟨rfl, rfl, slots_inv_congr dev _ _ h rfl rfl⟩
  | blocked =>
    exact ⟨rfl, rfl, slots_inv_congr dev _ _ h rfl rfl⟩

theorem after_read_inv (w : capture_world) (r : capture_device × read_outcome)
    (hm : r.1.m_method = capture_method.READ)
    (hc : r.1.m_buffer_count = 0 ∨
      r.1.m_buffer_count = compute_buffer_count w.hardware_concurrency)
    (h : read_result_inv w.live_slots r) : read_world_inv (w.after_read r) := by
  obtain ⟨dev, outcome⟩ := r
  cases outcome with
  | returned buffer =>
    refine ⟨hm, ?_, hc⟩
    simpa [capture_world.after_read, capture_world.live_slots, read_result_inv] using h
  | threw message => exact ⟨hm, h, hc⟩
  | blocked => exact ⟨hm, h, hc⟩

theorem map_eraseIdx_eq {α β : Type} (f : α → β) (l : List α) :
    ∀ k : Nat, (l.eraseIdx k).map f = (l.map f).eraseIdx k := by
  induction l with
  | nil => intro k; rfl
  | cons a t ih =>
    intro k
    cases k with
    | zero => rfl
    | succ j => simp [List.eraseIdx, ih j]

theorem release_inv (dev : capture_device) (slots : List (Option releaser_ref))
    (slot k : Nat) (stray : stray_reads) (h : slots_inv dev slots)
    (hk : slots[k]? = some (some (releaser_ref.capture_buffer slot))) :
    (capture_buffer.release dev slot stray).1.m_method = dev.m_method ∧
    (capture_buffer.release dev slot stray).1.m_buffer_count = dev.m_buffer_count ∧
    slots_inv (capture_buffer.release dev slot stray).1 (slots.eraseIdx k) ∧
    capture_event.unlock slot ∈ (capture_buffer.release dev slot stray).2 ∧
    capture_event.unlock_not_held slot ∉ (capture_buffer.release dev slot stray).2 := by
  have hmem : some (releaser_ref.capture_buffer slot) ∈ slots := List.getElem?_mem hk
  obtain ⟨slot1, hlt, heq⟩ := h.2.2.1 _ hmem
  injection heq with heq
  injection heq with heq
  subst heq
  have hlt2 : slot < dev.m_buffers.length := by rw [h.1]; exact hlt
  have hb : dev.m_buffers[slot]? = some dev.m_buffers[slot] := List.getElem?_eq_getElem hlt2
  have hlocked : dev.m_buffers[slot].mutex = true := (h.2.2.2 slot _ hb).2 hmem
  unfold capture_buffer.release
  rw [hb]
  dsimp only
  rw [if_pos hlocked]
  refine ⟨rfl, rfl, slots_inv_unlock dev slots slot k h hk, by simp, ?_⟩
  simp only [List.mem_append, List.mem_singleton, not_or]
  refine ⟨⟨?_, ?_⟩, by simp⟩
  · split <;> simp
  · split
    · split <;> simp
    · simp

theorem read_world_inv_step (w : capture_world) (op : capture_op) (h : read_world_inv w) :
    read_world_inv (capture_step w op) := by
  obtain ⟨hm, hs, hc⟩ := h
  cases op with
  | read_buffer env =>
    simp only [capture_step]
    split
    · exact ⟨hm, hs, hc⟩
    · simp only [capture_device.read_buffer, hm]
      have hd : slots_inv
          (if w.dev.m_buffer_count = 0 then w.dev.init_read w.hardware_concurrency env
            else w.dev) w.live_slots ∧
          (if w.dev.m_buffer_count = 0 then w.dev.init_read w.hardware_concurrency env
            else w.dev).m_method = capture_method.READ ∧
          (if w.dev.m_buffer_count = 0 then w.dev.init_read w.hardware_concurrency env
            else w.dev).m_buffer_count = compute_buffer_count w.hardware_concurrency := by
        split
        · rename_i h0
          rw [slots_empty_of_count_zero w.dev w.live_slots hs h0]
          exact ⟨slots_inv_init_read _ _ _, hm, rfl⟩
        · rename_i h0
          rcases hc with hc | hc
          · exact absurd hc h0
          · exact ⟨hs, hm, hc⟩
      obtain ⟨hd1, hd2, hd3⟩ := hd
      obtain ⟨hr1, hr2, hr3⟩ := read_read_inv _ w.live_slots env hd1
      obtain ⟨hl1, hl2, hl3⟩ := leave_read_buffer_inv w.live_slots _ hr3
      exact after_read_inv w _ (by rw [hl1, hr1, hd2]) (Or.inr (by rw [hl2, hr2, hd3])) hl3
  | resume env =>
    simp only [capture_step]
    split
    · split
      · rename_i b hb
        split
        · exact ⟨hm, hs, hc⟩
        · rename_i hfree
          obtain ⟨hr1, hr2, hr3⟩ :=
            read_read_locked_inv w.dev w.live_slots env b hs hb (by simpa using hfree)
          obtain ⟨hl1, hl2, hl3⟩ := leave_read_buffer_inv w.live_slots _ hr3
          exact after_read_inv w _ (by rw [hl1, hr1, hm]) (by rw [hl2, hr2]; exact hc) hl3
      · exact ⟨hm, hs, hc⟩
    · exact ⟨hm, hs, hc⟩
  | release k stray =>
    simp only [capture_step]
    split
    · exact ⟨hm, hs, hc⟩
    · rename_i buffer hk
      have hk2 : w.live_slots[k]? = some buffer.m_releaser := by
        simp [capture_world.live_slots, hk]
      obtain ⟨slot, _, hrel⟩ := hs.2.2.1 _ (List.getElem?_mem hk2)
      have hdestroy : buffer.destroy
          = [{ releaser := releaser_ref.capture_buffer slot, data := buffer.m_data,
               size := buffer.m_size }] := by
        simp [image_buffer.destroy, hrel]
      rw [hdestroy]
      dsimp only
      rw [hrel] at hk2
      obtain ⟨h1, h2, h3, _, _⟩ := release_inv w.dev w.live_slots slot k stray hs hk2
      refine ⟨by rw [h1]; exact hm, ?_, by rw [h2]; exact hc⟩
      simpa [capture_world.live_slots, map_eraseIdx_eq] using h3

theorem read_world_inv_run (ops : List capture_op) :
    ∀ w : capture_world, read_world_inv w → read_world_inv (capture_run w ops) := by
  induction ops with
  | nil => intro w h; exact h
  | cons op ops ih => intro w h; exact ih _ (read_world_inv_step w op h)

theorem after_read_hardware_concurrency (w : capture_world)
    (r : capture_device × read_outcome) :
    (w.after_read r).hardware_concurrency = w.hardware_concurrency := by
  unfold capture_world.after_read
  split <;> rfl

theorem capture_step_hardware_concurrency (w : capture_world) (op : capture_op) :
    (capture_step w op).hardware_concurrency = w.hardware_concurrency := by
  cases op with
  | read_buffer env =>
    simp only [capture_step]
    split
    · rfl
    · exact after_read_hardware_concurrency _ _
  | resume env =>
    simp only [capture_step]
    split
    · split
      · split
        · rfl
        · exact after_read_hardware_concurrency _ _
      · rfl
    · rfl
  | release k stray =>
    simp only [capture_step]
    split
    · rfl
    · split <;> rfl

theorem capture_run_hardware_concurrency (ops : List capture_op) :
    ∀ w : capture_world, (capture_run w ops).hardware_concurrency = w.hardware_concurrency := by
  induction ops with
  | nil => intro w; rfl
  | cons op ops ih =>
    intro w
    simp only [capture_run]
    rw [ih, capture_step_hardware_concurrency]

theorem read_world_inv_opened (hc : Nat) (m_format : v4l2_pix_format) :
    read_world_inv (capture_world.opened hc capture_method.READ m_format) := by
  refine ⟨rfl, ⟨rfl, List.nodup_nil, ?_, ?_⟩, Or.inl rfl⟩
  · intro r hr
    simp [capture_world.opened, capture_world.live_slots] at hr
  · intro slot b hb
    simp [capture_world.opened] at hb

theorem read_world_live_locked (w : capture_world) (h : read_world_inv w)
    (b : image_buffer) (hb : b ∈ w.live) :
    ∃ slot cb, b.m_releaser = some (releaser_ref.capture_buffer slot) ∧
      w.dev.m_buffers[slot]? = some cb ∧ cb.mutex = true := by
  obtain ⟨_, hs, _⟩ := h
  have hmem : b.m_releaser ∈ w.live_slots := List.mem_map.2 ⟨b, hb, rfl⟩
  obtain ⟨slot, hlt, hrel⟩ := hs.2.2.1 _ hmem
  have hlt2 : slot < w.dev.m_buffers.length := by rw [hs.1]; exact hlt
  refine ⟨slot, w.dev.m_buffers[slot], hrel, List.getElem?_eq_getElem hlt2, ?_⟩
  rw [hrel] at hmem
  exact (hs.2.2.2 slot _ (List.getElem?_eq_getElem hlt2)).2 hmem

/-- C8: read strategy with `K = max(hardware_concurrency, 2)` slots, after any
sequence of `read_buffer` calls, resumptions of a waiting call and Buffer
releases. `K ≥ 2` and the device has no slots yet or `K` of them; no two live
Buffers wrap the same slot; every live Buffer wraps a slot whose mutex is
locked; a `read_buffer` call whose target slot `(m_last_used_buffer + 1) % K`
is wrapped by a live Buffer returns no Buffer and waits holding
`m_read_mutex`; and the waiting call cannot proceed while a live Buffer wraps
its slot. -/
theorem read_slots_exclusive (hc : Nat) (m_format : v4l2_pix_format)
    (ops : List capture_op) :
    2 ≤ compute_buffer_count hc ∧
    ((capture_run (capture_world.opened hc capture_method.READ m_format) ops).dev.m_buffer_count
        = 0 ∨
      (capture_run (capture_world.opened hc capture_method.READ m_format) ops).dev.m_buffer_count
        = compute_buffer_count hc) ∧
    (∀ (i j : Nat) (b1 b2 : image_buffer), i ≠ j →
      (capture_run (capture_world.opened hc capture_method.READ m_format) ops).live[i]?
        = some b1 →
      (capture_run (capture_world.opened hc capture_method.READ m_format) ops).live[j]?
        = some b2 →
      b1.m_releaser ≠ b2.m_releaser) ∧
    (∀ b ∈ (capture_run (capture_world.opened hc capture_method.READ m_format) ops).live,
      ∃ slot cb, b.m_releaser = some (releaser_ref.capture_buffer slot) ∧
        (capture_run (capture_world.opened hc capture_method.READ m_format) ops).dev.m_buffers[slot]?
          = some cb ∧ cb.mutex = true) ∧
    (∀ (env : read_env),
      ∀ b ∈ (capture_run (capture_world.opened hc capture_method.READ m_format) ops).live,
      (capture_run (capture_world.opened hc capture_method.READ m_format) ops).dev.m_read_mutex
        = false →
      b.m_releaser = some (releaser_ref.capture_buffer
        (((capture_run (capture_world.opened hc capture_method.READ m_format)
            ops).dev.m_last_used_buffer + 1) %
          (capture_run (capture_world.opened hc capture_method.READ m_format)
            ops).dev.m_buffer_count)) →
      (capture_step (capture_run (capture_world.opened hc capture_method.READ m_format) ops)
          (capture_op.read_buffer env)).live
        = (capture_run (capture_world.opened hc capture_method.READ m_format) ops).live ∧
      (capture_step (capture_run (capture_world.opened hc capture_method.READ m_format) ops)
          (capture_op.read_buffer env)).dev.m_read_mutex = true) ∧
    (∀ (env : read_env),
      ∀ b ∈ (capture_run (capture_world.opened hc capture_method.READ m_format) ops).live,
      b.m_releaser = some (releaser_ref.capture_buffer
        (capture_run (capture_world.opened hc capture_method.READ m_format)
          ops).dev.m_last_used_buffer) →
      capture_step (capture_run (capture_world.opened hc capture_method.READ m_format) ops)
          (capture_op.resume env)
        = capture_run (capture_world.opened hc capture_method.READ m_format) ops) := by
  have hinv := read_world_inv_run ops _ (read_world_inv_opened hc m_format)
  have hhc := capture_run_hardware_concurrency ops
    (capture_world.opened hc capture_method.READ m_format)
  generalize capture_run (capture_world.opened hc capture_method.READ m_format) ops = w
    at hinv hhc ⊢
  have hlocked := read_world_live_locked w hinv
  obtain ⟨hm, hs, hcount⟩ := hinv
  refine ⟨?_, ?_, ?_, hlocked, ?_, ?_⟩
  · unfold compute_buffer_count
    split <;> omega
  · rw [hhc] at hcount
    exact hcount
  · intro i j b1 b2 hij h1 h2 heq
    have hn := hs.2.1
    rw [List.nodup_iff_getElem?_ne_getElem?] at hn
    have hlt : ∀ (a c : Nat) (x y : image_buffer), a < c → w.live[a]? = some x →
        w.live[c]? = some y → x.m_releaser = y.m_releaser → False := by
      intro a c x y hac hx hy hxy
      have hclt : c < w.live_slots.length := by
        simp only [capture_world.live_slots, List.length_map]
        by_contra hcon
        rw [List.getElem?_eq_none (by omega)] at hy
        cases hy
      apply hn a c hac hclt
      simp [capture_world.live_slots, hx, hy, hxy]
    rcases Nat.lt_or_gt_of_ne hij with h | h
    · exact hlt i j b1 b2 h h1 h2 heq
    · exact hlt j i b2 b1 h h2 h1 heq.symm
  · intro env b hb hfree htarget
    obtain ⟨slot, cb, hrel, hcb, hmutex⟩ := hlocked b hb
    rw [htarget] at hrel
    injection hrel with hrel
    injection hrel with hrel
    subst hrel
    have hcount0 : w.dev.m_buffer_count ≠ 0 := by
      intro h0
      have := slots_empty_of_count_zero w.dev w.live_slots hs h0
      have hmem : b.m_releaser ∈ w.live_slots := List.mem_map.2 ⟨b, hb, rfl⟩
      rw [this] at hmem
      cases hmem
    simp [capture_step, hfree, capture_device.read_buffer, hm, hcount0,
      capture_device.read_read, hcb, hmutex, leave_read_buffer, capture_world.after_read]
  · intro env b hb htarget
    obtain ⟨slot, cb, hrel, hcb, hmutex⟩ := hlocked b hb
    rw [htarget] at hrel
    injection hrel with hrel
    injection hrel with hrel
    subst hrel
    simp only [capture_step]
    split
    · simp [hcb, hmutex]
    · rfl

/-! ## `capture_device`: the slot lock in memory-mapped strategy -/

example :
    (capture_run (capture_world.opened 2 capture_method.READ format_mjpeg_640x480)
      [.read_buffer env_mmap, .read_buffer env_mmap, .read_buffer env_mmap,
       .release 0 ⟨format.UNKNOWN, 0⟩, .resume env_mmap]).live.map (fun b => b.m_releaser)
      = [some (releaser_ref.capture_buffer 0), some (releaser_ref.capture_buffer 1)] := by
  decide

/-- C9 at the failing input: a device in memory-mapped strategy with MJPEG
negotiated, two slots granted, `VIDIOC_DQBUF` handing out slot 0. The call of
`read_buffer` returns a Buffer that wraps slot 0 while the mutex of slot 0 is
not locked, and the destruction of that Buffer calls `mutex.unlock()` on the
mutex that is not held. -/
theorem read_mmap_leaves_slot_unlocked :
    (capture_step (capture_world.opened 2 capture_method.MMAP format_mjpeg_640x480)
      (capture_op.read_buffer env_mmap)).live
      = [{ m_data := 4096, m_size := 4, m_releaser := some (releaser_ref.capture_buffer 0) }] ∧
    (capture_step (capture_world.opened 2 capture_method.MMAP format_mjpeg_640x480)
      (capture_op.read_buffer env_mmap)).dev.m_buffers.map (fun b => b.mutex)
      = [false, false] ∧
    (capture_run (capture_world.opened 2 capture_method.MMAP format_mjpeg_640x480)
      [capture_op.read_buffer env_mmap, capture_op.release 0 ⟨format.UNKNOWN, 0⟩]).events
      = [capture_event.ioctl_qbuf 0, capture_event.unlock_not_held 0] := by
  decide

/-! ## `capture_device::set_format` -/

theorem pixel_format_of_fourcc (dev : capture_device) (f : format) (fourcc : Nat)
    (hf : format_fourcc f = some fourcc) (h : dev.m_format.pixelformat = fourcc) :
    dev.pixel_format = f := by
  unfold capture_device.pixel_format
  rw [h]
  cases f <;> simp [format_fourcc] at hf <;> subst hf <;> decide

theorem u32_to_int_of_nonneg (v : Int) (h0 : 0 ≤ v) (h1 : v < 2 ^ 31) :
    u32_to_int (v.toNat % 2 ^ 32) = v := by
  unfold u32_to_int
  have h2 : v.toNat < 2 ^ 31 := by omega
  have h3 : v.toNat % 2 ^ 32 = v.toNat := Nat.mod_eq_of_lt (by omega)
  rw [h3, h3, if_pos h2]
  omega

/-- C10, the claim as stated fails: a driver that supports only 640 x 480
adjusts the requested 1920 x 1080; `set_format(1920, 1080, MJPEG)` returns
without raising, the negotiated pixel format is MJPEG, and the negotiated
frame size is 640 x 480. -/
theorem set_format_accepts_other_size :
    (device_yuyv.set_format driver_640x480 1920 1080 format.MJPEG).2 = none ∧
    (device_yuyv.set_format driver_640x480 1920 1080 format.MJPEG).1.pixel_format
      = format.MJPEG ∧
    (device_yuyv.set_format driver_640x480 1920 1080 format.MJPEG).1.frame_width = 640 ∧
    (device_yuyv.set_format driver_640x480 1920 1080 format.MJPEG).1.frame_height = 480 := by
  decide

theorem query_format_fields (dev : capture_device) (drv : fmt_driver)
    (h : (dev.query_format drv).2 = none) :
    (drv.g_fmt dev.m_format).result = 0 ∧
    (dev.query_format drv).1.m_format.pixelformat = (drv.g_fmt dev.m_format).fmt.pixelformat ∧
    (dev.query_format drv).1.m_format.width = (drv.g_fmt dev.m_format).fmt.width ∧
    (dev.query_format drv).1.m_format.height = (drv.g_fmt dev.m_format).fmt.height := by
  unfold capture_device.query_format at h ⊢
  dsimp only at h ⊢
  split at h
  · cases h
  · rename_i hres
    rw [if_neg hres]
    refine ⟨by simpa using hres, ?_, ?_, ?_⟩ <;>
    · dsimp only
      split <;> split <;> rfl

/-- C10, amended: for a requested width and height `≥ 0` and a pixel format
other than UNKNOWN. If `set_format` returns without raising, the structure
sent with `VIDIOC_S_FMT` carried the requested width, height and pixel format,
both `ioctl` calls succeeded, the re-queried state has `pixel_format()` equal
to the requested format, and `frame_width()` and `frame_height()` are what the
driver reports on the re-query. A negotiated pixel format other than the
requested one makes `set_format` raise. With a driver that takes the request
as it is and sizes below `2 ^ 31`, `set_format` returns without raising and
the negotiated width and height are the requested ones. -/
theorem set_format_negotiates_pixel_format (dev : capture_device) (drv : fmt_driver)
    (width height : Int) (pixel_format : format)
    (hw : 0 ≤ width) (hh : 0 ≤ height) (hf : pixel_format ≠ format.UNKNOWN) :
    ((dev.set_format drv width height pixel_format).2 = none →
      (dev.set_format drv width height pixel_format).1.pixel_format = pixel_format ∧
      ∃ sent : v4l2_pix_format,
        sent.width = width.toNat % 2 ^ 32 ∧ sent.height = height.toNat % 2 ^ 32 ∧
        format_fourcc pixel_format = some sent.pixelformat ∧
        0 ≤ (drv.s_fmt sent).result ∧ (drv.g_fmt (drv.s_fmt sent).fmt).result = 0 ∧
        (dev.set_format drv width height pixel_format).1.frame_width
          = u32_to_int (drv.g_fmt (drv.s_fmt sent).fmt).fmt.width ∧
        (dev.set_format drv width height pixel_format).1.frame_height
          = u32_to_int (drv.g_fmt (drv.s_fmt sent).fmt).fmt.height) ∧
    ((dev.set_format drv width height pixel_format).1.pixel_format ≠ pixel_format →
      (dev.set_format drv width height pixel_format).2 ≠ none) ∧
    (width < 2 ^ 31 → height < 2 ^ 31 →
      (dev.set_format driver_exact width height pixel_format).2 = none ∧
      (dev.set_format driver_exact width height pixel_format).1.pixel_format = pixel_format ∧
      (dev.set_format driver_exact width height pixel_format).1.frame_width = width ∧
      (dev.set_format driver_exact width height pixel_format).1.frame_height = height) := by
  obtain ⟨fourcc, hfourcc⟩ : ∃ fourcc, format_fourcc pixel_format = some fourcc := by
    cases pixel_format <;> simp [format_fourcc] at hf ⊢
  have hmain : ∀ drv : fmt_driver,
      (dev.set_format drv width height pixel_format).2 = none →
      (dev.set_format drv width height pixel_format).1.pixel_format = pixel_format ∧
      ∃ sent : v4l2_pix_format,
        sent.width = width.toNat % 2 ^ 32 ∧ sent.height = height.toNat % 2 ^ 32 ∧
        format_fourcc pixel_format = some sent.pixelformat ∧
        0 ≤ (drv.s_fmt sent).result ∧ (drv.g_fmt (drv.s_fmt sent).fmt).result = 0 ∧
        (dev.set_format drv width height pixel_format).1.frame_width
          = u32_to_int (drv.g_fmt (drv.s_fmt sent).fmt).fmt.width ∧
        (dev.set_format drv width height pixel_format).1.frame_height
          = u32_to_int (drv.g_fmt (drv.s_fmt sent).fmt).fmt.height := by
    intro drv hret
    unfold capture_device.set_format at hret ⊢
    simp only [hfourcc, ge_iff_le, hw, hh, if_true] at hret ⊢
    split at hret
    · cases hret
    · rename_i hres
      rw [if_neg hres]
      split at hret
      · cases hret
      · rename_i hq
        split at hret
        · cases hret
        · rename_i hcheck
          rw [if_neg hcheck]
          have hpf : (capture_device.query_format
              { dev with m_format := (drv.s_fmt
                { width := width.toNat % 2 ^ 32, height := height.toNat % 2 ^ 32,
                  pixelformat := fourcc, bytesperline := dev.m_format.bytesperline,
                  sizeimage := dev.m_format.sizeimage }).fmt } drv).1.pixel_format
              = pixel_format := by
            by_contra hne
            exact hcheck ⟨hf, hne⟩
          obtain ⟨hg, _, hgw, hgh⟩ := query_format_fields _ drv hq
          refine ⟨hpf, _, rfl, rfl, rfl, by omega, hg, ?_, ?_⟩
          · simp only [capture_device.frame_width]
            rw [hgw]
          · simp only [capture_device.frame_height]
            rw [hgh]
  refine ⟨hmain drv, ?_, ?_⟩
  · intro hne hret
    exact hne (hmain drv hret).1
  · intro hw2 hh2
    have hq2 : ∀ d : capture_device, (d.query_format driver_exact).2 = none := by
      intro d
      simp [capture_device.query_format, driver_exact]
    have hret : (dev.set_format driver_exact width height pixel_format).2 = none := by
      unfold capture_device.set_format
      simp only [hfourcc, ge_iff_le, hw, hh, if_true]
      rw [if_neg (by simp [driver_exact])]
      split
      · rename_i message hq
        rw [hq2] at hq
        cases hq
      · rename_i hq
        have hqf := query_format_fields _ _ hq
        have hpf := pixel_format_of_fourcc _ pixel_format fourcc hfourcc
          (hqf.2.1.trans (by simp [driver_exact]))
        rw [if_neg (by rw [hpf]; simp)]
    obtain ⟨hpf, sent, hsw, hsh, _, _, _, hfw, hfh⟩ := hmain driver_exact hret
    refine ⟨hret, hpf, ?_, ?_⟩
    · rw [hfw]
      simp only [driver_exact]
      rw [hsw]
      exact u32_to_int_of_nonneg width hw hw2
    · rw [hfh]
      simp only [driver_exact]
      rw [hsh]
      exact u32_to_int_of_nonneg height hh hh2

/-- C10, amended, at the request 1920 x 1080 MJPEG on the driver that
supports only 640 x 480. -/
theorem set_format_negotiates_pixel_format_witness :
    (0 : Int) ≤ 1920 ∧ (0 : Int) ≤ 1080 ∧ format.MJPEG ≠ format.UNKNOWN ∧
    ((device_yuyv.set_format driver_640x480 1920 1080 format.MJPEG).1.pixel_format
        ≠ format.MJPEG →
      (device_yuyv.set_format driver_640x480 1920 1080 format.MJPEG).2 ≠ none) :=
  ⟨by decide, by decide, by decide,
   (set_format_negotiates_pixel_format device_yuyv driver_640x480 1920 1080 format.MJPEG
      (by decide) (by decide) (by decide)).2.1⟩

end v4l2

/-! ## `uncompressed_frame`: pixel access -/

example : (frame_2x2.set_pixel (fun _ => 0) 1 1 0xAABBCCDD).map
    (fun m => [m 4104, m 4105, m 4106, m 4107, m 4108]) = some [0, 0xDD, 0xCC, 0xBB, 0] := by
  decide
example : (frame_2x2.set_pixel (fun _ => 0) 1 1 0xAABBCCDD).bind
    (fun m => frame_2x2.pixel m 1 1) = some 0xBBCCDD := by
  decide

theorem lor_byte (r v i : Nat) (hi : i < 4) (hr : r < 2 ^ (8 * i)) :
    r ||| (((v % 256) <<< (8 * i)) % 2 ^ 32) = r + (v % 256) * 2 ^ (8 * i) := by
  have hv : v % 256 < 256 := Nat.mod_lt _ (by norm_num)
  have hlt : (v % 256) * 2 ^ (8 * i) < 2 ^ 32 := by
    interval_cases i <;> norm_num <;> omega
  rw [Nat.shiftLeft_eq, Nat.mod_eq_of_lt hlt, Nat.lor_comm, Nat.mul_comm,
    ← Nat.mul_add_lt_is_or hr, Nat.add_comm]

theorem pixel_loop_eq (mem : Nat → Nat) (base : Nat) :
    ∀ n i result, i + n ≤ 4 → result < 2 ^ (8 * i) →
      pixel_loop mem base n i result = some (result + little_endian mem base n i) := by
  intro n
  induction n with
  | zero => intro i result _ _; simp [pixel_loop, little_endian]
  | succ n ih =>
    intro i result hi hr
    have hv : mem (base + i) % 256 < 256 := Nat.mod_lt _ (by norm_num)
    rw [pixel_loop, if_pos (by omega), lor_byte result _ i (by omega) hr,
      ih (i + 1) _ (by omega)]
    · simp only [little_endian]; rw [Nat.add_assoc]
    · have : 2 ^ (8 * (i + 1)) = 2 ^ (8 * i) * 256 := by
        rw [Nat.mul_add, pow_add]; norm_num
      rw [this]
      nlinarith

theorem set_pixel_loop_eq (base color : Nat) :
    ∀ n i (mem : Nat → Nat), i + n ≤ 4 →
      ∃ mem1, set_pixel_loop base color n i mem = some mem1 ∧
        ∀ a, mem1 a =
          if base + i ≤ a ∧ a < base + i + n then (color >>> ((a - base) * 8)) &&& 0xFF
          else mem a := by
  intro n
  induction n with
  | zero =>
    intro i mem _
    refine ⟨mem, rfl, ?_⟩
    intro a
    rw [if_neg (by omega)]
  | succ n ih =>
    intro i mem hi
    obtain ⟨mem1, hrun, hmem⟩ := ih (i + 1)
      (fun a => if a = base + i then (color >>> (i * 8)) &&& 0xFF else mem a) (by omega)
    refine ⟨mem1, ?_, ?_⟩
    · rw [set_pixel_loop, if_pos (by omega)]
      exact hrun
    · intro a
      rw [hmem a]
      by_cases h1 : base + (i + 1) ≤ a ∧ a < base + (i + 1) + n
      · rw [if_pos h1, if_pos (by omega)]
      · rw [if_neg h1]
        by_cases h2 : a = base + i
        · subst h2
          rw [if_pos rfl, if_pos (by omega)]
          congr 2
          omega
        · rw [if_neg h2, if_neg (by omega)]

theorem little_endian_of_color (mem : Nat → Nat) (base color n : Nat) (hn : n ≤ 4)
    (hmem : ∀ j, j < n → mem (base + j) = (color >>> (j * 8)) &&& 0xFF) :
    little_endian mem base n 0 = color % 2 ^ (8 * n) := by
  have hbyte : ∀ k : Nat, (color >>> k) &&& 0xFF = color / 2 ^ k % 256 := by
    intro k
    rw [Nat.shiftRight_eq_div_pow]
    exact Nat.and_pow_two_sub_one_eq_mod _ 8
  have hb0 : color &&& 255 = color % 256 := Nat.and_pow_two_sub_one_eq_mod color 8
  interval_cases n
  · simp [little_endian]
    omega
  · have h0 := hmem 0 (by omega)
    norm_num [hbyte, hb0] at h0
    simp [little_endian, h0]
  · have h0 := hmem 0 (by omega)
    have h1 := hmem 1 (by omega)
    norm_num [hbyte, hb0] at h0 h1
    simp [little_endian, h0, h1]
    omega
  · have h0 := hmem 0 (by omega)
    have h1 := hmem 1 (by omega)
    have h2 := hmem 2 (by omega)
    norm_num [hbyte, hb0] at h0 h1 h2
    simp [little_endian, h0, h1, h2]
    omega
  · have h0 := hmem 0 (by omega)
    have h1 := hmem 1 (by omega)
    have h2 := hmem 2 (by omega)
    have h3 := hmem 3 (by omega)
    norm_num [hbyte, hb0] at h0 h1 h2 h3
    simp [little_endian, h0, h1, h2, h3]
    omega

theorem offset_in_range (f : uncompressed_frame) (x y : Int)
    (hb : 1 ≤ f.m_bytes_per_pixel) (hx0 : 0 ≤ x) (hx : x < f.m_width)
    (hy0 : 0 ≤ y) (hy : y < f.m_height)
    (hfit : f.m_width * f.m_height * f.m_bytes_per_pixel < 2 ^ 31) :
    f.offset x y = some ((y * f.m_width + x) * f.m_bytes_per_pixel).toNat := by
  have hw : 0 < f.m_width := by omega
  have h1 : 0 ≤ y * f.m_width := mul_nonneg hy0 (le_of_lt hw)
  have h2 : y * f.m_width + x < f.m_width * f.m_height := by nlinarith
  have h3 : 0 ≤ (y * f.m_width + x) * f.m_bytes_per_pixel :=
    mul_nonneg (by omega) (by omega)
  have h4 : (y * f.m_width + x) * f.m_bytes_per_pixel
      ≤ f.m_width * f.m_height * f.m_bytes_per_pixel :=
    mul_le_mul_of_nonneg_right (le_of_lt h2) (by omega)
  have h5 : y * f.m_width + x ≤ (y * f.m_width + x) * f.m_bytes_per_pixel := by nlinarith
  have hm1 : int_mul y f.m_width = some (y * f.m_width) := by
    unfold int_mul
    rw [if_pos (by constructor <;> omega)]
  have ha : int_add (y * f.m_width) x = some (y * f.m_width + x) := by
    unfold int_add
    rw [if_pos (by constructor <;> omega)]
  have hm2 : int_mul (y * f.m_width + x) f.m_bytes_per_pixel
      = some ((y * f.m_width + x) * f.m_bytes_per_pixel) := by
    unfold int_mul
    rw [if_pos (by constructor <;> omega)]
  simp only [uncompressed_frame.offset, hm1, ha, hm2, Option.some_bind, Option.map_some',
    to_size_t]
  congr 1
  rw [Int.emod_eq_of_lt h3 (by omega)]

/-- C12: for a frame with 1 to 4 bytes per pixel whose byte count
`width * height * bytes_per_pixel` fits an `int`, an in-bounds `(x, y)` and
a 32-bit colour `c`, `set_pixel(x, y, c)` stores `(c >> 8i) & 0xFF` at offset
`(y * width + x) * b + i` for every `i < b`, and `pixel(x, y)` then returns
`c mod 2 ^ (8b)`. At the in-bounds pixel (29999, 29999) of a frame of
30000 x 30000 pixels of 3 bytes the offset `(y * m_width + x) * 3` leaves the
range of `int`: `set_pixel` and `pixel` have no defined result there. -/
theorem set_pixel_then_pixel :
    (∀ (f : uncompressed_frame) (mem : Nat → Nat) (x y : Int) (color : Nat),
      1 ≤ f.m_bytes_per_pixel → f.m_bytes_per_pixel ≤ 4 →
      0 ≤ x → x < f.m_width → 0 ≤ y → y < f.m_height →
      f.m_width * f.m_height * f.m_bytes_per_pixel < 2 ^ 31 → color < 2 ^ 32 →
      ∃ mem1, f.set_pixel mem x y color = some mem1 ∧
        (∀ i, i < f.m_bytes_per_pixel.toNat →
          mem1 (f.m_buffer.m_data + ((y * f.m_width + x) * f.m_bytes_per_pixel).toNat + i)
            = (color >>> (8 * i)) &&& 0xFF) ∧
        f.pixel mem1 x y = some (color % 2 ^ (8 * f.m_bytes_per_pixel.toNat))) ∧
    ((0 : Int) ≤ 29999 ∧ (29999 : Int) < frame_30000.m_width ∧
      (29999 : Int) < frame_30000.m_height ∧
      (29999 * 30000 + 29999) * 3 + 3 ≤ frame_30000.m_buffer.m_size ∧
      ∀ (mem : Nat → Nat) (color : Nat),
        frame_30000.set_pixel mem 29999 29999 color = none ∧
        frame_30000.pixel mem 29999 29999 = none) := by
  constructor
  · intro f mem x y color hb1 hb4 hx0 hx hy0 hy hfit hcolor
    have hoff := offset_in_range f x y hb1 hx0 hx hy0 hy hfit
    have hn : f.m_bytes_per_pixel.toNat ≤ 4 := by omega
    obtain ⟨mem1, hrun, hmem⟩ := set_pixel_loop_eq
      (f.m_buffer.m_data + ((y * f.m_width + x) * f.m_bytes_per_pixel).toNat) color
      f.m_bytes_per_pixel.toNat 0 mem (by omega)
    have hbytes : ∀ i, i < f.m_bytes_per_pixel.toNat →
        mem1 (f.m_buffer.m_data + ((y * f.m_width + x) * f.m_bytes_per_pixel).toNat + i)
          = (color >>> (i * 8)) &&& 0xFF := by
      intro i hi
      rw [hmem, if_pos (by omega)]
      congr 2
      omega
    refine ⟨mem1, ?_, ?_, ?_⟩
    · simp only [uncompressed_frame.set_pixel, hoff, Option.some_bind,
        Nat.mod_eq_of_lt hcolor]
      exact hrun
    · intro i hi
      rw [hbytes i hi, Nat.mul_comm]
    · simp only [uncompressed_frame.pixel, hoff, Option.some_bind]
      rw [pixel_loop_eq _ _ _ 0 0 (by omega) (by norm_num), Nat.zero_add,
        little_endian_of_color _ _ color _ hn hbytes]
  · refine ⟨by decide, by decide, by decide, by decide, ?_⟩
    intro mem color
    have hoff : frame_30000.offset 29999 29999 = none := by decide
    simp [uncompressed_frame.set_pixel, uncompressed_frame.pixel, hoff]

/-! ## `jpeg_frame`: dimensions through compress and uncompress -/

theorem create_fields (codec : codec_env) (width height bytes_per_pixel : Int)
    (image : uncompressed_frame)
    (h : uncompressed_frame.create codec width height bytes_per_pixel = .ok image) :
    image.m_width = width ∧ image.m_height = height ∧
    image.m_bytes_per_pixel = bytes_per_pixel ∧
    (image.m_buffer.m_size : Int) = width * height * bytes_per_pixel ∧
    image.m_buffer.m_releaser = some releaser_ref.heap := by
  unfold uncompressed_frame.create at h
  split at h
  · cases h
  · rename_i size hsize
    split at h
    · cases h
    · rename_i buffer hbuf
      injection h with h
      subst h
      have hprod : size = width * height * bytes_per_pixel ∧ -2 ^ 31 ≤ size ∧ size < 2 ^ 31 := by
        unfold int_mul at hsize
        split at hsize
        · simp only [Option.some_bind] at hsize
          split at hsize
          · injection hsize with hsize
            exact ⟨hsize.symm, by omega, by omega⟩
          · cases hsize
        · simp at hsize
      obtain ⟨hp, hlo, hhi⟩ := hprod
      unfold image_buffer.allocate at hbuf
      split at hbuf
      · cases hbuf
      · rename_i hbig
        split at hbuf
        · cases hbuf
        · injection hbuf with hbuf
          subst hbuf
          refine ⟨rfl, rfl, rfl, ?_, rfl⟩
          simp only [image_buffer.mk_with]
          rw [← hp]
          unfold to_size_t at hbig ⊢
          by_cases hneg : size < 0
          · exfalso
            apply hbig
            have : size % 2 ^ 64 = size + 2 ^ 64 := by
              rw [← Int.add_emod_self, Int.emod_eq_of_lt (by omega) (by omega)]
            rw [this]
            omega
          · rw [Int.emod_eq_of_lt (by omega) (by omega)]
            omega

/-- C11: when compressing an uncompressed frame of width `W` and height `H`
returns a `jpeg_frame` and `uncompress` on that result returns a frame, the
frame returned has width `W`, height `H`, 3 bytes per pixel and a heap buffer
of exactly `W * H * 3` bytes. -/
theorem compress_uncompress_dimensions (codec : codec_env) (frame : uncompressed_frame)
    (color_space : Nat) (num_components quality : Int) (compressed : jpeg_frame)
    (image : uncompressed_frame)
    (hc : jpeg_frame.of_frame codec frame color_space num_components quality
      = .ok compressed)
    (hu : compressed.uncompress codec color_space num_components = .ok image) :
    image.m_width = frame.m_width ∧ image.m_height = frame.m_height ∧
    image.m_bytes_per_pixel = 3 ∧
    (image.m_buffer.m_size : Int) = frame.m_width * frame.m_height * 3 := by
  have hdim : compressed.m_width = frame.m_width ∧ compressed.m_height = frame.m_height := by
    unfold jpeg_frame.of_frame at hc
    split at hc
    · cases hc
    · injection hc with hc
      subst hc
      exact ⟨rfl, rfl⟩
  unfold jpeg_frame.uncompress at hu
  split at hu
  · cases hu
  · split at hu
    · cases hu
    · rename_i created hcreate
      split at hu
      · injection hu with hu
        subst hu
        obtain ⟨h1, h2, h3, h4, _⟩ := create_fields codec _ _ _ _ hcreate
        rw [hdim.1] at h1 h4
        rw [hdim.2] at h2 h4
        exact ⟨h1, h2, h3, h4⟩
      · cases hu

/-- C11 at a frame of 2 x 2 pixels of 3 bytes, quality 80. -/
theorem compress_uncompress_dimensions_witness :
    jpeg_frame.of_frame codec_example frame_2x2 JCS_RGB 3 80 = .ok jpeg_2x2 ∧
    jpeg_2x2.uncompress codec_example JCS_RGB 3 = .ok image_2x2 ∧
    (image_2x2.m_buffer.m_size : Int) = frame_2x2.m_width * frame_2x2.m_height * 3 :=
  ⟨by decide, by decide,
   (compress_uncompress_dimensions codec_example frame_2x2 JCS_RGB 3 80 jpeg_2x2 image_2x2
      (by decide) (by decide)).2.2.2⟩

/-! ## `capture_buffer::release` in the two strategies -/

namespace v4l2

/-- C13 at the failing input: a device in read strategy with two slots, one
`read_buffer` call, then the destruction of the Buffer returned (it wraps slot
1). With YUYV negotiated `release` reads the `device` field that `init_read`
never assigned before it unlocks; with MJPEG negotiated and the value read
through `device` being MJPEG it also reads the unassigned `index` and issues
`VIDIOC_QBUF`. -/
theorem release_reads_unset_device :
    (capture_run (capture_world.opened 2 capture_method.READ format_yuyv_640x480)
      [capture_op.read_buffer env_read]).live.map (fun b => b.m_releaser)
      = [some (releaser_ref.capture_buffer 1)] ∧
    (capture_run (capture_world.opened 2 capture_method.READ format_yuyv_640x480)
      [capture_op.read_buffer env_read]).dev.m_buffers.map (fun b => (b.device, b.index))
      = [(none, none), (none, none)] ∧
    (capture_run (capture_world.opened 2 capture_method.READ format_yuyv_640x480)
      [capture_op.read_buffer env_read, capture_op.release 0 ⟨format.UNKNOWN, 0⟩]).events
      = [capture_event.unset_device_read 1, capture_event.unlock 1] ∧
    (capture_run (capture_world.opened 2 capture_method.READ format_mjpeg_640x480)
      [capture_op.read_buffer env_read, capture_op.release 0 ⟨format.MJPEG, 7⟩]).events
      = [capture_event.unset_device_read 1, capture_event.unset_index_read 1,
         capture_event.ioctl_qbuf 7, capture_event.unlock 1] := by
  decide

theorem start_mmap_map_slots (env : read_env) (P : Nat → capture_buffer → Prop)
    (hP : ∀ i b v, P i b → P i { b with length := v } ∧ P i { b with base := v }) :
    ∀ (indices : List Nat) (m_buffers : List capture_buffer),
      (∀ i b, m_buffers[i]? = some b → P i b) →
      ∀ i b, (start_mmap_map env indices m_buffers).1[i]? = some b → P i b := by
  have hupd : ∀ (l : List capture_buffer) (j : Nat) (f : capture_buffer → capture_buffer),
      (∀ i b, P i b → P i (f b)) → (∀ i b, l[i]? = some b → P i b) →
      ∀ i b, (update_slot l j f)[i]? = some b → P i b := by
    intro l j f hf hl i b hb
    rw [update_slot_getElem?] at hb
    by_cases hij : i = j
    · subst hij
      simp only [if_true] at hb
      cases hli : l[i]? with
      | none => simp [hli] at hb
      | some c =>
        simp [hli] at hb
        subst hb
        exact hf i c (hl i c hli)
    · simp only [hij, if_false] at hb
      exact hl i b hb
  intro indices
  induction indices with
  | nil => intro m_buffers h i b hb; exact h i b hb
  | cons j rest ih =>
    intro m_buffers h i b hb
    rw [start_mmap_map] at hb
    split at hb
    · exact h i b hb
    · dsimp only at hb
      have h1 := hupd m_buffers j (fun b => { b with length := (env.querybuf j).2 })
        (fun i b hb => (hP i b _ hb).1) h
      split at hb
      · exact h1 i b hb
      · exact ih _ (hupd _ j (fun b => { b with base := env.alloc j })
          (fun i b hb => (hP i b _ hb).2) h1) i b hb

theorem start_mmap_inv (dev : capture_device) (env : read_env)
    (h0 : dev.m_buffers = []) :
    (dev.start_mmap env).1.m_method = dev.m_method ∧
    (dev.start_mmap env).1.m_format = dev.m_format ∧
    ((dev.start_mmap env).1.m_buffer_count = 0 → (dev.start_mmap env).1.m_buffers = []) ∧
    (∀ (i : Nat) (b : capture_buffer), (dev.start_mmap env).1.m_buffers[i]? = some b →
      b.device = some () ∧ b.index = some i ∧ b.mutex = false) := by
  unfold capture_device.start_mmap
  split
  · exact ⟨rfl, rfl, fun _ => h0, by simp [h0]⟩
  · split
    · exact ⟨rfl, rfl, fun _ => h0, by simp [h0]⟩
    · rename_i hge
      have hslots : ∀ (i : Nat) (b : capture_buffer),
          (start_mmap_map env (List.range env.reqbufs.2)
            ((List.range env.reqbufs.2).map (fun i =>
              ({ device := some (), index := some i, base := 0, length := 0,
                 mutex := false } : capture_buffer)))).1[i]? = some b →
          b.device = some () ∧ b.index = some i ∧ b.mutex = false := by
        apply start_mmap_map_slots env
          (fun i b => b.device = some () ∧ b.index = some i ∧ b.mutex = false)
        · intro i b v hb
          exact ⟨hb, hb⟩
        · intro i b hb
          simp only [List.getElem?_map] at hb
          cases hr : (List.range env.reqbufs.2)[i]? with
          | none => simp [hr] at hb
          | some j =>
            have hj : j = i := by
              have := List.getElem?_eq_some.1 hr
              obtain ⟨hlt, hget⟩ := this
              simpa using hget.symm
            simp [hr] at hb
            subst hb
            subst hj
            exact ⟨rfl, rfl, rfl⟩
      dsimp only
      have hcount : ¬ env.reqbufs.2 = 0 := by omega
      split
      · exact ⟨rfl, rfl, fun h => absurd h hcount, hslots⟩
      · split
        · exact ⟨rfl, rfl, fun h => absurd h hcount, hslots⟩
        · split
          · exact ⟨rfl, rfl, fun h => absurd h hcount, hslots⟩
          · exact ⟨rfl, rfl, fun h => absurd h hcount, hslots⟩

theorem read_mmap_result (dev : capture_device) (env : read_env) :
    (dev.read_mmap env).1 = dev ∧
    ∀ b, (dev.read_mmap env).2 = read_outcome.returned b →
      ∃ slot, b.m_releaser = some (releaser_ref.capture_buffer slot) ∧
        slot < dev.m_buffers.length := by
  unfold capture_device.read_mmap
  split
  · exact ⟨rfl, fun b hb => by cases hb⟩
  · split
    · exact ⟨rfl, fun b hb => by cases hb⟩
    · split
      · exact ⟨rfl, fun b hb => by cases hb⟩
      · rename_i buffer hget
        refine ⟨rfl, ?_⟩
        intro b hb
        injection hb with hb
        subst hb
        refine ⟨env.dqbuf.2.1, rfl, ?_⟩
        by_contra hcon
        rw [List.getElem?_eq_none (by omega)] at hget
        cases hget

theorem mmap_after_read (m_format : v4l2_pix_format) (w : capture_world)
    (r : capture_device × read_outcome)
    (hm : r.1.m_method = capture_method.MMAP) (hf : r.1.m_format = m_format)
    (h0 : r.1.m_buffer_count = 0 → r.1.m_buffers = [])
    (hs : ∀ (i : Nat) (b : capture_buffer), r.1.m_buffers[i]? = some b →
      b.device = some () ∧ b.index = some i ∧ b.mutex = false)
    (hl : ∀ b ∈ w.live, ∃ slot, b.m_releaser = some (releaser_ref.capture_buffer slot) ∧
      slot < r.1.m_buffers.length)
    (hr : ∀ b, r.2 = read_outcome.returned b →
      ∃ slot, b.m_releaser = some (releaser_ref.capture_buffer slot) ∧
        slot < r.1.m_buffers.length) :
    mmap_world_inv m_format (w.after_read (leave_read_buffer r)) := by
  obtain ⟨dev, outcome⟩ := r
  cases outcome with
  | returned buffer =>
    refine ⟨hm, hf, h0, hs, ?_⟩
    intro b hb
    simp only [capture_world.after_read, leave_read_buffer, List.mem_append,
      List.mem_singleton] at hb
    rcases hb with hb | hb
    · exact hl b hb
    · subst hb
      exact hr _ rfl
  | threw message => exact ⟨hm, hf, h0, hs, hl⟩
  | blocked => exact ⟨hm, hf, h0, hs, hl⟩

theorem mmap_world_inv_step (m_format : v4l2_pix_format) (w : capture_world)
    (op : capture_op) (h : mmap_world_inv m_format w) :
    mmap_world_inv m_format (capture_step w op) := by
  obtain ⟨hm, hf, h0, hs, hl⟩ := h
  cases op with
  | read_buffer env =>
    simp only [capture_step]
    split
    · exact ⟨hm, hf, h0, hs, hl⟩
    · simp only [capture_device.read_buffer, hm]
      split
      · rename_i hcount
        have hempty := h0 hcount
        have hlive : w.live = [] := by
          cases hlv : w.live with
          | nil => rfl
          | cons b rest =>
            obtain ⟨slot, _, hlt⟩ := hl b (by rw [hlv]; simp)
            rw [hempty] at hlt
            simp at hlt
        obtain ⟨s1, s2, s3, s4⟩ := start_mmap_inv w.dev env hempty
        split
        · rename_i dev1 message heq
          have hd : (w.dev.start_mmap env).1 = dev1 := by rw [heq]
          rw [hd] at s1 s2 s3 s4
          exact mmap_after_read m_format w (dev1, read_outcome.threw message)
            (s1.trans hm) (s2.trans hf) s3 s4
            (by intro b hb; rw [hlive] at hb; cases hb) (by intro b hb; cases hb)
        · rename_i dev1 heq
          have hd : (w.dev.start_mmap env).1 = dev1 := by rw [heq]
          rw [hd] at s1 s2 s3 s4
          obtain ⟨r1, r2⟩ := read_mmap_result dev1 env
          exact mmap_after_read m_format w (dev1.read_mmap env)
            (by rw [r1]; exact s1.trans hm) (by rw [r1]; exact s2.trans hf)
            (by rw [r1]; exact s3) (by rw [r1]; exact s4)
            (by intro b hb; rw [hlive] at hb; cases hb) (by rw [r1]; exact r2)
      · obtain ⟨r1, r2⟩ := read_mmap_result w.dev env
        exact mmap_after_read m_format w (w.dev.read_mmap env)
          (by rw [r1]; exact hm) (by rw [r1]; exact hf)
          (by rw [r1]; exact h0) (by rw [r1]; exact hs)
          (by rw [r1]; exact hl) (by rw [r1]; exact r2)
  | resume env =>
    simp only [capture_step, hm]
    simp
    exact ⟨hm, hf, h0, hs, hl⟩
  | release k stray =>
    simp only [capture_step]
    split
    · exact ⟨hm, hf, h0, hs, hl⟩
    · rename_i buffer hk
      obtain ⟨slot, hrel, hlt⟩ := hl buffer (List.getElem?_mem hk)
      have hdestroy : buffer.destroy
          = [{ releaser := releaser_ref.capture_buffer slot, data := buffer.m_data,
               size := buffer.m_size }] := by
        simp [image_buffer.destroy, hrel]
      rw [hdestroy]
      dsimp only
      have hget : w.dev.m_buffers[slot]? = some w.dev.m_buffers[slot] :=
        List.getElem?_eq_getElem hlt
      have hfree := (hs slot _ hget).2.2
      have hdev : (capture_buffer.release w.dev slot stray).1 = w.dev := by
        unfold capture_buffer.release
        rw [hget]
        dsimp only
        rw [if_neg (by rw [hfree]; simp)]
      rw [hdev]
      refine ⟨hm, hf, h0, hs, ?_⟩
      intro b hb
      exact hl b (List.mem_of_mem_eraseIdx hb)

theorem mmap_world_inv_run (m_format : v4l2_pix_format) (ops : List capture_op) :
    ∀ w : capture_world, mmap_world_inv m_format w →
      mmap_world_inv m_format (capture_run w ops) := by
  induction ops with
  | nil => intro w h; exact h
  | cons op ops ih => intro w h; exact ih _ (mmap_world_inv_step m_format w op h)

theorem mmap_world_inv_opened (hc : Nat) (m_format : v4l2_pix_format) :
    mmap_world_inv m_format (capture_world.opened hc capture_method.MMAP m_format) := by
  refine ⟨rfl, rfl, fun _ => rfl, ?_, ?_⟩
  · intro i b hb
    simp [capture_world.opened] at hb
  · intro b hb
    simp [capture_world.opened] at hb

/-- C14 at the failing input: in memory-mapped strategy with YUYV negotiated
and two slots, `read_buffer` dequeues slot 0 and returns the Buffer that wraps
it, and destroying that Buffer issues no `VIDIOC_QBUF` at all (the only event
is the `mutex.unlock()`), so the slot does not return to the driver; the same
read and release with MJPEG negotiated issue `VIDIOC_QBUF` with
`buf.index = 0`. -/
theorem release_without_requeue :
    (capture_run (capture_world.opened 2 capture_method.MMAP format_yuyv_640x480)
      [capture_op.read_buffer env_mmap]).live.map (fun b => b.m_releaser)
      = [some (releaser_ref.capture_buffer 0)] ∧
    (capture_run (capture_world.opened 2 capture_method.MMAP format_yuyv_640x480)
      [capture_op.read_buffer env_mmap, capture_op.release 0 ⟨format.UNKNOWN, 0⟩]).events
      = [capture_event.unlock_not_held 0] ∧
    (capture_run (capture_world.opened 2 capture_method.MMAP format_mjpeg_640x480)
      [capture_op.read_buffer env_mmap, capture_op.release 0 ⟨format.UNKNOWN, 0⟩]).events
      = [capture_event.ioctl_qbuf 0, capture_event.unlock_not_held 0] := by
  decide

/-- The events of `capture_buffer::release` in memory-mapped strategy: in
every state reached by `read_buffer` calls and releases, the negotiated format
is the one the device was opened with, and releasing the Buffer that wraps
slot `i` issues one `VIDIOC_QBUF`, with `buf.index = i`, exactly when
`pixel_format()` is MJPEG; `mutex.unlock()` follows. -/
theorem release_requeues_under_mjpeg (hc : Nat) (m_format : v4l2_pix_format)
    (ops : List capture_op) (k : Nat) (stray : stray_reads) (b : image_buffer) (slot : Nat)
    (hk : (capture_run (capture_world.opened hc capture_method.MMAP m_format) ops).live[k]?
      = some b)
    (hrel : b.m_releaser = some (releaser_ref.capture_buffer slot)) :
    (capture_run (capture_world.opened hc capture_method.MMAP m_format) ops).dev.m_format
      = m_format ∧
    (capture_step (capture_run (capture_world.opened hc capture_method.MMAP m_format) ops)
        (capture_op.release k stray)).events
      = (capture_run (capture_world.opened hc capture_method.MMAP m_format) ops).events
        ++ (if (capture_run (capture_world.opened hc capture_method.MMAP m_format)
                ops).dev.pixel_format = format.MJPEG
            then [capture_event.ioctl_qbuf slot] else [])
        ++ [capture_event.unlock_not_held slot] := by
  have hinv := mmap_world_inv_run m_format ops _ (mmap_world_inv_opened hc m_format)
  generalize capture_run (capture_world.opened hc capture_method.MMAP m_format) ops = w
    at hinv hk ⊢
  obtain ⟨_, hf, _, hs, hl⟩ := hinv
  refine ⟨hf, ?_⟩
  obtain ⟨slot1, hrel1, hlt⟩ := hl b (List.getElem?_mem hk)
  have hslot : slot1 = slot := by
    rw [hrel] at hrel1
    injection hrel1 with h1
    injection h1 with h1
    exact h1.symm
  subst hslot
  have hget : w.dev.m_buffers[slot1]? = some w.dev.m_buffers[slot1] :=
    List.getElem?_eq_getElem hlt
  obtain ⟨hdev, hidx, hfree⟩ := hs slot1 _ hget
  have hdestroy : b.destroy
      = [{ releaser := releaser_ref.capture_buffer slot1, data := b.m_data,
           size := b.m_size }] := by
    simp [image_buffer.destroy, hrel]
  simp only [capture_step, hk, hdestroy, capture_buffer.release, hget, hdev, hidx, hfree]
  by_cases hfmt : w.dev.pixel_format = format.MJPEG <;> simp [hfmt]

/-- The events of a release at a device with MJPEG negotiated and one Buffer read. -/
theorem release_requeues_under_mjpeg_witness :
    (capture_run (capture_world.opened 2 capture_method.MMAP format_mjpeg_640x480)
      [capture_op.read_buffer env_mmap]).live[0]?
      = some { m_data := 4096, m_size := 4,
               m_releaser := some (releaser_ref.capture_buffer 0) } ∧
    (capture_run (capture_world.opened 2 capture_method.MMAP format_mjpeg_640x480)
      [capture_op.read_buffer env_mmap]).dev.m_format = format_mjpeg_640x480 :=
  ⟨by decide,
   (release_requeues_under_mjpeg 2 format_mjpeg_640x480 [capture_op.read_buffer env_mmap] 0
      ⟨format.UNKNOWN, 0⟩
      { m_data := 4096, m_size := 4, m_releaser := some (releaser_ref.capture_buffer 0) } 0
      (by decide) rfl).1⟩

/-! ## `capture_device::read_read`: the slot rotation -/

theorem read_read_locked_slot (dev : capture_device) (env : read_env) :
    (dev.read_read_locked env).1.m_last_used_buffer = dev.m_last_used_buffer ∧
    (dev.read_read_locked env).1.m_buffer_count = dev.m_buffer_count ∧
    (dev.read_read_locked env).1.m_method = dev.m_method ∧
    ∀ b, (dev.read_read_locked env).2 = read_outcome.returned b →
      b.m_releaser = some (releaser_ref.capture_buffer dev.m_last_used_buffer) := by
  unfold capture_device.read_read_locked
  split
  · exact ⟨rfl, rfl, rfl, fun b hb => by cases hb⟩
  · split
    · exact ⟨rfl, rfl, rfl, fun b hb => by cases hb⟩
    · refine ⟨rfl, rfl, rfl, ?_⟩
      intro b hb
      injection hb with hb
      subst hb
      rfl

theorem read_read_slot (dev : capture_device) (env : read_env) :
    (dev.read_read env).1.m_last_used_buffer
      = (dev.m_last_used_buffer + 1) % dev.m_buffer_count ∧
    (dev.read_read env).1.m_buffer_count = dev.m_buffer_count ∧
    (dev.read_read env).1.m_method = dev.m_method ∧
    ∀ b, (dev.read_read env).2 = read_outcome.returned b →
      b.m_releaser = some (releaser_ref.capture_buffer
        ((dev.m_last_used_buffer + 1) % dev.m_buffer_count)) := by
  unfold capture_device.read_read
  dsimp only
  split
  · exact ⟨rfl, rfl, rfl, fun b hb => by cases hb⟩
  · split
    · exact ⟨rfl, rfl, rfl, fun b hb => by cases hb⟩
    · exact read_read_locked_slot _ env

theorem leave_read_buffer_slot (r : capture_device × read_outcome) :
    (leave_read_buffer r).1.m_last_used_buffer = r.1.m_last_used_buffer ∧
    (leave_read_buffer r).1.m_buffer_count = r.1.m_buffer_count ∧
    (leave_read_buffer r).1.m_method = r.1.m_method ∧
    (leave_read_buffer r).2 = r.2 := by
  unfold leave_read_buffer
  split <;> exact ⟨rfl, rfl, rfl, rfl⟩

theorem after_read_dev (w : capture_world) (r : capture_device × read_outcome) :
    (w.after_read r).dev = r.1 ∧
    (w.after_read r).hardware_concurrency = w.hardware_concurrency ∧
    ((w.after_read r).live = w.live ∨
      ∃ b, r.2 = read_outcome.returned b ∧ (w.after_read r).live = w.live ++ [b]) := by
  unfold capture_world.after_read
  split
  · rename_i b hb
    exact ⟨rfl, rfl, Or.inr ⟨b, hb, rfl⟩⟩
  · exact ⟨rfl, rfl, Or.inl rfl⟩

theorem read_buffer_slot (dev : capture_device) (hc : Nat) (env : read_env)
    (hm : dev.m_method = capture_method.READ)
    (hcount : dev.m_buffer_count = 0 ∨ dev.m_buffer_count = compute_buffer_count hc) :
    (dev.read_buffer hc env).1.m_method = capture_method.READ ∧
    (dev.read_buffer hc env).1.m_buffer_count = compute_buffer_count hc ∧
    (dev.read_buffer hc env).1.m_last_used_buffer
      = (dev.m_last_used_buffer + 1) % compute_buffer_count hc ∧
    ∀ b, (dev.read_buffer hc env).2 = read_outcome.returned b →
      b.m_releaser = some (releaser_ref.capture_buffer
        ((dev.m_last_used_buffer + 1) % compute_buffer_count hc)) := by
  have hdev : ∀ d : capture_device, d.m_method = capture_method.READ →
      d.m_buffer_count = compute_buffer_count hc →
      d.m_last_used_buffer = dev.m_last_used_buffer →
      (leave_read_buffer (d.read_read env)).1.m_method = capture_method.READ ∧
      (leave_read_buffer (d.read_read env)).1.m_buffer_count = compute_buffer_count hc ∧
      (leave_read_buffer (d.read_read env)).1.m_last_used_buffer
        = (dev.m_last_used_buffer + 1) % compute_buffer_count hc ∧
      ∀ b, (leave_read_buffer (d.read_read env)).2 = read_outcome.returned b →
        b.m_releaser = some (releaser_ref.capture_buffer
          ((dev.m_last_used_buffer + 1) % compute_buffer_count hc)) := by
    intro d hdm hdc hdl
    obtain ⟨l1, l2, l3, l4⟩ := leave_read_buffer_slot (d.read_read env)
    obtain ⟨r1, r2, r3, r4⟩ := read_read_slot d env
    rw [hdc, hdl] at r1 r4
    refine ⟨by rw [l3, r3, hdm], by rw [l2, r2, hdc], by rw [l1, r1], ?_⟩
    intro b hb
    rw [l4] at hb
    exact r4 b hb
  simp only [capture_device.read_buffer, hm]
  split
  · exact hdev _ hm rfl rfl
  · rename_i h0
    rcases hcount with h | h
    · exact absurd h h0
    · exact hdev _ hm h rfl

theorem rotation_step (hc calls : Nat) (w : capture_world) (op : capture_op)
    (h : rotation_inv hc calls w) :
    rotation_inv hc (calls + enters_read w op) (capture_step w op) := by
  obtain ⟨hm, hhc, hcount, hlast⟩ := h
  cases op with
  | read_buffer env =>
    simp only [capture_step, enters_read]
    split
    · exact ⟨hm, hhc, hcount, by simpa using hlast⟩
    · obtain ⟨a1, a2, _⟩ := after_read_dev w (w.dev.read_buffer w.hardware_concurrency env)
      rw [hhc] at a1
      obtain ⟨r1, r2, r3, _⟩ := read_buffer_slot w.dev hc env hm hcount
      refine ⟨?_, ?_, Or.inr ?_, ?_⟩
      · rw [hhc, a1]; exact r1
      · rw [a2]; exact hhc
      · rw [hhc, a1]; exact r2
      · rw [hhc, a1, r3, hlast]
        simp [Nat.add_mod]
  | resume env =>
    simp only [capture_step, enters_read, Nat.add_zero]
    split
    · split
      · split
        · exact ⟨hm, hhc, hcount, hlast⟩
        · obtain ⟨a1, a2, _⟩ :=
            after_read_dev w (leave_read_buffer (w.dev.read_read_locked env))
          obtain ⟨l1, l2, l3, _⟩ := leave_read_buffer_slot (w.dev.read_read_locked env)
          obtain ⟨r1, r2, r3, _⟩ := read_read_locked_slot w.dev env
          refine ⟨?_, ?_, ?_, ?_⟩
          · rw [a1, l3, r3]; exact hm
          · rw [a2]; exact hhc
          · rw [a1, l2, r2]; exact hcount
          · rw [a1, l1, r1]; exact hlast
      · exact ⟨hm, hhc, hcount, hlast⟩
    · exact ⟨hm, hhc, hcount, hlast⟩
  | release k stray =>
    simp only [capture_step, enters_read, Nat.add_zero]
    split
    · exact ⟨hm, hhc, hcount, hlast⟩
    · split
      · have hrel : ∀ slot : Nat,
            (capture_buffer.release w.dev slot stray).1.m_method = w.dev.m_method ∧
            (capture_buffer.release w.dev slot stray).1.m_buffer_count
              = w.dev.m_buffer_count ∧
            (capture_buffer.release w.dev slot stray).1.m_last_used_buffer
              = w.dev.m_last_used_buffer := by
          intro slot
          unfold capture_buffer.release
          split
          · exact ⟨rfl, rfl, rfl⟩
          · dsimp only
            split <;> exact ⟨rfl, rfl, rfl⟩
        refine ⟨(hrel _).1.trans hm, hhc, ?_, (hrel _).2.2.trans hlast⟩
        dsimp only
        rw [(hrel _).2.1]
        exact hcount
      · exact ⟨hm, hhc, hcount, hlast⟩

theorem rotation_run (hc : Nat) (ops : List capture_op) :
    ∀ (calls : Nat) (w : capture_world), rotation_inv hc calls w →
      rotation_inv hc (calls + reads_entered w ops) (capture_run w ops) := by
  induction ops with
  | nil => intro calls w h; simpa [reads_entered, capture_run] using h
  | cons op ops ih =>
    intro calls w h
    have := ih _ _ (rotation_step hc calls w op h)
    simpa [reads_entered, capture_run, Nat.add_assoc] using this

theorem rotation_covers (n c s : Nat) (hn : 0 < n) (hs : s < n) :
    ∃ j, (j < n ∧ (c + 1 + j) % n = s) ∧ ∀ i, (i < n ∧ (c + 1 + i) % n = s) → i = j := by
  have hmod : ∀ x, x < n + n → x % n = if x < n then x else x - n := by
    intro x hx
    split
    · exact Nat.mod_eq_of_lt (by assumption)
    · rw [Nat.mod_eq_sub_mod (by omega), Nat.mod_eq_of_lt (by omega)]
  have ha : (c + 1) % n < n := Nat.mod_lt _ hn
  have hshift : ∀ j, j < n → (c + 1 + j) % n = ((c + 1) % n + j) % n := by
    intro j _
    rw [Nat.add_mod, Nat.mod_eq_of_lt (a := j) (by assumption)]
  by_cases hsa : (c + 1) % n ≤ s
  · refine ⟨s - (c + 1) % n, ⟨by omega, ?_⟩, ?_⟩
    · rw [hshift _ (by omega), hmod _ (by omega)]
      split <;> omega
    · rintro i ⟨hi, hi2⟩
      rw [hshift i hi, hmod _ (by omega)] at hi2
      split at hi2 <;> omega
  · refine ⟨s + n - (c + 1) % n, ⟨by omega, ?_⟩, ?_⟩
    · rw [hshift _ (by omega), hmod _ (by omega)]
      split <;> omega
    · rintro i ⟨hi, hi2⟩
      rw [hshift i hi, hmod _ (by omega)] at hi2
      split at hi2 <;> omega

/-- C15, the claim as stated fails: with 2 slots, a `read_buffer` call whose
`::read` fails has advanced `m_last_used_buffer` to 1, so the first successful
call uses slot 0 and not slot `1 mod 2`; and when a failed call lies between
two successful ones, both successful calls use slot 1. -/
theorem failed_read_consumes_slot :
    compute_buffer_count 2 = 2 ∧
    (capture_run (capture_world.opened 2 capture_method.READ format_yuyv_640x480)
      [capture_op.read_buffer env_read_fails,
       capture_op.read_buffer env_read]).live.map (fun b => b.m_releaser)
      = [some (releaser_ref.capture_buffer 0)] ∧
    (capture_run (capture_world.opened 2 capture_method.READ format_yuyv_640x480)
      [capture_op.read_buffer env_read]).live.map (fun b => b.m_releaser)
      = [some (releaser_ref.capture_buffer 1)] ∧
    (capture_run (capture_world.opened 2 capture_method.READ format_yuyv_640x480)
      [capture_op.read_buffer env_read, capture_op.release 0 ⟨format.UNKNOWN, 0⟩,
       capture_op.read_buffer env_read_fails,
       capture_op.read_buffer env_read]).live.map (fun b => b.m_releaser)
      = [some (releaser_ref.capture_buffer 1)] := by
  decide

/-- C15, amended: read strategy with `N = max(hardware_concurrency, 2)`
slots, after any run in which `k` calls of `read_buffer` have executed
`read_read`, whether their `::read` succeeded or failed. `N ≥ 2`;
`m_last_used_buffer` is `k mod N` and is below `N`; the next call sets it to
`(k + 1) mod N` and a Buffer it returns wraps that slot; a call that waited
and resumes returns a Buffer on slot `k mod N`; and any `N` consecutive calls
`c + 1, ..., c + N` use every slot exactly once. -/
theorem read_slot_rotation (hc : Nat) (m_format : v4l2_pix_format) (ops : List capture_op) :
    2 ≤ compute_buffer_count hc ∧
    (capture_run (capture_world.opened hc capture_method.READ m_format)
        ops).dev.m_last_used_buffer
      = reads_entered (capture_world.opened hc capture_method.READ m_format) ops
          % compute_buffer_count hc ∧
    (capture_run (capture_world.opened hc capture_method.READ m_format)
        ops).dev.m_last_used_buffer < compute_buffer_count hc ∧
    (∀ env : read_env,
      ((capture_run (capture_world.opened hc capture_method.READ m_format) ops).dev.read_buffer
          hc env).1.m_last_used_buffer
        = (reads_entered (capture_world.opened hc capture_method.READ m_format) ops + 1)
            % compute_buffer_count hc ∧
      ∀ b,
        ((capture_run (capture_world.opened hc capture_method.READ m_format)
            ops).dev.read_buffer hc env).2 = read_outcome.returned b →
        b.m_releaser = some (releaser_ref.capture_buffer
          ((reads_entered (capture_world.opened hc capture_method.READ m_format) ops + 1)
            % compute_buffer_count hc))) ∧
    (∀ (env : read_env) (b : image_buffer),
      ((capture_run (capture_world.opened hc capture_method.READ m_format)
          ops).dev.read_read_locked env).2 = read_outcome.returned b →
      b.m_releaser = some (releaser_ref.capture_buffer
        (reads_entered (capture_world.opened hc capture_method.READ m_format) ops
          % compute_buffer_count hc))) ∧
    (∀ c s : Nat, s < compute_buffer_count hc →
      ∃ j, (j < compute_buffer_count hc ∧ (c + 1 + j) % compute_buffer_count hc = s) ∧
        ∀ i, (i < compute_buffer_count hc ∧ (c + 1 + i) % compute_buffer_count hc = s) →
          i = j) := by
  have hN : 2 ≤ compute_buffer_count hc := by
    unfold compute_buffer_count
    split <;> omega
  have h0 : rotation_inv hc 0 (capture_world.opened hc capture_method.READ m_format) :=
    ⟨rfl, rfl, Or.inl rfl, by simp [capture_world.opened]⟩
  have hrun := rotation_run hc ops 0 _ h0
  rw [Nat.zero_add] at hrun
  obtain ⟨hm, _, hcount, hlast⟩ := hrun
  refine ⟨hN, hlast, ?_, ?_, ?_, ?_⟩
  · rw [hlast]
    exact Nat.mod_lt _ (by omega)
  · intro env
    obtain ⟨_, _, r3, r4⟩ := read_buffer_slot _ hc env hm hcount
    rw [hlast] at r3 r4
    have hmod : (reads_entered (capture_world.opened hc capture_method.READ m_format) ops
          % compute_buffer_count hc + 1) % compute_buffer_count hc
        = (reads_entered (capture_world.opened hc capture_method.READ m_format) ops + 1)
          % compute_buffer_count hc := by
      simp [Nat.add_mod]
    rw [hmod] at r3 r4
    exact ⟨r3, r4⟩
  · intro env b hb
    have := (read_read_locked_slot _ env).2.2.2 b hb
    rw [hlast] at this
    exact this
  · intro c s hs
    exact rotation_covers _ c s (by omega) hs

end v4l2

/-! ## `libjpeg_instance`: contexts are reused and never destroyed -/

theorem pool_accounted_length (s : pool_state) (h : pool_accounted s) :
    s.impl_queue.length + (outstanding s.handles).length = s.constructed := by
  have := h.length_eq
  simpa using this

theorem pool_step_constructed (s : pool_state) (op : pool_op) :
    (pool_step s op).constructed = s.constructed ∨
    (s.impl_queue = [] ∧ (pool_step s op).impl_queue = [] ∧
      (pool_step s op).constructed = s.constructed + 1) := by
  cases op with
  | create => left; rfl
  | move_construct h =>
    simp only [pool_step]
    split <;> (left; rfl)
  | get h =>
    simp only [pool_step]
    split
    · split
      · rename_i hempty
        right
        exact ⟨List.getLast?_eq_none_iff.1 hempty, List.getLast?_eq_none_iff.1 hempty, rfl⟩
      · left; rfl
    · left; rfl
  | destroy h =>
    simp only [pool_step]
    split <;> (left; rfl)

theorem max_outstanding_ge (ops : List pool_op) (s : pool_state) :
    (outstanding s.handles).length ≤ max_outstanding s ops := by
  cases ops with
  | nil => exact Nat.le_refl _
  | cons op ops => exact Nat.le_max_left _ _

theorem max_outstanding_eq (ops : List pool_op) :
    ∀ s : pool_state, pool_accounted s →
      max s.constructed (max_outstanding s ops) = (pool_run s ops).constructed := by
  induction ops with
  | nil =>
    intro s hs
    have := pool_accounted_length s hs
    simp only [max_outstanding, pool_run]
    omega
  | cons op ops ih =>
    intro s hs
    have hlen := pool_accounted_length s hs
    have hs1 := pool_accounted_step s op hs
    have hlen1 := pool_accounted_length _ hs1
    have hih := ih _ hs1
    have hge := max_outstanding_ge ops (pool_step s op)
    simp only [max_outstanding, pool_run]
    rcases pool_step_constructed s op with hc | ⟨_, hq, hc⟩
    · rw [hc] at hih
      omega
    · rw [hq] at hlen1
      simp only [List.length_nil, Nat.zero_add] at hlen1
      omega

example : max_outstanding pool_empty
    [.create, .get 0, .create, .get 1, .destroy 0, .create, .get 2] = 2 := by
  decide

/-- C16: in every state `s` reached from the empty pool. A step constructs a
context only when `impl_queue` is empty, and then exactly one; `get` on a
handle without context and a non-empty `impl_queue` takes its back element,
the destructor of a holding handle puts its context at the back, so a `get`
right after a return receives the context just returned; the idle contexts and
the held ones together are all the contexts ever constructed and their number
never decreases; and the number constructed is the largest number of contexts
held at the same time during the run. -/
theorem pool_reuses_contexts (ops : List pool_op) :
    (∀ op : pool_op,
      (pool_step (pool_run pool_empty ops) op).constructed
          = (pool_run pool_empty ops).constructed ∨
      ((pool_run pool_empty ops).impl_queue = [] ∧
        (pool_step (pool_run pool_empty ops) op).constructed
          = (pool_run pool_empty ops).constructed + 1)) ∧
    (∀ (h : Nat) (idle : List Nat) (c : Nat),
      (pool_run pool_empty ops).handles[h]? = some (handle_state.live none) →
      (pool_run pool_empty ops).impl_queue = idle ++ [c] →
      (pool_step (pool_run pool_empty ops) (pool_op.get h)).handles[h]?
          = some (handle_state.live (some c)) ∧
      (pool_step (pool_run pool_empty ops) (pool_op.get h)).impl_queue = idle ∧
      (pool_step (pool_run pool_empty ops) (pool_op.get h)).constructed
          = (pool_run pool_empty ops).constructed) ∧
    (∀ (h h2 c : Nat), h ≠ h2 →
      (pool_run pool_empty ops).handles[h]? = some (handle_state.live (some c)) →
      (pool_run pool_empty ops).handles[h2]? = some (handle_state.live none) →
      (pool_step (pool_step (pool_run pool_empty ops) (pool_op.destroy h))
          (pool_op.get h2)).handles[h2]? = some (handle_state.live (some c))) ∧
    (pool_run pool_empty ops).impl_queue.length
        + (outstanding (pool_run pool_empty ops).handles).length
      = (pool_run pool_empty ops).constructed ∧
    (∀ op : pool_op,
      (pool_run pool_empty ops).constructed
        ≤ (pool_step (pool_run pool_empty ops) op).constructed) ∧
    (pool_run pool_empty ops).constructed = max_outstanding pool_empty ops := by
  have hacc := pool_accounted_run ops pool_empty pool_accounted_empty
  have hmax := max_outstanding_eq ops pool_empty pool_accounted_empty
  generalize pool_run pool_empty ops = s at hacc hmax ⊢
  have hset : ∀ (l : List handle_state) (i : Nat) (x y : handle_state),
      l[i]? = some x → (l.set i y)[i]? = some y := by
    intro l i x y hx
    have hlt : i < l.length := by
      by_contra hcon
      rw [List.getElem?_eq_none (by omega)] at hx
      cases hx
    rw [List.getElem?_set]
    simp [hlt]
  refine ⟨?_, ?_, ?_, pool_accounted_length s hacc, ?_, ?_⟩
  · intro op
    rcases pool_step_constructed s op with h | ⟨h1, _, h2⟩
    · exact Or.inl h
    · exact Or.inr ⟨h1, h2⟩
  · intro h idle c hh hq
    have hlast : s.impl_queue.getLast? = some c := by rw [hq]; simp
    simp only [pool_step, hh, hlast]
    refine ⟨hset _ _ _ _ hh, ?_, trivial⟩
    rw [hq]
    simp
  · intro h h2 c hne hh hh2
    have hd : pool_step s (pool_op.destroy h)
        = { impl_queue := s.impl_queue ++ [c],
            handles := s.handles.set h handle_state.destroyed,
            constructed := s.constructed } := by
      simp only [pool_step, hh]
    rw [hd]
    have hh3 : (s.handles.set h handle_state.destroyed)[h2]?
        = some (handle_state.live none) := by
      rw [List.getElem?_set]
      simp [hne, hh2]
    have hlast : (s.impl_queue ++ [c]).getLast? = some c := by simp
    simp only [pool_step, hh3, hlast]
    exact hset _ _ _ _ hh3
  · intro op
    rcases pool_step_constructed s op with h | ⟨_, _, h⟩ <;> omega
  · simp only [pool_empty] at hmax
    have : max 0 (max_outstanding { impl_queue := [], handles := [], constructed := 0 } ops)
        = max_outstanding pool_empty ops := by
      simp [pool_empty]
    rw [this] at hmax
    exact hmax.symm

/-! ## `unique_fd`: which descriptors are closed -/

namespace posix

theorem shift_down_eq (x : unique_fd) (rest : List unique_fd) :
    shift_down (x :: rest) = rest ++ [if rest = [] then x else { m_value := -1 }] := by
  simp only [shift_down]
  induction rest generalizing x with
  | nil => simp [shift_from]
  | cons y rest ih =>
    rw [shift_from, ih]
    cases rest <;> simp [unique_fd.move_assign]

theorem vector_erase_inner (v : List unique_fd) (position : Nat)
    (h : position + 1 < v.length) :
    vector_erase v position = (v.eraseIdx position, []) := by
  have hlt : position < v.length := by omega
  have hdrop : v.drop position = v[position] :: v.drop (position + 1) :=
    List.drop_eq_getElem_cons hlt
  have hne : v.drop (position + 1) ≠ [] := by
    intro hnil
    have := congrArg List.length hnil
    simp at this
    omega
  unfold vector_erase
  rw [if_pos hlt]
  dsimp only
  rw [hdrop, shift_down_eq, if_neg hne, ← List.append_assoc, List.getLast?_concat,
    List.dropLast_concat]
  refine Prod.ext ?_ ?_
  · simp only
    rw [List.eraseIdx_eq_take_drop_succ]
  · simp [unique_fd.destroy]

/-- C18 at the failing input: a client vector with descriptors 3, 4, 5 from
which `send` erases the first client. The erase closes no descriptor and
leaves 4 and 5; destroying the remaining objects closes 4 and 5, so
descriptor 3 is never closed. The same happens whenever the erased element is
not the last one, and in the plain sequence `a(3)`, `b(4)`, `a = move(b)`,
`~a`, `~b`, which closes only 4. -/
theorem erase_leaks_descriptor :
    vector_erase [{ m_value := 3 }, { m_value := 4 }, { m_value := 5 }] 0
      = ([{ m_value := 4 }, { m_value := 5 }], []) ∧
    ((vector_erase [{ m_value := 3 }, { m_value := 4 }, { m_value := 5 }] 0).1.map
        unique_fd.destroy).flatten = [4, 5] ∧
    (∀ (v : List unique_fd) (position : Nat), position + 1 < v.length →
      vector_erase v position = (v.eraseIdx position, [])) ∧
    fd_run { objects := [], closed := [] }
      [fd_op.construct 3, fd_op.construct 4, fd_op.move_assign 0 1, fd_op.destroy 0,
       fd_op.destroy 1]
      = some { objects := [none, none], closed := [4] } := by
  refine ⟨by decide, by decide, vector_erase_inner, by decide⟩

end posix

/-! ## The worker loop: counters and failures -/

example : ((worker_iteration none env_ok worker_start).1.frame_counter,
    (worker_iteration none env_ok worker_start).1.byte_counter,
    (worker_iteration none env_ok worker_start).1.sent,
    (worker_iteration none env_ok worker_start).2)
    = (11, 1004, [{ fd := 7, offset := 0, len := 4, r := 4 }],
       iteration_outcome.completed
         { m_data := 4096, m_size := 4,
           m_releaser := some (releaser_ref.capture_buffer 0) }) := by
  decide

example : ((worker_iteration (some id) env_ok worker_start).1.frame_counter,
    (worker_iteration (some id) env_ok worker_start).1.byte_counter,
    (worker_iteration (some id) env_ok worker_start).2)
    = (11, 1100, iteration_outcome.completed
        { m_data := 8192, m_size := 100, m_releaser := some releaser_ref.c_heap }) := by
  decide

example : (worker_loop none
    [(true, env_bad_header), (true, env_ok), (true, env_dqbuf_fails), (true, env_ok)]
    worker_start).2 = loop_exit.terminated (failure.v4l2_exception "VIDIOC_DQBUF failed") := by
  decide

theorem after_throw_cases (s : worker_state) (e : failure) :
    (after_throw s e).1 = s ∧
    (∀ b, (after_throw s e).2 ≠ iteration_outcome.completed b) ∧
    ((after_throw s e).2 = iteration_outcome.caught ↔ e = failure.libjpeg_exception) ∧
    (∀ message, e = failure.v4l2_exception message →
      (after_throw s e).2 = iteration_outcome.propagated (failure.v4l2_exception message)) := by
  cases e <;> simp [after_throw]

theorem worker_iteration_cases
    (frame_processor : Option (uncompressed_frame → uncompressed_frame))
    (env : iteration_env) (s : worker_state) :
    (∃ w e, worker_iteration frame_processor env s = after_throw { s with world := w } e) ∨
    (∃ w b, worker_iteration frame_processor env s = broadcast_and_count s w env b) := by
  unfold worker_iteration
  split
  · exact Or.inl ⟨_, _, rfl⟩
  · split
    · split
      · exact Or.inl ⟨_, _, rfl⟩
      · split
        · exact Or.inl ⟨_, _, rfl⟩
        · exact Or.inr ⟨_, _, rfl⟩
    · exact Or.inr ⟨_, _, rfl⟩

theorem to_int32_of_range (v : Int) (h0 : -2 ^ 31 ≤ v) (h1 : v < 2 ^ 31) : to_int32 v = v := by
  unfold to_int32
  rw [Int.emod_eq_of_lt (by omega) (by omega)]
  omega

end video_streamer
